import Mathlib

/-! Address spaces of the Nachos user-program kernel (`userprog/addrspace.cc`).

A shallow embedding of `addrspace.cc`.  The global variables of the kernel
(`machine->mainMemory`, the frame table arrays `pid_of_physpage`,
`vpn_of_physpage`, `physpage_owner`, `physpage_shared`, `physpage_FIFO`,
`physpage_LRU`, `physpage_LRUclock`, the bump counter `numPagesAllocated`, the
policy selector `pageReplaceAlgo`, `threadArray`, `currentThread`, `stats`) are
the fields of an explicit `State` that every operation takes and returns.

Conventions.

* Arrays are total functions on `Nat`; an access outside the bounds of the C++
  array, a dereference of a null pointer, a failed `ASSERT` and the use of an
  uninitialised variable make the operation return `none`.
* An address space is referred to through the slot of `threadArray` that holds
  it (`threadArray[pid]->space`), so that the aliasing between `this`, the
  parent space and the space of the owner of an evicted frame is the one of the
  C++ pointers.
* `Random()` is an external generator: its future outputs are the list
  `randomStream`; the operation that needs more outputs than the list holds
  returns `none`.
* `DEBUG`, `interrupt->SetLevel` and `SortedInsertInWaitQueue` do not touch the
  memory-management state and are left out.
-/

namespace Nachos

/-! ## Constants, files and headers -/

/-- Compile-time constants of the simulator and of the object format.  Their
declarations (`machine.h`, `noff.h`, `translate.cc`) are not among the sources,
so they are parameters; a page and the physical memory are not empty. -/
structure Config where
  PageSize : Nat
  NumPhysPages : Nat
  UserStackSize : Nat
  NOFFMAGIC : Nat
  WordToHost : Nat → Nat
  PageSize_pos : 0 < PageSize
  NumPhysPages_pos : 0 < NumPhysPages

/-- Size in bytes of `machine->mainMemory`. -/
def Config.MemorySize (cfg : Config) : Nat := cfg.NumPhysPages * cfg.PageSize

/-- Modelled from the spec: the `divRoundUp` macro (`utility.h` is not among the
sources), the number of pages `⌈n / s⌉`. -/
def divRoundUp (n s : Nat) : Nat := (n + s - 1) / s

/-- Value of a 32-bit word read as a C `int`. -/
def toInt32 (w : Nat) : Int :=
  if w % 2 ^ 32 < 2 ^ 31 then ((w % 2 ^ 32 : Nat) : Int) else ((w % 2 ^ 32 : Nat) : Int) - 2 ^ 32

/-- Value of a C `int` converted to `unsigned int`. -/
def toUInt32 (i : Int) : Nat := (i % 2 ^ 32).toNat

/-- An open file is the list of its bytes. -/
abbrev OpenFile := List Nat

/-- Modelled from the spec: number of bytes that `readAt(handle, dst, length,
offset)` of the file system delivers, the part of the request inside the file. -/
def ReadAtCount (file : OpenFile) (numBytes position : Int) : Nat :=
  if numBytes ≤ 0 ∨ position < 0 ∨ (file.length : Int) ≤ position then 0
  else min numBytes.toNat (file.length - position.toNat)

/-- Modelled from the spec: `readAt(handle, dst, length, offset)` of the file
system with destination `&into[dst]`; bytes outside the file are not delivered
and the destination keeps its content there. -/
def ReadAt (file : OpenFile) (into : Nat → Nat) (dst : Nat) (numBytes position : Int) : Nat → Nat :=
  fun a =>
    if dst ≤ a ∧ a - dst < ReadAtCount file numBytes position then
      file.getD (position.toNat + (a - dst)) 0
    else into a

/-- Segment descriptor of the object format (`noff.h`), as raw 32-bit words. -/
structure Segment where
  size : Nat
  virtualAddr : Nat
  inFileAddr : Nat
deriving DecidableEq, Repr

/-- Header of the object format (`noff.h`), as raw 32-bit words. -/
structure NoffHeader where
  noffMagic : Nat
  code : Segment
  initData : Segment
  uninitData : Segment
deriving DecidableEq, Repr

/-- Word number `k` of a file, least significant byte first. -/
def fileWord (file : OpenFile) (k : Nat) : Nat :=
  file.getD (4 * k) 0 % 256 + 256 * (file.getD (4 * k + 1) 0 % 256)
    + 65536 * (file.getD (4 * k + 2) 0 % 256) + 16777216 * (file.getD (4 * k + 3) 0 % 256)

/-- Modelled from the spec: `ReadAt((char *)&noffH, sizeof(noffH), 0)`, the
fixed layout of the header (`magic`, then the records `{size, virtualAddr,
inFileAddr}` of `code`, `initData` and `uninitData`).  A file shorter than the
header leaves part of the structure uninitialised. -/
def readNoffHeader (file : OpenFile) : Option NoffHeader :=
  if file.length < 40 then none
  else some
    { noffMagic := fileWord file 0
      code := { size := fileWord file 1, virtualAddr := fileWord file 2, inFileAddr := fileWord file 3 }
      initData := { size := fileWord file 4, virtualAddr := fileWord file 5, inFileAddr := fileWord file 6 }
      uninitData := { size := fileWord file 7, virtualAddr := fileWord file 8, inFileAddr := fileWord file 9 } }

/-- `SwapHeader`: apply `WordToHost` to every word of the header. -/
def SwapHeader (cfg : Config) (noffH : NoffHeader) : NoffHeader :=
  { noffMagic := cfg.WordToHost noffH.noffMagic
    code :=
      { size := cfg.WordToHost noffH.code.size
        virtualAddr := cfg.WordToHost noffH.code.virtualAddr
        inFileAddr := cfg.WordToHost noffH.code.inFileAddr }
    initData :=
      { size := cfg.WordToHost noffH.initData.size
        virtualAddr := cfg.WordToHost noffH.initData.virtualAddr
        inFileAddr := cfg.WordToHost noffH.initData.inFileAddr }
    uninitData :=
      { size := cfg.WordToHost noffH.uninitData.size
        virtualAddr := cfg.WordToHost noffH.uninitData.virtualAddr
        inFileAddr := cfg.WordToHost noffH.uninitData.inFileAddr } }

/-- The endian fix-up shared by the constructors and the fault handler: swap
the header when the magic mismatches and its `WordToHost` image matches. -/
def fixHeader (cfg : Config) (noffH : NoffHeader) : NoffHeader :=
  if noffH.noffMagic ≠ cfg.NOFFMAGIC ∧ cfg.WordToHost noffH.noffMagic = cfg.NOFFMAGIC then
    SwapHeader cfg noffH
  else noffH

/-- The `unsigned size = code.size + initData.size + uninitData.size +
UserStackSize` of the constructors: a sum of `int`s stored in 32 bits. -/
def headerSize (cfg : Config) (noffH : NoffHeader) : Nat :=
  toUInt32 (toInt32 noffH.code.size + toInt32 noffH.initData.size
    + toInt32 noffH.uninitData.size + (cfg.UserStackSize : Int))

/-! ## Page tables, address spaces and the kernel state -/

/-- Page table entry (`translate.h`, with the `shared` and `backed_up` flags
that `addrspace.cc` uses). -/
structure TranslationEntry where
  virtualPage : Int
  physicalPage : Int
  valid : Bool
  readOnly : Bool
  use : Bool
  dirty : Bool
  shared : Bool
  backed_up : Bool
deriving DecidableEq, Repr

/-- The fields of `ProcessAddressSpace`.  `backup` is a buffer of `backupSize`
bytes; `Executable` is `none` for a null handle. -/
structure ProcessAddressSpace where
  KernelPageTable : List TranslationEntry
  numVirtualPages : Nat
  backup : Nat → Nat
  backupSize : Nat
  execFile : Option String
  Executable : Option OpenFile

/-- The global state of the kernel that `addrspace.cc` reads and writes. -/
structure State where
  mainMemory : Nat → Nat
  numPagesAllocated : Nat
  pageReplaceAlgo : Int
  pid_of_physpage : Nat → Int
  vpn_of_physpage : Nat → Int
  physpage_owner : Nat → Option Nat
  physpage_shared : Nat → Bool
  physpage_FIFO : Nat → Int
  physpage_LRU : Nat → Int
  physpage_LRUclock : Nat → Int
  threadArray : Nat → Option ProcessAddressSpace
  currentThread : Nat
  totalTicks : Int
  totalPageFaults : Int
  sharedPageFaults : Int
  randomStream : List Nat
  fileSystem : String → Option OpenFile
  machineKernelPageTable : Option Nat
  machineKernelPageTableSize : Nat

/-- Array store `a[i] = v`. -/
def setAt {α : Type} (a : Nat → α) (i : Nat) (v : α) : Nat → α :=
  fun j => if j = i then v else a j

/-- The loop `for (j = 0; j < n; j++) dst[d + j] = src[so + j]` between two
different arrays. -/
def copyBytes (src : Nat → Nat) (so : Nat) (dst : Nat → Nat) (d : Nat) : Nat → Nat → Nat
  | 0 => dst
  | n + 1 => setAt (copyBytes src so dst d n) (d + n) (src (so + n))

/-- The loop `for (j = 0; j < n; j++) mem[d + j] = mem[so + j]` inside one
array: every iteration reads the array as the previous ones left it. -/
def moveBytes (so d : Nat) (mem : Nat → Nat) : Nat → Nat → Nat
  | 0 => mem
  | n + 1 => setAt (moveBytes so d mem n) (d + n) (moveBytes so d mem n (so + n))

/-- The call `bzero(&mem[start], len)`. -/
def bzero (mem : Nat → Nat) (start len : Nat) : Nat → Nat :=
  fun a => if start ≤ a ∧ a < start + len then 0 else mem a

/-! ## Replacement -/

/-- `get_random_physpage`: draw frames until one is not shared. -/
def get_random_physpage (cfg : Config) (shared : Nat → Bool) : List Nat → Option (Nat × List Nat)
  | [] => none
  | r :: rest =>
    if shared (r % cfg.NumPhysPages) = true then get_random_physpage cfg shared rest
    else if r % cfg.NumPhysPages < cfg.NumPhysPages then some (r % cfg.NumPhysPages, rest)
    else none

/-- The scan `for (i = 0; i < NumPhysPages; i++) if (pid_of_physpage[i] == -1) return i`. -/
def firstFree (cfg : Config) (s : State) : Option Nat :=
  (List.range cfg.NumPhysPages).find? (fun i => s.pid_of_physpage i == -1)

/-- Read `threadArray[key]->space->KernelPageTable[i]`. -/
def getPTE (s : State) (key i : Nat) : Option TranslationEntry :=
  match s.threadArray key with
  | none => none
  | some space => space.KernelPageTable[i]?

/-- Store `e` into `threadArray[key]->space->KernelPageTable[i]`. -/
def setPTE (s : State) (key i : Nat) (e : TranslationEntry) : State :=
  match s.threadArray key with
  | none => s
  | some space =>
    { s with
      threadArray :=
        setAt s.threadArray key (some { space with KernelPageTable := space.KernelPageTable.set i e }) }

/-- Replace the backup buffer of `threadArray[key]->space`. -/
def setBackup (s : State) (key : Nat) (b : Nat → Nat) : State :=
  match s.threadArray key with
  | none => s
  | some space => { s with threadArray := setAt s.threadArray key (some { space with backup := b }) }

/-- The writes of `replace_with_next_physpage` for the victim `page_val` whose
frame table entry names page `vpn` of the space `space` in slot `pid`, with
`pte` the entry of that page: when the page is dirty its frame is copied to
`backup[vpn * PageSize ..]` and `backed_up` is set; `valid` is cleared; the
frame is released and its LRU stamps are set. -/
def evictPage (cfg : Config) (s : State) (page_val pid vpn : Nat) (space : ProcessAddressSpace)
    (pte : TranslationEntry) : State :=
  let pte1 : TranslationEntry := if pte.dirty = true then { pte with backed_up := true } else pte
  let space1 : ProcessAddressSpace :=
    { space with
      backup :=
        if pte.dirty = true then
          copyBytes s.mainMemory (page_val * cfg.PageSize) space.backup (vpn * cfg.PageSize) cfg.PageSize
        else space.backup
      KernelPageTable := space.KernelPageTable.set vpn { pte1 with valid := false } }
  { s with
    threadArray := setAt s.threadArray pid (some space1)
    pid_of_physpage := setAt s.pid_of_physpage page_val (-1)
    physpage_owner := setAt s.physpage_owner page_val none
    vpn_of_physpage := setAt s.vpn_of_physpage page_val (-1)
    physpage_LRUclock := setAt s.physpage_LRUclock page_val 1
    physpage_LRU := setAt s.physpage_LRU page_val s.totalTicks }

/-- The part of `replace_with_next_physpage` after the victim `page_val` is
chosen: the owner `threadArray[pid]->space->KernelPageTable[vpn]` is looked up
through the frame table, and a frame that is not shared is evicted and
returned; for a shared frame the result is -1. -/
def evict (cfg : Config) (s : State) (page_val : Nat) : Option (State × Int) :=
  let pid := s.pid_of_physpage page_val
  let vpn := s.vpn_of_physpage page_val
  if s.physpage_shared page_val = false then
    if pid < 0 ∨ vpn < 0 then none
    else
      match s.threadArray pid.toNat with
      | none => none
      | some space =>
        match space.KernelPageTable[vpn.toNat]? with
        | none => none
        | some pte =>
          if pte.dirty = true ∧ space.backupSize < vpn.toNat * cfg.PageSize + cfg.PageSize then none
          else some (evictPage cfg s page_val pid.toNat vpn.toNat space pte, (page_val : Int))
  else some (s, -1)

/-- `replace_with_next_physpage`: bump allocation under policy 0, else the
first free frame, else eviction of a random victim; `page_val` is not
initialised under the policies that are not implemented. -/
def replace_with_next_physpage (cfg : Config) (s : State) (_parent_physpage : Int) :
    Option (State × Int) :=
  if s.pageReplaceAlgo = 0 then
    some ({ s with numPagesAllocated := s.numPagesAllocated + 1 }, (s.numPagesAllocated : Int))
  else
    match firstFree cfg s with
    | some i => some (s, (i : Int))
    | none =>
      if s.pageReplaceAlgo = 1 then
        match get_random_physpage cfg s.physpage_shared s.randomStream with
        | none => none
        | some (page_val, rest) => evict cfg { s with randomStream := rest } page_val
      else none

/-! ## Construction from an executable -/

/-- The first loop of `ProcessAddressSpace(OpenFile*)`: entries `0 .. k-1`,
each with a frame from `replace_with_next_physpage(-1)` whose owner thread is
recorded. -/
def loadPages (cfg : Config) : Nat → State → Option (State × List TranslationEntry)
  | 0, s => some (s, [])
  | k + 1, s =>
    match loadPages cfg k s with
    | none => none
    | some (s1, table) =>
      match replace_with_next_physpage cfg s1 (-1) with
      | none => none
      | some (s2, newPage) =>
        if newPage < 0 ∨ (cfg.NumPhysPages : Int) ≤ newPage then none
        else
          some
            ({ s2 with physpage_owner := setAt s2.physpage_owner newPage.toNat (some s2.currentThread) },
              table ++
                [{ virtualPage := (k : Int), physicalPage := newPage, valid := true, use := false,
                   dirty := false, readOnly := false, shared := false, backed_up := false }])

/-- Copy of one segment in `ProcessAddressSpace(OpenFile*)`: a `ReadAt` of
`seg.size` bytes to the physical address of `seg.virtualAddr`.  A negative
`virtualAddr` is outside the model. -/
def loadSegment (cfg : Config) (executable : OpenFile) (table : List TranslationEntry)
    (mem : Nat → Nat) (seg : Segment) : Option (Nat → Nat) :=
  if 0 < toInt32 seg.size then
    if toInt32 seg.virtualAddr < 0 then none
    else
      match table[(toInt32 seg.virtualAddr).toNat / cfg.PageSize]? with
      | none => none
      | some entry =>
        if entry.physicalPage < 0 then none
        else
          let dst := entry.physicalPage.toNat * cfg.PageSize
            + (toInt32 seg.virtualAddr).toNat % cfg.PageSize
          if cfg.MemorySize < dst + ReadAtCount executable (toInt32 seg.size) (toInt32 seg.inFileAddr) then
            none
          else some (ReadAt executable mem dst (toInt32 seg.size) (toInt32 seg.inFileAddr))
  else some mem

/-- `ProcessAddressSpace::ProcessAddressSpace(OpenFile *executable)`.  The
constructor leaves `execFile` and `Executable` unset. -/
def loadFromFile (cfg : Config) (s : State) (executable : OpenFile) :
    Option (State × ProcessAddressSpace) :=
  match readNoffHeader executable with
  | none => none
  | some raw =>
    let noffH := fixHeader cfg raw
    if noffH.noffMagic ≠ cfg.NOFFMAGIC then none
    else
      let numVirtualPages := divRoundUp (headerSize cfg noffH) cfg.PageSize
      let size := (numVirtualPages * cfg.PageSize) % 2 ^ 32
      if cfg.NumPhysPages < numVirtualPages + s.numPagesAllocated then none
      else
        match loadPages cfg numVirtualPages s with
        | none => none
        | some (s1, table) =>
          if cfg.MemorySize < s1.numPagesAllocated * cfg.PageSize + size then none
          else
            let mem0 := bzero s1.mainMemory (s1.numPagesAllocated * cfg.PageSize) size
            match loadSegment cfg executable table mem0 noffH.code with
            | none => none
            | some mem1 =>
              match loadSegment cfg executable table mem1 noffH.initData with
              | none => none
              | some mem2 =>
                some
                  ({ s1 with mainMemory := mem2 },
                    { KernelPageTable := table, numVirtualPages := numVirtualPages,
                      backup := fun _ => 0, backupSize := size, execFile := none, Executable := none })

/-- `ProcessAddressSpace::ProcessAddressSpace(char *file)`: the global state is
not written. -/
def lateBind (cfg : Config) (s : State) (file : String) : Option ProcessAddressSpace :=
  match s.fileSystem file with
  | none => none
  | some executable =>
    match readNoffHeader executable with
    | none => none
    | some raw =>
      let noffH := fixHeader cfg raw
      let numVirtualPages := divRoundUp (headerSize cfg noffH) cfg.PageSize
      some
        { KernelPageTable :=
            (List.range numVirtualPages).map fun (i : Nat) =>
              { physicalPage := -1, virtualPage := (i : Int), shared := false, valid := false,
                dirty := false, use := false, readOnly := false, backed_up := false }
          numVirtualPages := numVirtualPages
          backup := fun _ => 0
          backupSize := (numVirtualPages * cfg.PageSize) % 2 ^ 32
          execFile := some file
          Executable := some executable }

/-! ## Fork -/

/-- The translation loop of `ProcessAddressSpace(ProcessAddressSpace*)` over
the entries of the parent from index `i` on; `npa` is `numPagesAllocated` and
`count` the number of frames reserved so far.  Returns the entries of the child
and the final `count`. -/
def copyEntries (npa : Nat) : List TranslationEntry → Nat → Nat → List TranslationEntry × Nat
  | [], _, count => ([], count)
  | p :: ps, i, count =>
    let rest := copyEntries npa ps (i + 1) (if p.shared = false ∧ p.valid = true then count + 1 else count)
    ({ virtualPage := (i : Int)
       physicalPage :=
         if p.shared = true then p.physicalPage
         else if p.valid = true then ((count + npa : Nat) : Int) else -1
       valid := p.valid, use := p.use, dirty := p.dirty, readOnly := p.readOnly
       shared := p.shared, backed_up := p.backed_up } :: rest.1, rest.2)

/-- `ProcessAddressSpace::ProcessAddressSpace(ProcessAddressSpace *parentSpace)`
with the parent in slot `parent`.  `execFile` and `Executable` are set under a
replacement policy only. -/
def forkSpace (cfg : Config) (s : State) (parent : Nat) : Option (State × ProcessAddressSpace) :=
  match s.threadArray parent with
  | none => none
  | some parentSpace =>
    let numVirtualPages := parentSpace.numVirtualPages
    let size := (numVirtualPages * cfg.PageSize) % 2 ^ 32
    if cfg.NumPhysPages < numVirtualPages + s.numPagesAllocated then none
    else if parentSpace.KernelPageTable.length < numVirtualPages then none
    else
      let r := copyEntries s.numPagesAllocated (parentSpace.KernelPageTable.take numVirtualPages) 0 0
      match parentSpace.KernelPageTable[0]? with
      | none => none
      | some p0 =>
        if 0 < size ∧ (p0.physicalPage < 0 ∨ cfg.MemorySize < p0.physicalPage.toNat * cfg.PageSize + size
            ∨ cfg.MemorySize < s.numPagesAllocated * cfg.PageSize + size) then none
        else
          some
            ({ s with
                mainMemory :=
                  moveBytes (p0.physicalPage.toNat * cfg.PageSize) (s.numPagesAllocated * cfg.PageSize)
                    s.mainMemory size
                numPagesAllocated := s.numPagesAllocated + r.2 },
              { KernelPageTable := r.1
                numVirtualPages := numVirtualPages
                backup := fun _ => 0
                backupSize := size
                execFile := if 0 < s.pageReplaceAlgo then parentSpace.execFile else none
                Executable :=
                  if 0 < s.pageReplaceAlgo then
                    match parentSpace.execFile with
                    | none => none
                    | some f => s.fileSystem f
                  else none })

/-- Copy the six flags of `p` into `c`, as every branch of
`manageChildParentTable` does. -/
def copyFlags (c p : TranslationEntry) : TranslationEntry :=
  { c with valid := p.valid, readOnly := p.readOnly, use := p.use, shared := p.shared,
           dirty := p.dirty, backed_up := p.backed_up }

/-- One iteration of the loop of `manageChildParentTable` for page `i`; `self`
is the slot of the child space (`this`), `parent` the slot of `parentSpace`. -/
def manageStep (cfg : Config) (self parent : Nat) (childpid : Int) (childthread : Option Nat)
    (s : State) (i : Nat) : Option State :=
  match getPTE s self i with
  | none => none
  | some c0 =>
    let sA := setPTE s self i { c0 with virtualPage := (i : Int) }
    match getPTE sA parent i with
    | none => none
    | some p =>
      if p.shared = true then
        match getPTE sA self i with
        | none => none
        | some c =>
          let sB := setPTE sA self i { c with physicalPage := p.physicalPage }
          match getPTE sB parent i, getPTE sB self i with
          | some p1, some c1 => some (setPTE sB self i (copyFlags c1 p1))
          | _, _ => none
      else if p.valid = true then
        match replace_with_next_physpage cfg sA p.physicalPage with
        | none => none
        | some (s1, ppn) =>
          match getPTE s1 self i with
          | none => none
          | some c =>
            let s2 := setPTE s1 self i { c with physicalPage := ppn }
            if ppn < 0 ∨ (cfg.NumPhysPages : Int) ≤ ppn then none
            else
              match getPTE s2 parent i with
              | none => none
              | some p1 =>
                if p1.physicalPage < 0 ∨ (cfg.NumPhysPages : Int) ≤ p1.physicalPage then none
                else
                  let f := ppn.toNat
                  let pf := p1.physicalPage.toNat
                  let s3 : State :=
                    { s2 with
                      pid_of_physpage := setAt s2.pid_of_physpage f childpid
                      vpn_of_physpage := setAt s2.vpn_of_physpage f (i : Int)
                      physpage_owner := setAt s2.physpage_owner f childthread
                      physpage_FIFO := setAt (setAt s2.physpage_FIFO f s2.totalTicks) pf (s2.totalTicks + 1)
                      physpage_LRU := setAt (setAt s2.physpage_LRU f s2.totalTicks) pf (s2.totalTicks + 1)
                      physpage_LRUclock := setAt (setAt s2.physpage_LRUclock f 1) pf 1
                      mainMemory := moveBytes (pf * cfg.PageSize) (f * cfg.PageSize) s2.mainMemory cfg.PageSize
                      totalPageFaults := s2.totalPageFaults + 1 }
                  match getPTE s3 self i with
                  | none => none
                  | some c1 => some (setPTE s3 self i (copyFlags c1 p1))
      else
        match getPTE sA self i with
        | none => none
        | some c =>
          let sB := setPTE sA self i { c with physicalPage := -1 }
          match getPTE sB parent i, getPTE sB self i with
          | some p1, some c1 => some (setPTE sB self i (copyFlags c1 p1))
          | _, _ => none

/-- The loop `for (i = 0; i < k; i++)` of `manageChildParentTable`. -/
def manageLoop (cfg : Config) (self parent : Nat) (childpid : Int) (childthread : Option Nat) :
    Nat → State → Option State
  | 0, s => some s
  | k + 1, s =>
    match manageLoop cfg self parent childpid childthread k s with
    | none => none
    | some s1 => manageStep cfg self parent childpid childthread s1 k

/-- `ProcessAddressSpace::manageChildParentTable(parentSpace, childpid,
childthread)` on the space in slot `self`: the page loop, then the copy of the
backup buffer of the parent. -/
def manageChildParentTable (cfg : Config) (s : State) (self parent : Nat) (childpid : Int)
    (childthread : Option Nat) : Option State :=
  match s.threadArray self with
  | none => none
  | some this =>
    let size := (this.numVirtualPages * cfg.PageSize) % 2 ^ 32
    match manageLoop cfg self parent childpid childthread this.numVirtualPages s with
    | none => none
    | some s1 =>
      match s1.threadArray self, s1.threadArray parent with
      | some child, some parentSpace =>
        if child.backupSize < size ∨ parentSpace.backupSize < size then none
        else some (setBackup s1 self (copyBytes parentSpace.backup 0 child.backup 0 size))
      | _, _ => none

/-! ## Destruction -/

/-- The loop of `cleanPages` over the entries of the table: the frame of every
valid entry that is not shared is released. -/
def cleanLoop (cfg : Config) : List TranslationEntry → State → Option State
  | [], s => some s
  | e :: es, s =>
    if e.valid = true ∧ e.shared = false then
      if e.physicalPage < 0 ∨ (cfg.NumPhysPages : Int) ≤ e.physicalPage then none
      else
        cleanLoop cfg es
          { s with
            vpn_of_physpage := setAt s.vpn_of_physpage e.physicalPage.toNat (-1)
            pid_of_physpage := setAt s.pid_of_physpage e.physicalPage.toNat (-1)
            physpage_owner := setAt s.physpage_owner e.physicalPage.toNat none }
    else cleanLoop cfg es s

/-- `ProcessAddressSpace::cleanPages` on the space in slot `self`.  The
constructors always allocate the table, so it is not null; deleting the table
and the executable handle does not write the global state. -/
def cleanPages (cfg : Config) (s : State) (self : Nat) : Option State :=
  match s.threadArray self with
  | none => none
  | some this =>
    if this.KernelPageTable.length < this.numVirtualPages then none
    else cleanLoop cfg (this.KernelPageTable.take this.numVirtualPages) s

/-- `ProcessAddressSpace::~ProcessAddressSpace`: `cleanPages`, after which the
space in slot `self` does not exist any more. -/
def destroySpace (cfg : Config) (s : State) (self : Nat) : Option State :=
  match cleanPages cfg s self with
  | none => none
  | some s1 => some { s1 with threadArray := setAt s1.threadArray self none }

/-! ## Shared memory and page faults -/

/-- The entry that the second loop of `AllocateSharedMemory` writes for the new
page `vpn` with frame `ppn`. -/
def sharedEntry (vpn ppn : Nat) : TranslationEntry :=
  { virtualPage := (vpn : Int), physicalPage := (ppn : Int), valid := true, use := false,
    dirty := false, readOnly := false, shared := true, backed_up := false }

/-- The second loop of `AllocateSharedMemory`, for the new pages `prev ..
prev + k - 1`: entry `prev + j` gets frame `j + numPagesAllocated`, which is
recorded as a shared frame of the current thread. -/
def sharedLoop (prev : Nat) : Nat → State → State × List TranslationEntry
  | 0, s => (s, [])
  | j + 1, s =>
    let r := sharedLoop prev j s
    let f := j + s.numPagesAllocated
    ({ r.1 with
        pid_of_physpage := setAt r.1.pid_of_physpage f (r.1.currentThread : Int)
        physpage_owner := setAt r.1.physpage_owner f (some r.1.currentThread)
        physpage_shared := setAt r.1.physpage_shared f true
        vpn_of_physpage := setAt r.1.vpn_of_physpage f ((prev + j : Nat) : Int) },
      r.2 ++ [sharedEntry (prev + j) f])

/-- `ProcessAddressSpace::AllocateSharedMemory(size)` on the space in slot
`self`; returns the new state and the returned virtual address.  The page
counts and the returned address are `unsigned int`s, stored in 32 bits.  When
the new count wraps below the old one, the copy of the old entries runs past
the new table. -/
def AllocateSharedMemory (cfg : Config) (s : State) (self : Nat) (size : Nat) : Option (State × Nat) :=
  match s.threadArray self with
  | none => none
  | some this =>
    let num_shared_pages := divRoundUp size cfg.PageSize % 2 ^ 32
    let prev_numVirtualPages := this.numVirtualPages
    let numVirtualPages := (prev_numVirtualPages + num_shared_pages) % 2 ^ 32
    if numVirtualPages < prev_numVirtualPages then none
    else if this.KernelPageTable.length < prev_numVirtualPages then none
    else if 0 < numVirtualPages - prev_numVirtualPages
        ∧ cfg.NumPhysPages < s.numPagesAllocated + (numVirtualPages - prev_numVirtualPages) then none
    else
      let r := sharedLoop prev_numVirtualPages (numVirtualPages - prev_numVirtualPages) s
      let this1 : ProcessAddressSpace :=
        { this with
          numVirtualPages := numVirtualPages
          KernelPageTable := this.KernelPageTable.take prev_numVirtualPages ++ r.2 }
      some
        ({ r.1 with
            numPagesAllocated := r.1.numPagesAllocated + num_shared_pages
            threadArray := setAt r.1.threadArray self (some this1)
            machineKernelPageTable := some self
            machineKernelPageTableSize := numVirtualPages
            sharedPageFaults := r.1.sharedPageFaults + (num_shared_pages : Int)
            totalPageFaults := r.1.totalPageFaults + (num_shared_pages : Int) },
          (prev_numVirtualPages * cfg.PageSize) % 2 ^ 32)

/-- The refill of frame `ppn` for page `vpn` in `DemandPageAllocation`: from
the backup buffer when the page is backed up, else from the executable at
`code.inFileAddr + vpn * PageSize` when the handle is not null. -/
def refill (cfg : Config) (this : ProcessAddressSpace) (pte : TranslationEntry) (mem : Nat → Nat)
    (vpn ppn : Nat) : Option (Nat → Nat) :=
  if pte.backed_up = true then
    if this.backupSize < vpn * cfg.PageSize + cfg.PageSize then none
    else some (copyBytes this.backup (vpn * cfg.PageSize) mem (ppn * cfg.PageSize) cfg.PageSize)
  else
    match this.Executable with
    | none => some mem
    | some executable =>
      match readNoffHeader executable with
      | none => none
      | some raw =>
        some
          (ReadAt executable mem (ppn * cfg.PageSize) (cfg.PageSize : Int)
            (toInt32 (fixHeader cfg raw).code.inFileAddr + ((vpn * cfg.PageSize : Nat) : Int)))

/-- `ProcessAddressSpace::DemandPageAllocation(BadVAddr)` on the space in slot
`self`; the result is always `TRUE`. -/
def DemandPageAllocation (cfg : Config) (s : State) (self : Nat) (BadVAddr : Nat) :
    Option (State × Bool) :=
  let vpn := BadVAddr / cfg.PageSize
  match replace_with_next_physpage cfg s (-1) with
  | none => none
  | some (s1, ppnI) =>
    if ppnI < 0 ∨ (cfg.NumPhysPages : Int) ≤ ppnI then none
    else
      let ppn := ppnI.toNat
      match s1.threadArray self with
      | none => none
      | some this =>
        match this.KernelPageTable[vpn]? with
        | none => none
        | some pte =>
          match refill cfg this pte (bzero s1.mainMemory (ppn * cfg.PageSize) cfg.PageSize) vpn ppn with
          | none => none
          | some mem =>
            let s2 : State :=
              { s1 with
                mainMemory := mem
                physpage_FIFO := setAt s1.physpage_FIFO ppn s1.totalTicks
                vpn_of_physpage := setAt s1.vpn_of_physpage ppn (vpn : Int)
                pid_of_physpage := setAt s1.pid_of_physpage ppn (s1.currentThread : Int) }
            some (setPTE s2 self vpn { pte with valid := true, dirty := false, physicalPage := ppnI }, true)

/-! ## Concrete configurations -/

/-- Modelled from the spec: the state at boot.  All frames are free
(`pid_of_physpage = -1`), none is shared, no frame has been handed out, no
thread has an address space. -/
def bootState (algo : Int) (fs : String → Option OpenFile) (rnd : List Nat) : State :=
  { mainMemory := fun _ => 0
    numPagesAllocated := 0
    pageReplaceAlgo := algo
    pid_of_physpage := fun _ => -1
    vpn_of_physpage := fun _ => -1
    physpage_owner := fun _ => none
    physpage_shared := fun _ => false
    physpage_FIFO := fun _ => 0
    physpage_LRU := fun _ => 0
    physpage_LRUclock := fun _ => 0
    threadArray := fun _ => none
    currentThread := 0
    totalTicks := 0
    totalPageFaults := 0
    sharedPageFaults := 0
    randomStream := rnd
    fileSystem := fs
    machineKernelPageTable := none
    machineKernelPageTableSize := 0 }

/-- The four bytes of a word, least significant first. -/
def wordBytes (w : Nat) : List Nat :=
  [w % 256, w / 256 % 256, w / 65536 % 256, w / 16777216 % 256]

/-- The bytes of a header. -/
def headerBytes (magic : Nat) (code initData uninitData : Segment) : List Nat :=
  wordBytes magic
    ++ wordBytes code.size ++ wordBytes code.virtualAddr ++ wordBytes code.inFileAddr
    ++ wordBytes initData.size ++ wordBytes initData.virtualAddr ++ wordBytes initData.inFileAddr
    ++ wordBytes uninitData.size ++ wordBytes uninitData.virtualAddr ++ wordBytes uninitData.inFileAddr

/-- The constants of scenario S1 of the specification. -/
def cfgS1 : Config :=
  { PageSize := 128, NumPhysPages := 8, UserStackSize := 256, NOFFMAGIC := 0xbadfad,
    WordToHost := fun w => w, PageSize_pos := by decide, NumPhysPages_pos := by decide }

/-- The executable of scenario S1: code of 100 bytes at file offset 64 for
virtual address 0, initialised data of 50 bytes at file offset 164 for virtual
address 128, 30 bytes of uninitialised data at virtual address 192.  Every byte
of the two segments is 1. -/
def exeS1 : OpenFile :=
  headerBytes 0xbadfad ⟨100, 0, 64⟩ ⟨50, 128, 164⟩ ⟨30, 192, 0⟩
    ++ List.replicate 24 0 ++ List.replicate 150 1

/-- The caller of a constructor stores the new space in a slot of
`threadArray` (`thread->space = space`). -/
def installSpace (s : State) (pid : Nat) (space : ProcessAddressSpace) : State :=
  { s with threadArray := setAt s.threadArray pid (some space) }

/-- The state at boot without replacement (policy 0) in which the physical
memory holds the byte 7 everywhere. -/
def dirtyBootState : State :=
  { bootState 0 (fun _ => none) [] with mainMemory := fun _ => 7 }

/-- Small constants for traces: pages of 4 bytes, 2 frames, a stack of 8
bytes. -/
def cfgSmall : Config :=
  { PageSize := 4, NumPhysPages := 2, UserStackSize := 8, NOFFMAGIC := 0xbadfad,
    WordToHost := fun w => w, PageSize_pos := by decide, NumPhysPages_pos := by decide }

/-- The constants of scenario S4 with pages of 4 bytes: 8 frames. -/
def cfgS4 : Config :=
  { PageSize := 4, NumPhysPages := 8, UserStackSize := 8, NOFFMAGIC := 0xbadfad,
    WordToHost := fun w => w, PageSize_pos := by decide, NumPhysPages_pos := by decide }

/-- An executable without code and data whose file holds the bytes 11 .. 18
after the header; with `cfgSmall` its address space has 2 pages. -/
def exeSmall : OpenFile :=
  headerBytes 0xbadfad ⟨0, 0, 40⟩ ⟨0, 0, 0⟩ ⟨0, 0, 0⟩ ++ [11, 12, 13, 14, 15, 16, 17, 18]

/-- A file system that holds `exeSmall` under the name `prog`. -/
def fsSmall : String → Option OpenFile :=
  fun name => if name = "prog" then some exeSmall else none

/-- The state after the executable `prog` is bound to a new space of thread 0
under the random replacement policy, with `rnd` as the future outputs of
`Random()`. -/
def progBound (rnd : List Nat) : Option State :=
  (lateBind cfgSmall (bootState 1 fsSmall rnd) "prog").map
    (installSpace (bootState 1 fsSmall rnd) 0)

/-- The state `progBound` after thread 0 has faulted on its page 0. -/
def progFaulted0 (rnd : List Nat) : Option State :=
  (progBound rnd).bind fun s => (DemandPageAllocation cfgSmall s 0 0).map Prod.fst

/-- The state `progFaulted0` after thread 0 has faulted on its page 1 too. -/
def progFaulted01 (rnd : List Nat) : Option State :=
  (progFaulted0 rnd).bind fun s => (DemandPageAllocation cfgSmall s 0 4).map Prod.fst

/-- Thread 0 forks thread 1 from `progFaulted01`: the copy constructor, the
store of the new space in slot 1, then `manageChildParentTable`. -/
def progForked (rnd : List Nat) : Option State :=
  (progFaulted01 rnd).bind fun s =>
    (forkSpace cfgSmall s 0).bind fun r =>
      manageChildParentTable cfgSmall (installSpace r.1 1 r.2) 1 0 1 (some 1)

/-- The copy constructor is called for thread 0 in `progFaulted01` and the new
space is stored in slot 1; `manageChildParentTable` has not run yet. -/
def progCopied : Option State :=
  (progFaulted01 []).bind fun s => (forkSpace cfgSmall s 0).map fun r => installSpace r.1 1 r.2

/-- Thread 0 asks for one byte of shared memory in `progFaulted0`. -/
def progShared : Option (State × Nat) :=
  (progFaulted0 []).bind fun s => AllocateSharedMemory cfgSmall s 0 1

/-- The space of thread 0 is destroyed after `progShared`. -/
def progExited : Option State :=
  progShared.bind fun r => destroySpace cfgSmall r.1 0

/-- What a trace shows of a page table entry: frame, `valid`, `shared`. -/
def pteView (e : TranslationEntry) : Int × Bool × Bool :=
  (e.physicalPage, e.valid, e.shared)

/-- What a trace shows of the page table in slot `pid`. -/
def tableView (s : State) (pid : Nat) : Option (List (Int × Bool × Bool)) :=
  (s.threadArray pid).map fun space => space.KernelPageTable.map pteView

/-- What a trace shows of frame `f`: owning pid, vpn, `shared`. -/
def frameView (s : State) (f : Nat) : Int × Int × Bool :=
  (s.pid_of_physpage f, s.vpn_of_physpage f, s.physpage_shared f)

/-- Frame `f` is mapped by a valid entry of `es` that is not shared. -/
def mapsFrame (es : List TranslationEntry) (f : Nat) : Prop :=
  ∃ e ∈ es, e.valid = true ∧ e.shared = false ∧ e.physicalPage = (f : Int)

/-- A space with a shared page, for the witnesses: page 0 in frame 1, the
shared page 1 in frame 0. -/
def spaceW : ProcessAddressSpace :=
  { KernelPageTable :=
      [{ virtualPage := 0, physicalPage := 1, valid := true, readOnly := false, use := false,
         dirty := true, shared := false, backed_up := false },
       { virtualPage := 1, physicalPage := 0, valid := true, readOnly := false, use := false,
         dirty := false, shared := true, backed_up := false }]
    numVirtualPages := 2
    backup := fun _ => 0
    backupSize := 8
    execFile := none
    Executable := none }

/-- A state without replacement in which `spaceW` is the space of thread 0 and
the frame table records its two frames. -/
def stateW : State :=
  { bootState 0 (fun _ => none) [] with
    threadArray := fun pid => if pid = 0 then some spaceW else none
    pid_of_physpage := fun _ => 0
    vpn_of_physpage := fun f => if f = 0 then 1 else 0
    physpage_shared := fun f => decide (f = 0) }

instance (es : List TranslationEntry) (f : Nat) : Decidable (mapsFrame es f) := by
  unfold mapsFrame
  infer_instance

/-- Page `k` of the space in slot `p` is backed up in state `s` with the bytes
`B 0 .. B (PageSize - 1)`: its entry has `backed_up` set and the slice of the
backup buffer for `k` holds `B`. -/
def backupHolds (cfg : Config) (s : State) (p k : Nat) (B : Nat → Nat) : Prop :=
  ∃ (sp : ProcessAddressSpace) (pte : TranslationEntry),
    s.threadArray p = some sp ∧ sp.KernelPageTable[k]? = some pte ∧ pte.backed_up = true
      ∧ k * cfg.PageSize + cfg.PageSize ≤ sp.backupSize
      ∧ ∀ j, j < cfg.PageSize → sp.backup (k * cfg.PageSize + j) = B j

/-- Some frame of the machine is recorded in the frame table as holding page
`k` of the thread `p`. -/
def frameRecorded (cfg : Config) (s : State) (p k : Nat) : Prop :=
  ∃ g, g < cfg.NumPhysPages ∧ s.pid_of_physpage g = (p : Int) ∧ s.vpn_of_physpage g = (k : Int)

/-- A space of two pages, both valid, dirty and not shared, in frames 0 and
1. -/
def spaceEv : ProcessAddressSpace :=
  { KernelPageTable :=
      [{ virtualPage := 0, physicalPage := 0, valid := true, readOnly := false, use := true,
         dirty := true, shared := false, backed_up := false },
       { virtualPage := 1, physicalPage := 1, valid := true, readOnly := false, use := true,
         dirty := true, shared := false, backed_up := false }]
    numVirtualPages := 2
    backup := fun _ => 0
    backupSize := 8
    execFile := none
    Executable := none }

/-- A state under the random policy with `cfgSmall`: both frames belong to the
pages of `spaceEv`, the space of thread 0; byte `a` of the memory holds
`20 + a`; the next output of `Random()` is 1. -/
def stateEv : State :=
  { bootState 1 (fun _ => none) [1] with
    mainMemory := fun a => 20 + a
    threadArray := fun pid => if pid = 0 then some spaceEv else none
    pid_of_physpage := fun _ => 0
    vpn_of_physpage := fun f => (f : Int) }

/-- The state `stateEv` after the eviction of frame 1, which holds page 1 of
thread 0. -/
def stateEvicted : State :=
  evictPage cfgSmall { stateEv with randomStream := [] } 1 0 1 spaceEv
    { virtualPage := 1, physicalPage := 1, valid := true, readOnly := false, use := true,
      dirty := true, shared := false, backed_up := false }

instance (cfg : Config) (s : State) (p k : Nat) : Decidable (frameRecorded cfg s p k) := by
  unfold frameRecorded
  infer_instance

/-- Constants for the fork traces: pages of 4 bytes, 3 frames, a stack of 12
bytes. -/
def cfg3 : Config :=
  { PageSize := 4, NumPhysPages := 3, UserStackSize := 12, NOFFMAGIC := 0xbadfad,
    WordToHost := fun w => w, PageSize_pos := by decide, NumPhysPages_pos := by decide }

/-- The entry of page `i` in frame `i`: valid, written since it was last
reloaded (dirty), not shared, with an older copy in the backup buffer. -/
def dirtyPTE (i : Nat) : TranslationEntry :=
  { virtualPage := (i : Int), physicalPage := (i : Int), valid := true, readOnly := false, use := true,
    dirty := true, shared := false, backed_up := true }

/-- A space of three resident dirty pages whose backup buffer holds the older
bytes `90 + a`. -/
def spaceF : ProcessAddressSpace :=
  { KernelPageTable := [dirtyPTE 0, dirtyPTE 1, dirtyPTE 2], numVirtualPages := 3,
    backup := fun a => 90 + a, backupSize := 12, execFile := none, Executable := none }

/-- A state under the random policy with `cfg3`: the three frames hold the
pages of `spaceF`, the space of thread 0; frame 0 holds the bytes 11 .. 14,
frame 1 the bytes 21 .. 24, frame 2 the bytes 31 .. 34; `Random()` will yield
2, 2, 0. -/
def stateF : State :=
  { bootState 1 (fun _ => none) [2, 2, 0] with
    mainMemory := fun a => 10 * (a / 4 + 1) + a % 4 + 1
    threadArray := fun pid => if pid = 0 then some spaceF else none
    pid_of_physpage := fun _ => 0
    vpn_of_physpage := fun f => (f : Int) }

/-- Thread 0 starts to fork thread 1 in `stateF`: the copy constructor, the
store of the new space in slot 1, and the first `k` iterations of the loop of
`manageChildParentTable`. -/
def forkStartedF (k : Nat) : Option State :=
  (forkSpace cfg3 stateF 0).bind fun r =>
    manageLoop cfg3 1 0 1 (some 1) k (installSpace r.1 1 r.2)

/-- The complete fork of thread 1 by thread 0 in `stateF`. -/
def forkedF : Option State :=
  (forkSpace cfg3 stateF 0).bind fun r =>
    manageChildParentTable cfg3 (installSpace r.1 1 r.2) 1 0 1 (some 1)

/-- The child, thread 1, runs after `forkedF` and faults on address 0. -/
def faultedF : Option (State × Bool) :=
  forkedF.bind fun s => DemandPageAllocation cfg3 { s with currentThread := 1 } 1 0

/-- What a trace shows of an entry for the round trip: frame, `valid`, `dirty`,
`backed_up`. -/
def pteViewB (e : TranslationEntry) : Int × Bool × Bool × Bool :=
  (e.physicalPage, e.valid, e.dirty, e.backed_up)

/-- The bytes of frame `f` with pages of 4 bytes. -/
def frameBytes (s : State) (f : Nat) : List Nat :=
  (List.range 4).map fun j => s.mainMemory (f * 4 + j)

/-! ## Sizes, registers and further configurations -/

/-- The sum `code.size + initData.size + uninitData.size + UserStackSize` of
the specification, as an integer, with the header words read as C `int`s. -/
def specSizeSum (cfg : Config) (noffH : NoffHeader) : Int :=
  toInt32 noffH.code.size + toInt32 noffH.initData.size + toInt32 noffH.uninitData.size
    + (cfg.UserStackSize : Int)

/-- The page count of the specification: `n * PageSize` is the least multiple
of `PageSize` that is not below `sum`. -/
def isLeastPageCount (cfg : Config) (sum : Int) (n : Nat) : Prop :=
  sum ≤ ((n * cfg.PageSize : Nat) : Int) ∧ ∀ m : Nat, sum ≤ ((m * cfg.PageSize : Nat) : Int) → n ≤ m

/-- An executable whose header gives the code segment the size -1000 (the word
`0xFFFFFC18`) and no data. -/
def exeNegative : OpenFile :=
  headerBytes 0xbadfad ⟨0xFFFFFC18, 0, 40⟩ ⟨0, 0, 0⟩ ⟨0, 0, 0⟩

/-- An executable whose header gives each of the three segments the size
`0x7FFFFFFF`. -/
def exeHuge : OpenFile :=
  headerBytes 0xbadfad ⟨0x7FFFFFFF, 0, 40⟩ ⟨0x7FFFFFFF, 0, 40⟩ ⟨0x7FFFFFFF, 0, 40⟩

/-- A file system that holds `exeS1`, `exeNegative` and `exeHuge`. -/
def fsSizes : String → Option OpenFile :=
  fun name =>
    if name = "s1" then some exeS1
    else if name = "negative" then some exeNegative
    else if name = "huge" then some exeHuge
    else none

/-- Constants of a machine with fewer frames than the program has pages: pages
of 4 bytes, 2 frames, a stack of 12 bytes (3 pages for `exeSmall`). -/
def cfgTight : Config :=
  { PageSize := 4, NumPhysPages := 2, UserStackSize := 12, NOFFMAGIC := 0xbadfad,
    WordToHost := fun w => w, PageSize_pos := by decide, NumPhysPages_pos := by decide }

/-- Without replacement (policy 0), thread 0 binds `prog` with `cfgTight` and
faults on its pages 0 and 1. -/
def tightFaulted : Option State :=
  ((lateBind cfgTight (bootState 0 fsSmall []) "prog").map
      (installSpace (bootState 0 fsSmall []) 0)).bind fun s =>
    (DemandPageAllocation cfgTight s 0 0).bind fun r => (DemandPageAllocation cfgTight r.1 0 4).map Prod.fst

/-- Number of entries that are valid and not shared. -/
def countResident (es : List TranslationEntry) : Nat :=
  (es.filter fun e => e.valid && !e.shared).length

/-- Constants for the fork of an idle space: pages of 4 bytes, 3 frames, a
stack of 8 bytes. -/
def cfgIdle : Config :=
  { PageSize := 4, NumPhysPages := 3, UserStackSize := 8, NOFFMAGIC := 0xbadfad,
    WordToHost := fun w => w, PageSize_pos := by decide, NumPhysPages_pos := by decide }

/-- A space of two pages that were evicted from frames 1 and 2: both entries
are invalid, not shared, and still name their old frame. -/
def spaceIdle : ProcessAddressSpace :=
  { KernelPageTable :=
      [{ virtualPage := 0, physicalPage := 1, valid := false, readOnly := false, use := true,
         dirty := true, shared := false, backed_up := true },
       { virtualPage := 1, physicalPage := 2, valid := false, readOnly := false, use := true,
         dirty := true, shared := false, backed_up := true }]
    numVirtualPages := 2
    backup := fun a => 90 + a
    backupSize := 8
    execFile := none
    Executable := none }

/-- A space of one page, resident in frame 0. -/
def spaceOther : ProcessAddressSpace :=
  { KernelPageTable :=
      [{ virtualPage := 0, physicalPage := 0, valid := true, readOnly := false, use := true,
         dirty := true, shared := false, backed_up := false }]
    numVirtualPages := 1
    backup := fun _ => 0
    backupSize := 4
    execFile := none
    Executable := none }

/-- A state under the random policy with `cfgIdle`: thread 0 owns `spaceIdle`,
thread 1 owns `spaceOther`, whose page is in frame 0; frames 1 and 2 are free;
frame 0 holds the bytes 11 .. 14, frame 1 the bytes 21 .. 24, frame 2 the bytes
31 .. 34. -/
def stateIdle : State :=
  { bootState 1 (fun _ => none) [] with
    mainMemory := fun a => 10 * (a / 4 + 1) + a % 4 + 1
    threadArray := fun pid => if pid = 0 then some spaceIdle else if pid = 1 then some spaceOther else none
    pid_of_physpage := fun f => if f = 0 then 1 else -1
    vpn_of_physpage := fun f => if f = 0 then 0 else -1 }

/-- Thread 0 forks thread 2 in `stateIdle`: the copy constructor, the store of
the new space in slot 2, then `manageChildParentTable`. -/
def forkedIdle : Option State :=
  (forkSpace cfgIdle stateIdle 0).bind fun r =>
    manageChildParentTable cfgIdle (installSpace r.1 2 r.2) 2 0 2 (some 2)

/-- The parent of scenario S2 with pages of 4 bytes: 3 pages, page 1 shared in
frame 1, pages 0 and 2 valid in frames 0 and 2. -/
def spaceS2 : ProcessAddressSpace :=
  { KernelPageTable :=
      [{ virtualPage := 0, physicalPage := 0, valid := true, readOnly := false, use := false,
         dirty := false, shared := false, backed_up := false },
       { virtualPage := 1, physicalPage := 1, valid := true, readOnly := false, use := false,
         dirty := false, shared := true, backed_up := false },
       { virtualPage := 2, physicalPage := 2, valid := true, readOnly := false, use := false,
         dirty := false, shared := false, backed_up := false }]
    numVirtualPages := 3
    backup := fun _ => 0
    backupSize := 12
    execFile := none
    Executable := none }

/-- Scenario S2 without replacement, with `cfgS4`: thread 0 owns `spaceS2` and
three frames have been handed out. -/
def stateS2 : State :=
  { bootState 0 (fun _ => none) [] with
    numPagesAllocated := 3
    threadArray := fun pid => if pid = 0 then some spaceS2 else none
    pid_of_physpage := fun f => if f < 3 then 0 else -1
    vpn_of_physpage := fun f => if f < 3 then (f : Int) else -1
    physpage_shared := fun f => decide (f = 1) }

/-- The state of scenario S2 after the copy constructor has run for thread 0
and the new space is stored in slot 1; it is `stateS2` when the constructor
does not return. -/
def copiedS2 : State :=
  match forkSpace cfgS4 stateS2 0 with
  | some r => installSpace r.1 1 r.2
  | none => stateS2

/-- What a fork must keep of an entry for an aliased page: the frame and the
`shared` flag. -/
def aliasView (e : Option TranslationEntry) : Option (Int × Bool) :=
  e.map fun e => (e.physicalPage, e.shared)

/-- The result of the copy constructor for thread 0 in scenario S2, and
`stateS2` with `spaceS2` when the constructor does not return. -/
def forkS2 : State × ProcessAddressSpace :=
  (forkSpace cfgS4 stateS2 0).getD (stateS2, spaceS2)

/-- The space that the late-bind constructor builds for `prog` with `cfgSmall`,
and `spaceW` when the constructor does not return. -/
def spaceBound : ProcessAddressSpace :=
  (lateBind cfgSmall (bootState 1 fsSmall []) "prog").getD spaceW

/-- The boot state under the random policy with `spaceBound` as the space of
thread 0. -/
def stateBound : State :=
  installSpace (bootState 1 fsSmall []) 0 spaceBound

/-- A segment with bytes lies inside an address space of `n` pages: its
addresses are `virtualAddr .. virtualAddr + size - 1`, not negative and below
`n * PageSize`. -/
def segmentInside (cfg : Config) (n : Nat) (seg : Segment) : Prop :=
  0 < toInt32 seg.size →
    0 ≤ toInt32 seg.virtualAddr
      ∧ toInt32 seg.virtualAddr + toInt32 seg.size ≤ ((n * cfg.PageSize : Nat) : Int)

/-- An executable whose header places 4 bytes of code at virtual address 512;
with `cfgS1` its address space has 3 pages, the addresses 0 to 383. -/
def exeStray : OpenFile :=
  headerBytes 0xbadfad ⟨4, 512, 40⟩ ⟨0, 0, 0⟩ ⟨0, 0, 0⟩ ++ [1, 2, 3, 4]

/-- A file whose first word is not the magic number of `cfgS1`, in either byte
order. -/
def exeBadMagic : OpenFile :=
  headerBytes 0x1234 ⟨0, 0, 40⟩ ⟨0, 0, 0⟩ ⟨0, 0, 0⟩

/-- The header of `exeS1`. -/
def headerS1 : NoffHeader :=
  { noffMagic := 0xbadfad, code := ⟨100, 0, 64⟩, initData := ⟨50, 128, 164⟩,
    uninitData := ⟨30, 192, 0⟩ }

/-- Under the random policy, thread 0 binds `prog` with `cfgTight` (3 pages, 2
frames) and faults on its pages 0 and 1, which take the free frames 0 and 1;
the next output of `Random()` is 0. -/
def tightFull : Option State :=
  ((lateBind cfgTight (bootState 1 fsSmall [0]) "prog").map
      (installSpace (bootState 1 fsSmall [0]) 0)).bind fun s =>
    (DemandPageAllocation cfgTight s 0 0).bind fun r => (DemandPageAllocation cfgTight r.1 0 4).map Prod.fst

/-- A page table of `2 ^ 25` entries, none of them loaded, as the late-bind
constructor builds it. -/
@[irreducible]
def vastTable : List TranslationEntry :=
  (List.range (2 ^ 25)).map fun (i : Nat) =>
    { virtualPage := (i : Int), physicalPage := -1, valid := false, readOnly := false,
      use := false, dirty := false, shared := false, backed_up := false }

/-- A space of `2 ^ 25` pages, none of them loaded: the space that the
late-bind constructor builds with `cfgS1` for a header whose sizes and the
stack sum up to -44, that is to `2 ^ 32 - 44` in 32 bits without sign. -/
def spaceVast : ProcessAddressSpace :=
  { KernelPageTable := vastTable
    numVirtualPages := 2 ^ 25
    backup := fun _ => 0
    backupSize := 0
    execFile := none
    Executable := none }

/-- The boot state with `spaceVast` as the space of thread 0. -/
def stateVast : State :=
  installSpace (bootState 1 (fun _ => none) []) 0 spaceVast

/-- Scenario S2 on a memory in which byte `j` of frame `f` holds
`10 * (f + 1) + j + 1`: frame 0 holds 11 .. 14, frame 1 (the shared page)
21 .. 24, frame 2 holds 31 .. 34. -/
def stateS2m : State :=
  { stateS2 with mainMemory := fun a => 10 * (a / 4 + 1) + a % 4 + 1 }

/-- An executable with 300 bytes of code for the virtual addresses from 0 and
no data; with `cfgS1` its address space has 5 pages. -/
def exe5 : OpenFile :=
  headerBytes 0xbadfad ⟨300, 0, 40⟩ ⟨0, 0, 0⟩ ⟨0, 0, 0⟩ ++ List.replicate 300 1

/-- Page `i` of the parent is valid and not shared when the loop of
`manageChildParentTable` reaches it, that is in the state after the iterations
for the pages before `i`. -/
def residentWhenReached (cfg : Config) (self parent : Nat) (childpid : Int)
    (childthread : Option Nat) (s : State) (i : Nat) : Bool :=
  match manageLoop cfg self parent childpid childthread i s with
  | none => false
  | some si =>
    match getPTE si parent i with
    | none => false
    | some p => p.valid && !p.shared

/-- Number of pages below `n` that are valid and not shared in the parent when
the loop of `manageChildParentTable` reaches them: the number of iterations
that acquire a frame. -/
def reachedResident (cfg : Config) (self parent : Nat) (childpid : Int)
    (childthread : Option Nat) (s : State) (n : Nat) : Nat :=
  ((List.range n).filter (residentWhenReached cfg self parent childpid childthread s)).length
/-- The state `stateF` after the copy constructor has run for thread 0 and the
new space is stored in slot 1; it is `stateF` when the constructor does not
return. -/
def copiedF : State :=
  match forkSpace cfg3 stateF 0 with
  | some r => installSpace r.1 1 r.2
  | none => stateF

/-! ## Basic facts on the array operations -/

@[simp]
theorem setAt_same {α : Type} (a : Nat → α) (i : Nat) (v : α) : setAt a i v i = v := by
  simp [setAt]

@[simp]
theorem setAt_ne {α : Type} (a : Nat → α) {i j : Nat} (v : α) (h : j ≠ i) : setAt a i v j = a j := by
  simp [setAt, h]

theorem copyBytes_apply (src : Nat → Nat) (so : Nat) (dst : Nat → Nat) (d n a : Nat) :
    copyBytes src so dst d n a = if d ≤ a ∧ a < d + n then src (so + (a - d)) else dst a := by
  induction n with
  | zero =>
    have h : ¬(d ≤ a ∧ a < d + 0) := by omega
    rw [if_neg h]
    rfl
  | succ n ih =>
    simp only [copyBytes, setAt]
    by_cases h : a = d + n
    · subst h
      simp
    · rw [if_neg h, ih]
      by_cases h1 : d ≤ a ∧ a < d + n
      · have h2 : d ≤ a ∧ a < d + (n + 1) := ⟨h1.1, by omega⟩
        rw [if_pos h1, if_pos h2]
      · have h2 : ¬(d ≤ a ∧ a < d + (n + 1)) := by
          intro h3
          exact h1 ⟨h3.1, by omega⟩
        rw [if_neg h1, if_neg h2]

/-! ## Load from a file -/

set_option maxRecDepth 100000 in
/-- C1 (failing input): in scenario S1 without replacement, on a memory that
holds 7 everywhere, the load maps frames 0 to 3 and zeroes frames 4 to 7: byte
100 of frame 0, which no segment covers, and the stack bytes at 511 keep the
value 7, while byte 512 is cleared. -/
theorem loadFromFile_zeroes_wrong_frames :
    (loadFromFile cfgS1 dirtyBootState exeS1).map
        (fun r => (r.2.KernelPageTable.map (fun e => e.physicalPage), r.1.numPagesAllocated,
          r.1.mainMemory 99, r.1.mainMemory 100, r.1.mainMemory 511, r.1.mainMemory 512))
      = some ([0, 1, 2, 3], 4, 1, 7, 7, 0) := by
  decide!

set_option maxRecDepth 100000 in
/-- C6 (failing input): after the load of scenario S1 from the boot state
without replacement, page 0 of the new space is valid, not shared and mapped to
frame 0, and the frame table still records frame 0 as free, with pid -1 and
vpn -1. -/
theorem loadFromFile_no_back_pointer :
    (loadFromFile cfgS1 (bootState 0 (fun _ => none) []) exeS1).map
        (fun r => (tableView (installSpace r.1 0 r.2) 0, frameView r.1 0))
      = some (some [(0, true, false), (1, true, false), (2, true, false), (3, true, false)],
          (-1, -1, false)) := by
  decide!

set_option maxRecDepth 100000 in
/-- C7 (failing input): the load of scenario S1 from the boot state under the
random replacement policy maps the four pages of the new space, all valid and
not shared, to frame 0.  Likewise the copy constructor, called for thread 0 in
`progFaulted01` (pages 0 and 1 valid in frames 0 and 1), gives the two pages of
the new space the frames 0 and 1 of the parent. -/
theorem loadFromFile_same_frame :
    (loadFromFile cfgS1 (bootState 1 (fun _ => none) []) exeS1).map
        (fun r => tableView (installSpace r.1 0 r.2) 0)
      = some (some [(0, true, false), (0, true, false), (0, true, false), (0, true, false)])
    ∧ progCopied.map (fun s => tableView s 0) = some (some [(0, true, false), (1, true, false)])
    ∧ progCopied.map (fun s => tableView s 1) = some (some [(0, true, false), (1, true, false)]) := by
  refine ⟨?_, ?_, ?_⟩ <;> decide!

/-! ## Fork, shared memory and the free scan -/

set_option maxRecDepth 100000 in
/-- C2 (failing input): thread 0 has its two pages valid, not shared, in frames
0 and 1, and `Random()` yields 0 then 1.  The fork evicts the pages of the
parent and hands their frames to the child (the frame table records pid 1 for
both): afterwards both entries of the child are invalid. -/
theorem fork_evicts_parent_page :
    (progFaulted01 [0, 1]).map (fun s => tableView s 0) = some (some [(0, true, false), (1, true, false)])
      ∧ (progForked [0, 1]).map (fun s => tableView s 1) = some (some [(0, false, false), (1, false, false)])
      ∧ (progForked [0, 1]).map (fun s => frameView s 0) = some (1, 0, false)
      ∧ (progForked [0, 1]).map (fun s => frameView s 1) = some (1, 1, false) := by
  refine ⟨?_, ?_, ?_, ?_⟩ <;> decide!

set_option maxRecDepth 100000 in
/-- C9 (failing input): in `progFaulted0` frame 0 belongs to page 0 of thread 0
and no frame has been counted by `numPagesAllocated`; the shared page that
thread 0 then allocates is mapped to frame 0 as well. -/
theorem AllocateSharedMemory_takes_owned_frame :
    (progFaulted0 []).map (fun s => s.numPagesAllocated) = some 0
      ∧ (progFaulted0 []).map (fun s => tableView s 0) = some (some [(0, true, false), (-1, false, false)])
      ∧ (progFaulted0 []).map (fun s => frameView s 0) = some (0, 0, false)
      ∧ progShared.map (fun r => tableView r.1 0)
          = some (some [(0, true, false), (-1, false, false), (0, true, true)])
      ∧ progShared.map (fun r => frameView r.1 0) = some (0, 2, true) := by
  refine ⟨?_, ?_, ?_, ?_, ?_⟩ <;> decide!

set_option maxRecDepth 100000 in
/-- C4 (failing input): after thread 0 has faulted on page 0, allocated one
shared page and exited, frame 0 is free and shared, and
`replace_with_next_physpage` returns it. -/
theorem replace_returns_shared_frame :
    progExited.map (fun s => frameView s 0) = some (-1, -1, true)
      ∧ (progExited.bind fun s => replace_with_next_physpage cfgSmall s (-1)).map
          (fun r => (r.2, r.1.physpage_shared r.2.toNat)) = some (0, true) := by
  decide!

/-! ## Destruction -/

theorem mapsFrame_cons (e : TranslationEntry) (es : List TranslationEntry) (f : Nat) :
    mapsFrame (e :: es) f ↔
      (e.valid = true ∧ e.shared = false ∧ e.physicalPage = (f : Int)) ∨ mapsFrame es f := by
  simp [mapsFrame]

theorem cleanLoop_spec (cfg : Config) (es : List TranslationEntry) :
    ∀ s : State,
      (∀ e ∈ es, e.valid = true → e.shared = false →
        0 ≤ e.physicalPage ∧ e.physicalPage < (cfg.NumPhysPages : Int)) →
      ∃ s1, cleanLoop cfg es s = some s1
        ∧ s1 = { s with vpn_of_physpage := s1.vpn_of_physpage, pid_of_physpage := s1.pid_of_physpage,
                        physpage_owner := s1.physpage_owner }
        ∧ (∀ f, mapsFrame es f →
            s1.pid_of_physpage f = -1 ∧ s1.vpn_of_physpage f = -1 ∧ s1.physpage_owner f = none)
        ∧ (∀ f, ¬ mapsFrame es f →
            s1.pid_of_physpage f = s.pid_of_physpage f ∧ s1.vpn_of_physpage f = s.vpn_of_physpage f
              ∧ s1.physpage_owner f = s.physpage_owner f) := by
  induction es with
  | nil =>
    intro s _
    exact ⟨s, rfl, rfl, fun f hf => by simp [mapsFrame] at hf, fun f _ => ⟨rfl, rfl, rfl⟩⟩
  | cons e es ih =>
    intro s hr
    have hr1 : ∀ e1 ∈ es, e1.valid = true → e1.shared = false →
        0 ≤ e1.physicalPage ∧ e1.physicalPage < (cfg.NumPhysPages : Int) :=
      fun e1 h1 => hr e1 (List.mem_cons_of_mem _ h1)
    by_cases hv : e.valid = true ∧ e.shared = false
    · have hb := hr e (List.mem_cons_self _ _) hv.1 hv.2
      have hg : ¬(e.physicalPage < 0 ∨ (cfg.NumPhysPages : Int) ≤ e.physicalPage) := by omega
      obtain ⟨s1, h1, h2, h3, h4⟩ := ih
        { s with
          vpn_of_physpage := setAt s.vpn_of_physpage e.physicalPage.toNat (-1)
          pid_of_physpage := setAt s.pid_of_physpage e.physicalPage.toNat (-1)
          physpage_owner := setAt s.physpage_owner e.physicalPage.toNat none } hr1
      refine ⟨s1, ?_, ?_, ?_, ?_⟩
      · simp only [cleanLoop, if_pos hv, if_neg hg]
        exact h1
      · rw [h2]
      · intro f hf
        by_cases hm : mapsFrame es f
        · exact h3 f hm
        · have hfe : e.physicalPage = (f : Int) := by
            rcases (mapsFrame_cons e es f).1 hf with h | h
            · exact h.2.2
            · exact absurd h hm
          have hfn : e.physicalPage.toNat = f := by omega
          have h5 := h4 f hm
          simp only [hfn, setAt_same] at h5
          exact h5
      · intro f hf
        have hm : ¬ mapsFrame es f := fun h => hf ((mapsFrame_cons e es f).2 (Or.inr h))
        have hfe : e.physicalPage ≠ (f : Int) := fun h => hf ((mapsFrame_cons e es f).2 (Or.inl ⟨hv.1, hv.2, h⟩))
        have hfn : f ≠ e.physicalPage.toNat := by omega
        have h5 := h4 f hm
        simp only [setAt_ne _ _ hfn] at h5
        exact h5
    · obtain ⟨s1, h1, h2, h3, h4⟩ := ih s hr1
      refine ⟨s1, ?_, h2, ?_, ?_⟩
      · simp only [cleanLoop, if_neg hv]
        exact h1
      · intro f hf
        rcases (mapsFrame_cons e es f).1 hf with h | h
        · exact absurd ⟨h.1, h.2.1⟩ hv
        · exact h3 f h
      · intro f hf
        exact h4 f (fun h => hf ((mapsFrame_cons e es f).2 (Or.inr h)))

/-- The call `cleanPages` on a space whose valid non-shared entries hold frame
numbers of the machine returns; it sets `pid_of_physpage` and `vpn_of_physpage`
to -1 and `physpage_owner` to null for exactly the frames that a valid
non-shared entry of the space maps, and changes nothing else in the state: the
three fields keep their value for every other frame, and the shared flag and
the replacement stamps of every frame are the same. -/
theorem cleanPages_releases_exactly (cfg : Config) (s : State) (self : Nat) (this : ProcessAddressSpace)
    (hthis : s.threadArray self = some this)
    (hlen : this.numVirtualPages ≤ this.KernelPageTable.length)
    (hrange : ∀ e ∈ this.KernelPageTable.take this.numVirtualPages, e.valid = true → e.shared = false →
      0 ≤ e.physicalPage ∧ e.physicalPage < (cfg.NumPhysPages : Int)) :
    ∃ s1, cleanPages cfg s self = some s1
      ∧ s1 = { s with vpn_of_physpage := s1.vpn_of_physpage, pid_of_physpage := s1.pid_of_physpage,
                      physpage_owner := s1.physpage_owner }
      ∧ (∀ f, mapsFrame (this.KernelPageTable.take this.numVirtualPages) f →
          s1.pid_of_physpage f = -1 ∧ s1.vpn_of_physpage f = -1 ∧ s1.physpage_owner f = none)
      ∧ (∀ f, ¬ mapsFrame (this.KernelPageTable.take this.numVirtualPages) f →
          s1.pid_of_physpage f = s.pid_of_physpage f ∧ s1.vpn_of_physpage f = s.vpn_of_physpage f
            ∧ s1.physpage_owner f = s.physpage_owner f ∧ s1.physpage_shared f = s.physpage_shared f
            ∧ s1.physpage_FIFO f = s.physpage_FIFO f ∧ s1.physpage_LRU f = s.physpage_LRU f
            ∧ s1.physpage_LRUclock f = s.physpage_LRUclock f) := by
  obtain ⟨s1, h1, h2, h3, h4⟩ := cleanLoop_spec cfg (this.KernelPageTable.take this.numVirtualPages) s hrange
  refine ⟨s1, ?_, h2, h3, ?_⟩
  · simp only [cleanPages, hthis, if_neg (Nat.not_lt.2 hlen)]
    exact h1
  · intro f hf
    obtain ⟨a, b, c⟩ := h4 f hf
    refine ⟨a, b, c, ?_, ?_, ?_, ?_⟩ <;> rw [h2]

/-- Witness of `cleanPages_releases_exactly`: in `stateW` the destruction of
the space of thread 0 releases frame 1 and leaves the shared frame 0 alone. -/
theorem cleanPages_releases_exactly_witness :
    ∃ s1, cleanPages cfgSmall stateW 0 = some s1 ∧ s1.pid_of_physpage 1 = -1
      ∧ s1.pid_of_physpage 0 = stateW.pid_of_physpage 0 := by
  obtain ⟨s1, h1, _, h3, h4⟩ :=
    cleanPages_releases_exactly cfgSmall stateW 0 spaceW rfl (by decide) (by decide)
  exact ⟨s1, h1, (h3 1 (by decide)).1, (h4 0 (by decide)).1⟩

/-! ## Shared memory -/

theorem divRoundUp_ge (n s : Nat) (hs : 0 < s) : n ≤ divRoundUp n s * s := by
  unfold divRoundUp
  have h := Nat.lt_div_mul_add (a := n + s - 1) hs
  omega

theorem divRoundUp_le (n s m : Nat) (hs : 0 < s) (h : n ≤ m * s) : divRoundUp n s ≤ m := by
  unfold divRoundUp
  have h1 : (n + s - 1) / s < m + 1 := by
    rw [Nat.div_lt_iff_lt_mul hs, Nat.succ_mul]
    omega
  omega

theorem sharedLoop_entries (prev : Nat) (s : State) (k : Nat) :
    (sharedLoop prev k s).2.length = k
      ∧ ∀ j, j < k → (sharedLoop prev k s).2[j]? = some (sharedEntry (prev + j) (j + s.numPagesAllocated)) := by
  induction k with
  | zero => exact ⟨rfl, fun j hj => absurd hj (Nat.not_lt_zero j)⟩
  | succ k ih =>
    obtain ⟨hl, he⟩ := ih
    constructor
    · simp [sharedLoop, hl]
    · intro j hj
      simp only [sharedLoop]
      by_cases h : j < k
      · rw [List.getElem?_append_left (by omega)]
        exact he j h
      · have hjk : j = k := by omega
        subst hjk
        rw [List.getElem?_append_right (by omega)]
        simp [hl]

theorem AllocateSharedMemory_eq (cfg : Config) (s : State) (self : Nat)
    (this : ProcessAddressSpace) (bytes : Nat)
    (hthis : s.threadArray self = some this)
    (hlen : this.numVirtualPages ≤ this.KernelPageTable.length)
    (hfit : s.numPagesAllocated + divRoundUp bytes cfg.PageSize ≤ cfg.NumPhysPages)
    (hcount : this.numVirtualPages + divRoundUp bytes cfg.PageSize < 2 ^ 32) :
    ∃ s1, AllocateSharedMemory cfg s self bytes
        = some (s1, (this.numVirtualPages * cfg.PageSize) % 2 ^ 32)
      ∧ s1.threadArray self = some
          { this with
            numVirtualPages := this.numVirtualPages + divRoundUp bytes cfg.PageSize
            KernelPageTable := this.KernelPageTable.take this.numVirtualPages
              ++ (sharedLoop this.numVirtualPages (divRoundUp bytes cfg.PageSize) s).2 }
      ∧ s1.machineKernelPageTable = some self
      ∧ s1.machineKernelPageTableSize = this.numVirtualPages + divRoundUp bytes cfg.PageSize := by
  have hk : divRoundUp bytes cfg.PageSize % 2 ^ 32 = divRoundUp bytes cfg.PageSize :=
    Nat.mod_eq_of_lt (by omega)
  have hn : (this.numVirtualPages + divRoundUp bytes cfg.PageSize) % 2 ^ 32
      = this.numVirtualPages + divRoundUp bytes cfg.PageSize := Nat.mod_eq_of_lt hcount
  have hsub : this.numVirtualPages + divRoundUp bytes cfg.PageSize - this.numVirtualPages
      = divRoundUp bytes cfg.PageSize := by omega
  have hw : ¬(this.numVirtualPages + divRoundUp bytes cfg.PageSize < this.numVirtualPages) := by
    omega
  have hg : ¬(0 < divRoundUp bytes cfg.PageSize
      ∧ cfg.NumPhysPages < s.numPagesAllocated + divRoundUp bytes cfg.PageSize) := by omega
  simp only [AllocateSharedMemory, hthis, hk, hn, hsub, if_neg hw, if_neg (Nat.not_lt.2 hlen),
    if_neg hg]
  exact ⟨_, rfl, setAt_same _ _ _, rfl, rfl⟩

theorem vastTable_length : vastTable.length = 2 ^ 25 := by
  unfold vastTable
  rw [List.length_map, List.length_range]

/-- C8 (counterexample): with pages of 128 bytes, a space of `2 ^ 25` pages
(as the late-bind constructor builds it for a header whose sizes and the stack
sum up to -44) asks for one byte of shared memory.  The call returns, and the
returned address is 0, not `2 ^ 25 * 128 = 4294967296`. -/
theorem AllocateSharedMemory_wraps :
    stateVast.threadArray 0 = some spaceVast
      ∧ spaceVast.numVirtualPages * cfgS1.PageSize = 4294967296
      ∧ (AllocateSharedMemory cfgS1 stateVast 0 1).map Prod.snd = some 0 := by
  have hthis : stateVast.threadArray 0 = some spaceVast := rfl
  have hn : spaceVast.numVirtualPages = 2 ^ 25 := rfl
  have ht : spaceVast.KernelPageTable = vastTable := rfl
  have hlen : spaceVast.numVirtualPages ≤ spaceVast.KernelPageTable.length := by
    rw [hn, ht, vastTable_length]
  have hfit : stateVast.numPagesAllocated + divRoundUp 1 cfgS1.PageSize ≤ cfgS1.NumPhysPages := by
    decide
  have hcount : spaceVast.numVirtualPages + divRoundUp 1 cfgS1.PageSize < 2 ^ 32 := by
    decide
  obtain ⟨s1, h1, _⟩ := AllocateSharedMemory_eq cfgS1 stateVast 0 spaceVast 1 hthis hlen hfit hcount
  have h0 : (spaceVast.numVirtualPages * cfgS1.PageSize) % 2 ^ 32 = 0 := by decide
  refine ⟨hthis, by decide, ?_⟩
  rw [h1, h0]
  rfl

/-- C8 (amended): on a space of `n` pages whose table holds its `n` entries, a
request of `bytes` bytes that fits the remaining frames, with `n * PageSize`
and the new page count below `2 ^ 32`, returns `n * PageSize`; the space then
has `n + k` pages and entries, where `k = ⌈bytes / PageSize⌉` (the least `k`
with `bytes ≤ k * PageSize`); the first `n` entries are the old ones; every new
entry is valid, shared, not read-only and carries its index as `virtualPage`;
and the simulator holds the table of this space with length `n + k`. -/
theorem AllocateSharedMemory_grows_table (cfg : Config) (s : State) (self : Nat)
    (this : ProcessAddressSpace) (bytes : Nat)
    (hthis : s.threadArray self = some this)
    (hlen : this.numVirtualPages ≤ this.KernelPageTable.length)
    (hfit : s.numPagesAllocated + divRoundUp bytes cfg.PageSize ≤ cfg.NumPhysPages)
    (hcount : this.numVirtualPages + divRoundUp bytes cfg.PageSize < 2 ^ 32)
    (haddr : this.numVirtualPages * cfg.PageSize < 2 ^ 32) :
    ∃ s1 this1,
      AllocateSharedMemory cfg s self bytes = some (s1, this.numVirtualPages * cfg.PageSize)
        ∧ s1.threadArray self = some this1
        ∧ this1.numVirtualPages = this.numVirtualPages + divRoundUp bytes cfg.PageSize
        ∧ bytes ≤ divRoundUp bytes cfg.PageSize * cfg.PageSize
        ∧ (∀ m, bytes ≤ m * cfg.PageSize → divRoundUp bytes cfg.PageSize ≤ m)
        ∧ this1.KernelPageTable.length = this1.numVirtualPages
        ∧ (∀ i, i < this.numVirtualPages → this1.KernelPageTable[i]? = this.KernelPageTable[i]?)
        ∧ (∀ i, this.numVirtualPages ≤ i → i < this1.numVirtualPages →
            ∃ e, this1.KernelPageTable[i]? = some e ∧ e.valid = true ∧ e.shared = true
              ∧ e.readOnly = false ∧ e.virtualPage = (i : Int))
        ∧ s1.machineKernelPageTable = some self
        ∧ s1.machineKernelPageTableSize = this1.numVirtualPages := by
  obtain ⟨hl, he⟩ := sharedLoop_entries this.numVirtualPages s (divRoundUp bytes cfg.PageSize)
  have htake : (this.KernelPageTable.take this.numVirtualPages).length = this.numVirtualPages := by
    rw [List.length_take]
    omega
  obtain ⟨s1, h1, h2, h3, h4⟩ := AllocateSharedMemory_eq cfg s self this bytes hthis hlen hfit hcount
  rw [Nat.mod_eq_of_lt haddr] at h1
  refine ⟨s1, _, h1, h2, rfl, divRoundUp_ge bytes cfg.PageSize cfg.PageSize_pos,
    fun m hm => divRoundUp_le bytes cfg.PageSize m cfg.PageSize_pos hm, ?_, ?_, ?_, h3, h4⟩
  · simp [hl, htake]
  · intro i hi
    show (this.KernelPageTable.take this.numVirtualPages
      ++ (sharedLoop this.numVirtualPages (divRoundUp bytes cfg.PageSize) s).2)[i]? = _
    rw [List.getElem?_append_left (by omega), List.getElem?_take_of_lt hi]
  · intro i h1 h2
    refine ⟨sharedEntry i (i - this.numVirtualPages + s.numPagesAllocated), ?_, rfl, rfl, rfl, rfl⟩
    show (this.KernelPageTable.take this.numVirtualPages
      ++ (sharedLoop this.numVirtualPages (divRoundUp bytes cfg.PageSize) s).2)[i]? = _
    have h2a : i < this.numVirtualPages + divRoundUp bytes cfg.PageSize := h2
    rw [List.getElem?_append_right (by omega), htake, he _ (by omega)]
    congr 2
    omega

/-- Witness of `AllocateSharedMemory_grows_table`: scenario S4 with pages of 4
bytes, the space of 2 pages of thread 0 in `stateW` asks for 9 bytes and gets 3
pages at virtual address 8. -/
theorem AllocateSharedMemory_grows_table_witness :
    ∃ s1 this1, AllocateSharedMemory cfgS4 stateW 0 9 = some (s1, 8)
      ∧ s1.threadArray 0 = some this1 ∧ this1.numVirtualPages = 5
      ∧ s1.machineKernelPageTableSize = 5 := by
  obtain ⟨s1, this1, h1, h2, h3, _, _, _, _, _, _, h4⟩ :=
    AllocateSharedMemory_grows_table cfgS4 stateW 0 spaceW 9 rfl
      (by decide) (by decide) (by decide) (by decide)
  exact ⟨s1, this1, h1, h2, h3, by rw [h4, h3]; rfl⟩

/-! ## Replacement -/

theorem get_random_physpage_spec (cfg : Config) (shared : Nat → Bool) (rnd : List Nat) (f : Nat)
    (rest : List Nat) (h : get_random_physpage cfg shared rnd = some (f, rest)) :
    shared f = false ∧ f < cfg.NumPhysPages := by
  induction rnd with
  | nil => simp [get_random_physpage] at h
  | cons r rnd ih =>
    simp only [get_random_physpage] at h
    by_cases hs : shared (r % cfg.NumPhysPages) = true
    · rw [if_pos hs] at h
      exact ih h
    · rw [if_neg hs] at h
      by_cases hlt : r % cfg.NumPhysPages < cfg.NumPhysPages
      · rw [if_pos hlt] at h
        simp only [Option.some.injEq, Prod.mk.injEq] at h
        rw [← h.1]
        exact ⟨by simpa using hs, hlt⟩
      · rw [if_neg hlt] at h
        simp at h

theorem evict_eq (cfg : Config) (s : State) (f p k : Nat) (sp : ProcessAddressSpace)
    (pte : TranslationEntry) (hsh : s.physpage_shared f = false)
    (hpid : s.pid_of_physpage f = (p : Int)) (hvpn : s.vpn_of_physpage f = (k : Int))
    (hsp : s.threadArray p = some sp) (hpte : sp.KernelPageTable[k]? = some pte)
    (hbk : pte.dirty = true → k * cfg.PageSize + cfg.PageSize ≤ sp.backupSize) :
    evict cfg s f = some (evictPage cfg s f p k sp pte, (f : Int)) := by
  have h1 : ¬((p : Int) < 0 ∨ (k : Int) < 0) := by omega
  have h2 : ¬(pte.dirty = true ∧ sp.backupSize < k * cfg.PageSize + cfg.PageSize) := by
    intro h
    have := hbk h.1
    omega
  simp only [evict, hsh, hpid, hvpn, if_true, if_neg h1, Int.toNat_ofNat, hsp, hpte, if_neg h2]

theorem evict_inv (cfg : Config) (s : State) (f : Nat) (s1 : State) (r : Int)
    (h : evict cfg s f = some (s1, r)) (hsh : s.physpage_shared f = false) :
    ∃ (p k : Nat) (sp : ProcessAddressSpace) (pte : TranslationEntry), s.pid_of_physpage f = (p : Int) ∧ s.vpn_of_physpage f = (k : Int)
      ∧ s.threadArray p = some sp ∧ sp.KernelPageTable[k]? = some pte
      ∧ (pte.dirty = true → k * cfg.PageSize + cfg.PageSize ≤ sp.backupSize)
      ∧ s1 = evictPage cfg s f p k sp pte ∧ r = (f : Int) := by
  simp only [evict, hsh, if_true] at h
  by_cases h1 : s.pid_of_physpage f < 0 ∨ s.vpn_of_physpage f < 0
  · simp [h1] at h
  · rw [if_neg h1] at h
    cases hsp : s.threadArray (s.pid_of_physpage f).toNat with
    | none => simp [hsp] at h
    | some sp =>
      simp only [hsp] at h
      cases hpte : sp.KernelPageTable[(s.vpn_of_physpage f).toNat]? with
      | none => simp [hpte] at h
      | some pte =>
        simp only [hpte] at h
        by_cases h2 : pte.dirty = true ∧ sp.backupSize
            < (s.vpn_of_physpage f).toNat * cfg.PageSize + cfg.PageSize
        · simp [h2] at h
        · rw [if_neg h2] at h
          simp only [Option.some.injEq, Prod.mk.injEq] at h
          refine ⟨(s.pid_of_physpage f).toNat, (s.vpn_of_physpage f).toNat, sp, pte, ?_, ?_, hsp, hpte,
            ?_, h.1.symm, h.2.symm⟩
          · omega
          · omega
          · intro hd
            by_contra hn
            exact h2 ⟨hd, by omega⟩

theorem replace_cases (cfg : Config) (s : State) (hint : Int) (s1 : State) (r : Int)
    (h : replace_with_next_physpage cfg s hint = some (s1, r)) :
    (s.pageReplaceAlgo = 0 ∧ s1 = { s with numPagesAllocated := s.numPagesAllocated + 1 }
        ∧ r = (s.numPagesAllocated : Int))
      ∨ (s.pageReplaceAlgo ≠ 0 ∧ ∃ i : Nat, firstFree cfg s = some i ∧ s1 = s ∧ r = (i : Int))
      ∨ (s.pageReplaceAlgo = 1 ∧ firstFree cfg s = none
          ∧ ∃ f rest, get_random_physpage cfg s.physpage_shared s.randomStream = some (f, rest)
            ∧ evict cfg { s with randomStream := rest } f = some (s1, r)) := by
  unfold replace_with_next_physpage at h
  by_cases h0 : s.pageReplaceAlgo = 0
  · rw [if_pos h0] at h
    simp only [Option.some.injEq, Prod.mk.injEq] at h
    exact Or.inl ⟨h0, h.1.symm, h.2.symm⟩
  · rw [if_neg h0] at h
    cases hf : firstFree cfg s with
    | some i =>
      simp only [hf, Option.some.injEq, Prod.mk.injEq] at h
      exact Or.inr (Or.inl ⟨h0, i, rfl, h.1.symm, h.2.symm⟩)
    | none =>
      simp only [hf] at h
      by_cases h1 : s.pageReplaceAlgo = 1
      · rw [if_pos h1] at h
        cases hg : get_random_physpage cfg s.physpage_shared s.randomStream with
        | none => simp [hg] at h
        | some fr =>
          obtain ⟨f, rest⟩ := fr
          simp only [hg] at h
          exact Or.inr (Or.inr ⟨h1, rfl, f, rest, rfl, h⟩)
      · rw [if_neg h1] at h
        simp at h

theorem replace_currentThread (cfg : Config) (s : State) (hint : Int) (s1 : State) (r : Int)
    (h : replace_with_next_physpage cfg s hint = some (s1, r)) :
    s1.currentThread = s.currentThread := by
  rcases replace_cases cfg s hint s1 r h with ⟨_, h1, _⟩ | ⟨_, i, _, h1, _⟩ | ⟨_, _, f, rest, hg, he⟩
  · rw [h1]
  · rw [h1]
  · obtain ⟨p, k, sp, pte, _, _, _, _, _, h1, _⟩ :=
      evict_inv cfg _ f s1 r he (get_random_physpage_spec cfg _ _ f rest hg).1
    rw [h1]
    rfl

/-! ## Page faults -/

theorem getPTE_setPTE_same (s : State) (key i : Nat) (e : TranslationEntry) (sp : ProcessAddressSpace)
    (hsp : s.threadArray key = some sp) (hi : i < sp.KernelPageTable.length) :
    getPTE (setPTE s key i e) key i = some e := by
  simp [getPTE, setPTE, hsp, hi]

theorem DemandPageAllocation_cases (cfg : Config) (s : State) (self v : Nat) (s2 : State) (b : Bool)
    (h : DemandPageAllocation cfg s self v = some (s2, b)) :
    ∃ (s1 : State) (f : Nat) (this : ProcessAddressSpace) (pte : TranslationEntry) (mem : Nat → Nat),
      replace_with_next_physpage cfg s (-1) = some (s1, (f : Int)) ∧ f < cfg.NumPhysPages
        ∧ s1.threadArray self = some this ∧ this.KernelPageTable[v / cfg.PageSize]? = some pte
        ∧ refill cfg this pte (bzero s1.mainMemory (f * cfg.PageSize) cfg.PageSize) (v / cfg.PageSize) f
            = some mem
        ∧ b = true
        ∧ s2 = setPTE
            { s1 with
              mainMemory := mem
              physpage_FIFO := setAt s1.physpage_FIFO f s1.totalTicks
              vpn_of_physpage := setAt s1.vpn_of_physpage f ((v / cfg.PageSize : Nat) : Int)
              pid_of_physpage := setAt s1.pid_of_physpage f (s1.currentThread : Int) }
            self (v / cfg.PageSize) { pte with valid := true, dirty := false, physicalPage := (f : Int) } := by
  unfold DemandPageAllocation at h
  cases hr : replace_with_next_physpage cfg s (-1) with
  | none => simp [hr] at h
  | some r1 =>
    obtain ⟨s1, ppnI⟩ := r1
    simp only [hr] at h
    by_cases hg : ppnI < 0 ∨ (cfg.NumPhysPages : Int) ≤ ppnI
    · simp [hg] at h
    · rw [if_neg hg] at h
      cases hsp : s1.threadArray self with
      | none => simp [hsp] at h
      | some this =>
        simp only [hsp] at h
        cases hpte : this.KernelPageTable[v / cfg.PageSize]? with
        | none => simp [hpte] at h
        | some pte =>
          simp only [hpte] at h
          cases hm : refill cfg this pte (bzero s1.mainMemory (ppnI.toNat * cfg.PageSize) cfg.PageSize)
              (v / cfg.PageSize) ppnI.toNat with
          | none => simp [hm] at h
          | some mem =>
            simp only [hm, Option.some.injEq, Prod.mk.injEq] at h
            have hf : ((ppnI.toNat : Nat) : Int) = ppnI := by omega
            refine ⟨s1, ppnI.toNat, this, pte, mem, ?_, by omega, hsp, hpte, hm, h.2.symm, ?_⟩
            · rw [hf]
            · rw [hf]
              exact h.1.symm

/-- When `DemandPageAllocation(v)` of the space of the current thread returns
in the model, it returns true, the frame `f` that `replace_with_next_physpage`
handed out is a frame of the machine, the entry of page `v / PageSize` is valid
with `physicalPage = f`, and the frame table records for `f` the pid of the
thread and the page `v / PageSize`. -/
theorem DemandPageAllocation_maps_page (cfg : Config) (s : State) (self v : Nat) (s2 : State) (b : Bool)
    (hcur : s.currentThread = self)
    (h : DemandPageAllocation cfg s self v = some (s2, b)) :
    b = true ∧ ∃ (s1 : State) (f : Nat) (pte : TranslationEntry),
      replace_with_next_physpage cfg s (-1) = some (s1, (f : Int)) ∧ f < cfg.NumPhysPages
        ∧ getPTE s2 self (v / cfg.PageSize) = some pte ∧ pte.valid = true
        ∧ pte.physicalPage = (f : Int)
        ∧ s2.pid_of_physpage f = (self : Int)
        ∧ s2.vpn_of_physpage f = ((v / cfg.PageSize : Nat) : Int) := by
  obtain ⟨s1, f, this, pte, mem, hr, hf, hsp, hpte, _, hb, hs2⟩ :=
    DemandPageAllocation_cases cfg s self v s2 b h
  have hlt : v / cfg.PageSize < this.KernelPageTable.length := by
    by_contra hn
    rw [List.getElem?_eq_none (by omega)] at hpte
    exact Option.noConfusion hpte
  have hct : s1.currentThread = self := by rw [replace_currentThread cfg s (-1) s1 f hr, hcur]
  refine ⟨hb, s1, f, { pte with valid := true, dirty := false, physicalPage := (f : Int) }, hr, hf, ?_,
    rfl, rfl, ?_, ?_⟩
  · rw [hs2]
    exact getPTE_setPTE_same _ self _ _ this hsp hlt
  · rw [hs2]
    simp [setPTE, hsp, hct]
  · rw [hs2]
    simp [setPTE, hsp]

/-! ## Eviction and reload -/

theorem DemandPageAllocation_eq (cfg : Config) (s : State) (self v : Nat) (s1 : State) (f : Nat)
    (this : ProcessAddressSpace) (pte : TranslationEntry) (mem : Nat → Nat)
    (hr : replace_with_next_physpage cfg s (-1) = some (s1, (f : Int))) (hf : f < cfg.NumPhysPages)
    (hsp : s1.threadArray self = some this) (hpte : this.KernelPageTable[v / cfg.PageSize]? = some pte)
    (hm : refill cfg this pte (bzero s1.mainMemory (f * cfg.PageSize) cfg.PageSize) (v / cfg.PageSize) f
      = some mem) :
    DemandPageAllocation cfg s self v = some
      (setPTE
        { s1 with
          mainMemory := mem
          physpage_FIFO := setAt s1.physpage_FIFO f s1.totalTicks
          vpn_of_physpage := setAt s1.vpn_of_physpage f ((v / cfg.PageSize : Nat) : Int)
          pid_of_physpage := setAt s1.pid_of_physpage f (s1.currentThread : Int) }
        self (v / cfg.PageSize) { pte with valid := true, dirty := false, physicalPage := (f : Int) },
        true) := by
  have hgr : ¬((f : Int) < 0 ∨ (cfg.NumPhysPages : Int) ≤ (f : Int)) := by omega
  simp only [DemandPageAllocation, hr, if_neg hgr, Int.toNat_ofNat, hsp, hpte, hm]

theorem page_slices_disjoint (P k k1 j : Nat) (hk : k ≠ k1) (hj : j < P) :
    ¬(k1 * P ≤ k * P + j ∧ k * P + j < k1 * P + P) := by
  intro h
  rcases Nat.lt_or_gt_of_ne hk with h1 | h1
  · have h2 := Nat.mul_le_mul_right P (Nat.succ_le_of_lt h1)
    rw [Nat.succ_mul] at h2
    omega
  · have h2 := Nat.mul_le_mul_right P (Nat.succ_le_of_lt h1)
    rw [Nat.succ_mul] at h2
    omega

theorem replace_eq_evict (cfg : Config) (s : State) (hint : Int) (f : Nat) (rest : List Nat)
    (halgo : s.pageReplaceAlgo = 1) (hfull : firstFree cfg s = none)
    (hrand : get_random_physpage cfg s.physpage_shared s.randomStream = some (f, rest)) :
    replace_with_next_physpage cfg s hint = evict cfg { s with randomStream := rest } f := by
  have h0 : ¬ s.pageReplaceAlgo = 0 := by
    rw [halgo]
    decide
  unfold replace_with_next_physpage
  rw [if_neg h0]
  simp only [hfull]
  rw [if_pos halgo]
  simp only [hrand]

theorem evictPage_backupHolds_other (cfg : Config) (s : State) (f p1 k1 : Nat)
    (sp1 : ProcessAddressSpace) (pte1 : TranslationEntry) (p k : Nat) (B : Nat → Nat)
    (hsp1 : s.threadArray p1 = some sp1)
    (hne : ¬(p1 = p ∧ k1 = k)) (hb : backupHolds cfg s p k B) :
    backupHolds cfg (evictPage cfg s f p1 k1 sp1 pte1) p k B := by
  obtain ⟨sp, pte, hsp, hpte, hbu, hsz, hbytes⟩ := hb
  by_cases hp : p1 = p
  · subst hp
    have hk : k ≠ k1 := fun h => hne ⟨rfl, h.symm⟩
    rw [hsp1] at hsp
    cases hsp
    refine ⟨_, pte, setAt_same _ _ _, ?_, hbu, hsz, ?_⟩
    · show (sp1.KernelPageTable.set k1 _)[k]? = some pte
      rw [List.getElem?_set_ne (Ne.symm hk)]
      exact hpte
    · intro j hj
      show (if pte1.dirty = true then
          copyBytes s.mainMemory (f * cfg.PageSize) sp1.backup (k1 * cfg.PageSize) cfg.PageSize
        else sp1.backup) (k * cfg.PageSize + j) = B j
      by_cases hd : pte1.dirty = true
      · rw [if_pos hd, copyBytes_apply, if_neg (page_slices_disjoint cfg.PageSize k k1 j hk hj)]
        exact hbytes j hj
      · rw [if_neg hd]
        exact hbytes j hj
  · refine ⟨sp, pte, ?_, hpte, hbu, hsz, hbytes⟩
    show setAt s.threadArray p1 _ p = some sp
    rw [setAt_ne _ _ (Ne.symm hp)]
    exact hsp

theorem replace_backupHolds (cfg : Config) (s : State) (hint : Int) (s1 : State) (r : Int)
    (p k : Nat) (B : Nat → Nat)
    (h : replace_with_next_physpage cfg s hint = some (s1, r))
    (hb : backupHolds cfg s p k B) (hn : ¬ frameRecorded cfg s p k) :
    backupHolds cfg s1 p k B := by
  rcases replace_cases cfg s hint s1 r h with ⟨_, h1, _⟩ | ⟨_, i, _, h1, _⟩ | ⟨_, _, f, rest, hg, he⟩
  · rw [h1]
    exact hb
  · rw [h1]
    exact hb
  · obtain ⟨hsh, hf⟩ := get_random_physpage_spec cfg _ _ f rest hg
    obtain ⟨p1, k1, sp1, pte1, hpid, hvpn, hsp1, _, _, h1, _⟩ := evict_inv cfg _ f s1 r he hsh
    rw [h1]
    refine evictPage_backupHolds_other cfg _ f p1 k1 sp1 pte1 p k B hsp1 ?_ hb
    intro hpk
    refine hn ⟨f, hf, ?_, ?_⟩
    · rw [← hpk.1]
      exact hpid
    · rw [← hpk.2]
      exact hvpn

theorem evictPage_backupHolds_self (cfg : Config) (s : State) (f p k : Nat)
    (sp : ProcessAddressSpace) (pte : TranslationEntry)
    (hpte : sp.KernelPageTable[k]? = some pte) (hdirty : pte.dirty = true)
    (hbk : k * cfg.PageSize + cfg.PageSize ≤ sp.backupSize) :
    backupHolds cfg (evictPage cfg s f p k sp pte) p k (fun j => s.mainMemory (f * cfg.PageSize + j)) := by
  have hlt : k < sp.KernelPageTable.length := by
    by_contra hn
    rw [List.getElem?_eq_none (by omega)] at hpte
    exact Option.noConfusion hpte
  refine ⟨_, { pte with backed_up := true, valid := false }, setAt_same _ _ _, ?_, rfl, hbk, ?_⟩
  · show (sp.KernelPageTable.set k _)[k]? = _
    rw [List.getElem?_set_self hlt, if_pos hdirty]
  · intro j hj
    show (if pte.dirty = true then
        copyBytes s.mainMemory (f * cfg.PageSize) sp.backup (k * cfg.PageSize) cfg.PageSize
      else sp.backup) (k * cfg.PageSize + j) = _
    rw [if_pos hdirty, copyBytes_apply, if_pos ⟨by omega, by omega⟩]
    congr 2
    omega

/-- Round trip of a page when nothing interferes between the eviction and the
fault.  Let frame `f`, recorded in the frame table for page `k` of the space in
slot `p`, be the victim that `replace_with_next_physpage` draws when no frame
is free, with the entry of page `k` valid, dirty, not shared and mapped to `f`.
Then the call returns `f`, the entry is invalid and the page is backed up with
the bytes of `f`.  In every later state in which the page is still backed up
with these bytes and no frame is recorded for it, a `DemandPageAllocation` of
the space on an address of page `k` whose frame acquisition returns a frame `g`
of the machine returns true, maps page `k` to `g`, and the `PageSize` bytes of
`g` equal the bytes that `f` held at eviction time. -/
theorem evicted_page_round_trip (cfg : Config) (s : State) (f p k : Nat) (sp : ProcessAddressSpace)
    (pte : TranslationEntry) (rest : List Nat) (hint : Int)
    (halgo : s.pageReplaceAlgo = 1) (hfull : firstFree cfg s = none)
    (hrand : get_random_physpage cfg s.physpage_shared s.randomStream = some (f, rest))
    (hpid : s.pid_of_physpage f = (p : Int)) (hvpn : s.vpn_of_physpage f = (k : Int))
    (hsp : s.threadArray p = some sp) (hpte : sp.KernelPageTable[k]? = some pte)
    (_hvalid : pte.valid = true) (hdirty : pte.dirty = true) (_hshared : pte.shared = false)
    (_hppn : pte.physicalPage = (f : Int))
    (hbk : k * cfg.PageSize + cfg.PageSize ≤ sp.backupSize) :
    (∃ s1, replace_with_next_physpage cfg s hint = some (s1, (f : Int))
        ∧ backupHolds cfg s1 p k (fun j => s.mainMemory (f * cfg.PageSize + j))
        ∧ ∃ pte1, getPTE s1 p k = some pte1 ∧ pte1.valid = false)
      ∧ ∀ (s2 : State) (v : Nat) (s2a : State) (g : Nat),
          backupHolds cfg s2 p k (fun j => s.mainMemory (f * cfg.PageSize + j)) →
          ¬ frameRecorded cfg s2 p k → v / cfg.PageSize = k →
          replace_with_next_physpage cfg s2 (-1) = some (s2a, (g : Int)) → g < cfg.NumPhysPages →
          ∃ s3 pte3, DemandPageAllocation cfg s2 p v = some (s3, true)
            ∧ getPTE s3 p k = some pte3 ∧ pte3.valid = true ∧ pte3.physicalPage = (g : Int)
            ∧ ∀ j, j < cfg.PageSize →
                s3.mainMemory (g * cfg.PageSize + j) = s.mainMemory (f * cfg.PageSize + j) := by
  constructor
  · have hsh := (get_random_physpage_spec cfg _ _ f rest hrand).1
    have he := evict_eq cfg { s with randomStream := rest } f p k sp pte hsh hpid hvpn hsp hpte
      (fun _ => hbk)
    have hlt : k < sp.KernelPageTable.length := by
      by_contra hn
      rw [List.getElem?_eq_none (by omega)] at hpte
      exact Option.noConfusion hpte
    refine ⟨evictPage cfg { s with randomStream := rest } f p k sp pte, ?_, ?_, ?_⟩
    · rw [replace_eq_evict cfg s hint f rest halgo hfull hrand]
      exact he
    · exact evictPage_backupHolds_self cfg { s with randomStream := rest } f p k sp pte hpte hdirty hbk
    · refine ⟨{ (if pte.dirty = true then { pte with backed_up := true } else pte) with valid := false },
        ?_, rfl⟩
      show (match setAt s.threadArray p _ p with
        | none => none
        | some space => space.KernelPageTable[k]?) = _
      rw [setAt_same]
      show (sp.KernelPageTable.set k _)[k]? = _
      rw [List.getElem?_set_self hlt]
  · intro s2 v s2a g hb hn hv hr hg
    obtain ⟨sp2, pte2, hsp2, hpte2, hbu, hsz, hbytes⟩ :=
      replace_backupHolds cfg s2 (-1) s2a g p k _ hr hb hn
    have hlt : k < sp2.KernelPageTable.length := by
      by_contra hlen
      rw [List.getElem?_eq_none (by omega)] at hpte2
      exact Option.noConfusion hpte2
    have hsz2 : ¬(sp2.backupSize < k * cfg.PageSize + cfg.PageSize) := by omega
    have hre : refill cfg sp2 pte2 (bzero s2a.mainMemory (g * cfg.PageSize) cfg.PageSize) k g
        = some (copyBytes sp2.backup (k * cfg.PageSize)
            (bzero s2a.mainMemory (g * cfg.PageSize) cfg.PageSize) (g * cfg.PageSize) cfg.PageSize) := by
      simp only [refill, hbu, if_true, if_neg hsz2]
    have hd := DemandPageAllocation_eq cfg s2 p v s2a g sp2 pte2 _ hr hg hsp2 (by rw [hv]; exact hpte2)
      (by rw [hv]; exact hre)
    rw [hv] at hd
    refine ⟨_, { pte2 with valid := true, dirty := false, physicalPage := (g : Int) }, hd, ?_, rfl, rfl, ?_⟩
    · exact getPTE_setPTE_same _ p k _ sp2 hsp2 hlt
    · intro j hj
      have hm : (setPTE
          { s2a with
            mainMemory := copyBytes sp2.backup (k * cfg.PageSize)
              (bzero s2a.mainMemory (g * cfg.PageSize) cfg.PageSize) (g * cfg.PageSize) cfg.PageSize
            physpage_FIFO := setAt s2a.physpage_FIFO g s2a.totalTicks
            vpn_of_physpage := setAt s2a.vpn_of_physpage g (k : Int)
            pid_of_physpage := setAt s2a.pid_of_physpage g (s2a.currentThread : Int) }
          p k { pte2 with valid := true, dirty := false, physicalPage := (g : Int) }).mainMemory
          = copyBytes sp2.backup (k * cfg.PageSize)
              (bzero s2a.mainMemory (g * cfg.PageSize) cfg.PageSize) (g * cfg.PageSize) cfg.PageSize := by
        simp [setPTE, hsp2]
      rw [hm, copyBytes_apply, if_pos ⟨by omega, by omega⟩]
      have hjj : g * cfg.PageSize + j - g * cfg.PageSize = j := by omega
      rw [hjj]
      exact hbytes j hj

set_option maxRecDepth 100000 in
/-- An instance of `evicted_page_round_trip`: in `stateEv` the victim is frame 1
with page 1 of thread 0; the fault on address 4 in the state after the eviction
brings the four bytes of the page back. -/
theorem evicted_page_round_trip_witness :
    ∃ s3, DemandPageAllocation cfgSmall stateEvicted 0 4 = some (s3, true)
      ∧ ∀ j, j < 4 → s3.mainMemory (1 * 4 + j) = stateEv.mainMemory (1 * 4 + j) := by
  have h := (evicted_page_round_trip cfgSmall stateEv 1 0 1 spaceEv
    { virtualPage := 1, physicalPage := 1, valid := true, readOnly := false, use := true,
      dirty := true, shared := false, backed_up := false } [] (-1)
    rfl (by decide) (by decide) rfl rfl rfl rfl rfl rfl rfl rfl (by decide)).2 stateEvicted 4 stateEvicted 1
    (evictPage_backupHolds_self cfgSmall _ 1 0 1 spaceEv _ rfl rfl (by decide))
    (by decide) (by decide) (by rfl) (by decide)
  obtain ⟨s3, _, h1, _, _, _, h2⟩ := h
  exact ⟨s3, h1, h2⟩

set_option maxRecDepth 100000 in
/-- Witness of `DemandPageAllocation_maps_page`: the fault of thread 0 on
address 4 in `stateEvicted` maps page 1 to the free frame 1. -/
theorem DemandPageAllocation_maps_page_witness :
    ∃ s2 pte, DemandPageAllocation cfgSmall stateEvicted 0 4 = some (s2, true)
      ∧ getPTE s2 0 1 = some pte ∧ pte.valid = true ∧ s2.pid_of_physpage 1 = 0 := by
  have hs : (DemandPageAllocation cfgSmall stateEvicted 0 4).isSome = true := by decide
  obtain ⟨r, hr⟩ := Option.isSome_iff_exists.1 hs
  obtain ⟨s2, b⟩ := r
  obtain ⟨hb, s1, f, pte, h1, _, h2, h3, _, h4, _⟩ :=
    DemandPageAllocation_maps_page cfgSmall stateEvicted 0 4 s2 b rfl hr
  have hf : f = 1 := by
    have h5 : replace_with_next_physpage cfgSmall stateEvicted (-1) = some (stateEvicted, 1) := by rfl
    rw [h5] at h1
    simp only [Option.some.injEq, Prod.mk.injEq] at h1
    omega
  subst hf
  subst hb
  exact ⟨s2, pte, hr, h2, h3, h4⟩

/-! ## Eviction during a fork -/

set_option maxRecDepth 100000 in
/-- C3 (failing input): in the fork of `stateF`, after the first iteration page
0 of the child is valid, dirty, not shared, in frame 2, which holds the bytes
11 .. 14 and is recorded for (pid 1, vpn 0).  The second iteration draws frame
2 as victim, so page 0 of the child is evicted and backed up; the last loop of
`manageChildParentTable` then overwrites the backup buffer of the child with
the one of the parent.  After the fork page 0 of the child is invalid and
backed up, and the fault of the child on address 0 maps it to frame 0 with the
bytes 90 .. 93 instead of 11 .. 14. -/
theorem fork_eviction_loses_backup :
    (forkStartedF 1).map (fun s => (getPTE s 1 0).map pteViewB) = some (some (2, true, true, true))
      ∧ (forkStartedF 1).map (fun s => frameView s 2) = some (1, 0, false)
      ∧ (forkStartedF 1).map (fun s => frameBytes s 2) = some [11, 12, 13, 14]
      ∧ (forkStartedF 2).map (fun s => (getPTE s 1 0).map pteViewB) = some (some (2, false, true, true))
      ∧ forkedF.map (fun s => (getPTE s 1 0).map pteViewB) = some (some (2, false, true, true))
      ∧ faultedF.map (fun r => (getPTE r.1 1 0).map pteViewB) = some (some (0, true, false, true))
      ∧ faultedF.map (fun r => frameBytes r.1 0) = some [90, 91, 92, 93] := by
  refine ⟨?_, ?_, ?_, ?_, ?_, ?_, ?_⟩ <;> decide!

/-! ## Late binding -/

theorem lateBind_eq (cfg : Config) (s : State) (file : String) (exe : OpenFile)
    (hopen : s.fileSystem file = some exe) (hhdr : 40 ≤ exe.length) :
    ∃ raw sp, readNoffHeader exe = some raw ∧ lateBind cfg s file = some sp
      ∧ sp.numVirtualPages = divRoundUp (headerSize cfg (fixHeader cfg raw)) cfg.PageSize
      ∧ sp.KernelPageTable = (List.range sp.numVirtualPages).map (fun (i : Nat) =>
          { physicalPage := -1, virtualPage := (i : Int), shared := false, valid := false,
            dirty := false, use := false, readOnly := false, backed_up := false })
      ∧ sp.Executable = some exe := by
  have hr : ∃ raw, readNoffHeader exe = some raw := by
    unfold readNoffHeader
    rw [if_neg (by omega)]
    exact ⟨_, rfl⟩
  obtain ⟨raw, hraw⟩ := hr
  refine ⟨raw,
    { KernelPageTable :=
        (List.range (divRoundUp (headerSize cfg (fixHeader cfg raw)) cfg.PageSize)).map fun (i : Nat) =>
          { physicalPage := -1, virtualPage := (i : Int), shared := false, valid := false,
            dirty := false, use := false, readOnly := false, backed_up := false }
      numVirtualPages := divRoundUp (headerSize cfg (fixHeader cfg raw)) cfg.PageSize
      backup := fun _ => 0
      backupSize := (divRoundUp (headerSize cfg (fixHeader cfg raw)) cfg.PageSize * cfg.PageSize) % 2 ^ 32
      execFile := some file
      Executable := some exe }, hraw, ?_, rfl, rfl, rfl⟩
  simp only [lateBind, hopen, hraw]

/-- C20: for every executable that opens and holds a header, the late-bind
constructor returns a space of `numVirtualPages` entries, each with
`valid = false`, `physicalPage = -1`, `shared = false`, `backed_up = false` and
its index as `virtualPage`; the constructor does not write the global state, so
once the caller has stored the space in a slot `pid`, `numPagesAllocated` and
every entry of the frame table are what they were. -/
theorem lateBind_all_invalid (cfg : Config) (s : State) (file : String) (exe : OpenFile) (pid : Nat)
    (hopen : s.fileSystem file = some exe) (hhdr : 40 ≤ exe.length) :
    ∃ sp, lateBind cfg s file = some sp
      ∧ sp.KernelPageTable.length = sp.numVirtualPages
      ∧ (∀ i, i < sp.numVirtualPages → ∃ e, sp.KernelPageTable[i]? = some e ∧ e.valid = false
          ∧ e.physicalPage = -1 ∧ e.shared = false ∧ e.backed_up = false ∧ e.virtualPage = (i : Int))
      ∧ (installSpace s pid sp).numPagesAllocated = s.numPagesAllocated
      ∧ (installSpace s pid sp).pid_of_physpage = s.pid_of_physpage
      ∧ (installSpace s pid sp).vpn_of_physpage = s.vpn_of_physpage
      ∧ (installSpace s pid sp).physpage_owner = s.physpage_owner
      ∧ (installSpace s pid sp).physpage_shared = s.physpage_shared
      ∧ (installSpace s pid sp).physpage_FIFO = s.physpage_FIFO
      ∧ (installSpace s pid sp).physpage_LRU = s.physpage_LRU
      ∧ (installSpace s pid sp).physpage_LRUclock = s.physpage_LRUclock := by
  obtain ⟨raw, sp, _, h1, _, h3, _⟩ := lateBind_eq cfg s file exe hopen hhdr
  refine ⟨sp, h1, ?_, ?_, rfl, rfl, rfl, rfl, rfl, rfl, rfl, rfl⟩
  · rw [h3]
    simp
  · intro i hi
    rw [h3]
    refine ⟨{ physicalPage := -1, virtualPage := (i : Int), shared := false, valid := false,
              dirty := false, use := false, readOnly := false, backed_up := false },
      ?_, rfl, rfl, rfl, rfl, rfl⟩
    simp [hi]

set_option maxRecDepth 100000 in
/-- Witness of `lateBind_all_invalid`: the executable `prog` in the boot state
under the random policy gives thread 0 a space of 2 invalid pages. -/
theorem lateBind_all_invalid_witness :
    ∃ sp, lateBind cfgSmall (bootState 1 fsSmall []) "prog" = some sp ∧ sp.numVirtualPages = 2
      ∧ sp.KernelPageTable.length = 2 := by
  obtain ⟨sp, h1, h2, _⟩ :=
    lateBind_all_invalid cfgSmall (bootState 1 fsSmall []) "prog" exeSmall 0 rfl (by decide)
  have h3 : (lateBind cfgSmall (bootState 1 fsSmall []) "prog").map (fun sp => sp.numVirtualPages)
      = some 2 := by decide!
  rw [h1] at h3
  simp only [Option.map_some', Option.some.injEq] at h3
  exact ⟨sp, h1, h3, by rw [h2, h3]⟩

/-! ## Registers -/

theorem loadFromFile_numVirtualPages (cfg : Config) (s : State) (exe : OpenFile) (raw : NoffHeader)
    (s1 : State) (sp : ProcessAddressSpace) (hraw : readNoffHeader exe = some raw)
    (h : loadFromFile cfg s exe = some (s1, sp)) :
    sp.numVirtualPages = divRoundUp (headerSize cfg (fixHeader cfg raw)) cfg.PageSize := by
  simp only [loadFromFile, hraw] at h
  split at h
  · exact Option.noConfusion h
  · split at h
    · exact Option.noConfusion h
    · split at h
      · exact Option.noConfusion h
      · split at h
        · exact Option.noConfusion h
        · split at h
          · exact Option.noConfusion h
          · split at h
            · exact Option.noConfusion h
            · simp only [Option.some.injEq, Prod.mk.injEq] at h
              rw [← h.2]

theorem headerSize_eq (cfg : Config) (noffH : NoffHeader) (h0 : 0 ≤ specSizeSum cfg noffH)
    (h1 : specSizeSum cfg noffH < 2 ^ 32) :
    ((headerSize cfg noffH : Nat) : Int) = specSizeSum cfg noffH := by
  unfold headerSize toUInt32
  unfold specSizeSum at h0 h1
  rw [Int.emod_eq_of_lt h0 h1]
  exact Int.toNat_of_nonneg h0

theorem divRoundUp_isLeast (cfg : Config) (sum : Int) (size : Nat) (h : (size : Int) = sum) :
    isLeastPageCount cfg sum (divRoundUp size cfg.PageSize) := by
  constructor
  · have h1 := divRoundUp_ge size cfg.PageSize cfg.PageSize_pos
    rw [← h]
    exact_mod_cast h1
  · intro m hm
    rw [← h] at hm
    exact divRoundUp_le size cfg.PageSize m cfg.PageSize_pos (by exact_mod_cast hm)

set_option maxRecDepth 100000 in
/-- C11 (counterexample): with pages of 128 bytes and a stack of 256 bytes, the
header of `exeNegative` has the sum -1000 + 256 = -744 and the late-bind
constructor sets `numVirtualPages` to 33554427, although already 0 pages are
not below the sum; the header of `exeHuge` has the sum 3 * (2^31 - 1) + 256 and
the constructor sets `numVirtualPages` to 16777218, whose 2147483904 bytes are
below the sum. -/
theorem numVirtualPages_wraps :
    ((readNoffHeader exeNegative).map fun raw => specSizeSum cfgS1 (fixHeader cfgS1 raw)) = some (-744)
      ∧ ((lateBind cfgS1 (bootState 1 fsSizes []) "negative").map fun sp => sp.numVirtualPages)
          = some 33554427
      ∧ ¬ isLeastPageCount cfgS1 (-744) 33554427
      ∧ ((readNoffHeader exeHuge).map fun raw => specSizeSum cfgS1 (fixHeader cfgS1 raw))
          = some 6442451197
      ∧ ((lateBind cfgS1 (bootState 1 fsSizes []) "huge").map fun sp => sp.numVirtualPages)
          = some 16777218
      ∧ ¬ isLeastPageCount cfgS1 6442451197 16777218 := by
  refine ⟨by decide!, by decide!, ?_, by decide!, by decide!, ?_⟩
  · intro h
    have h1 := h.2 0 (by decide)
    omega
  · intro h
    have h1 := h.1
    have h2 : cfgS1.PageSize = 128 := rfl
    rw [h2] at h1
    omega

/-- C11 (amended): for every executable header whose sum `code.size +
initData.size + uninitData.size + UserStackSize` (the sizes read as C `int`s)
is not negative and fits in 32 bits, the load-from-file constructor, when it
returns, and the late-bind constructor on a file that opens, set
`numVirtualPages` to the least `n` such that `n * PageSize` is not below that
sum. -/
theorem numVirtualPages_rounds_up (cfg : Config) (s : State) (exe : OpenFile) (raw : NoffHeader)
    (hraw : readNoffHeader exe = some raw)
    (h0 : 0 ≤ specSizeSum cfg (fixHeader cfg raw))
    (h1 : specSizeSum cfg (fixHeader cfg raw) < 2 ^ 32) :
    (∀ s1 sp, loadFromFile cfg s exe = some (s1, sp) →
        isLeastPageCount cfg (specSizeSum cfg (fixHeader cfg raw)) sp.numVirtualPages)
      ∧ ∀ file, s.fileSystem file = some exe →
          ∃ sp, lateBind cfg s file = some sp
            ∧ isLeastPageCount cfg (specSizeSum cfg (fixHeader cfg raw)) sp.numVirtualPages := by
  have hs := headerSize_eq cfg (fixHeader cfg raw) h0 h1
  constructor
  · intro s1 sp h
    rw [loadFromFile_numVirtualPages cfg s exe raw s1 sp hraw h]
    exact divRoundUp_isLeast cfg _ _ hs
  · intro file hopen
    have hlen : 40 ≤ exe.length := by
      by_contra hn
      unfold readNoffHeader at hraw
      rw [if_pos (by omega)] at hraw
      exact Option.noConfusion hraw
    obtain ⟨raw1, sp, hraw1, h2, h3, _⟩ := lateBind_eq cfg s file exe hopen hlen
    rw [hraw] at hraw1
    cases hraw1
    refine ⟨sp, h2, ?_⟩
    rw [h3]
    exact divRoundUp_isLeast cfg _ _ hs

set_option maxRecDepth 100000 in
/-- Witness of `numVirtualPages_rounds_up`: scenario S1, sizes 100, 50 and 30
with a stack of 256 bytes and pages of 128 bytes, gives 4 pages in both
constructors. -/
theorem numVirtualPages_rounds_up_witness :
    ((loadFromFile cfgS1 (bootState 0 fsSizes []) exeS1).map fun r => r.2.numVirtualPages) = some 4
      ∧ ∃ sp, lateBind cfgS1 (bootState 0 fsSizes []) "s1" = some sp
          ∧ isLeastPageCount cfgS1 436 sp.numVirtualPages ∧ sp.numVirtualPages = 4 := by
  have hraw : ∃ raw, readNoffHeader exeS1 = some raw := ⟨_, rfl⟩
  obtain ⟨raw, hraw⟩ := hraw
  have hsum : specSizeSum cfgS1 (fixHeader cfgS1 raw) = 436 := by
    have h : ((readNoffHeader exeS1).map fun raw => specSizeSum cfgS1 (fixHeader cfgS1 raw))
        = some 436 := by decide!
    rw [hraw] at h
    simpa using h
  obtain ⟨_, h2⟩ := numVirtualPages_rounds_up cfgS1 (bootState 0 fsSizes []) exeS1 raw hraw
    (by rw [hsum]; decide) (by rw [hsum]; decide)
  obtain ⟨sp, h3, h4⟩ := h2 "s1" rfl
  rw [hsum] at h4
  have h5 : ((lateBind cfgS1 (bootState 0 fsSizes []) "s1").map fun sp => sp.numVirtualPages)
      = some 4 := by decide!
  rw [h3] at h5
  exact ⟨by decide!, sp, h3, h4, by simpa using h5⟩

/-! ## The bump counter -/

set_option maxRecDepth 100000 in
/-- C18 (failing input): without replacement and with 2 frames, after the
faults on pages 0 and 1 of a 3-page program `numPagesAllocated` is 2; the next
call of `replace_with_next_physpage`, as the fault on page 2 makes it, returns
the frame index 2, which is not below `NumPhysPages`, and leaves
`numPagesAllocated` at 3. -/
theorem replace_bumps_past_memory :
    tightFaulted.map (fun s => (s.pageReplaceAlgo, s.numPagesAllocated)) = some (0, 2)
      ∧ tightFaulted.map (fun s => tableView s 0)
          = some (some [(0, true, false), (1, true, false), (-1, false, false)])
      ∧ (tightFaulted.bind fun s => replace_with_next_physpage cfgTight s (-1)).map
          (fun r => (r.2, r.1.numPagesAllocated)) = some (2, 3) := by
  refine ⟨?_, ?_, ?_⟩ <;> decide!

/-! ## Fork of an idle space -/

set_option maxRecDepth 100000 in
/-- C14 (failing input): in `stateIdle` every entry of the space of thread 0 is
invalid and not shared.  Its fork completes, claims no frame and leaves the
child with invalid entries, but the copy loop of the copy constructor copies 8
bytes from frame 1, the stale frame of page 0, to frame 0: frame 0, which holds
the page of thread 1, changes from 11 .. 14 to 21 .. 24. -/
theorem fork_of_idle_space_copies_memory :
    frameBytes stateIdle 0 = [11, 12, 13, 14]
      ∧ tableView stateIdle 0 = some [(1, false, false), (2, false, false)]
      ∧ forkedIdle.map (fun s => tableView s 2) = some (some [(-1, false, false), (-1, false, false)])
      ∧ forkedIdle.map (fun s => (s.numPagesAllocated, s.totalPageFaults)) = some (0, 0)
      ∧ forkedIdle.map (fun s => frameBytes s 0) = some [21, 22, 23, 24] := by
  refine ⟨?_, ?_, ?_, ?_, ?_⟩ <;> decide!

set_option maxRecDepth 100000 in
/-- C15 (counterexample): in `stateF` the three pages of the parent are valid
and not shared; the fork draws frame 2, which holds page 2 of the parent, as
victim for page 0, so page 2 is invalid when the loop reaches it, and
`totalPageFaults` increases from 0 to 2. -/
theorem fork_counts_acquisitions :
    countResident spaceF.KernelPageTable = 3
      ∧ stateF.totalPageFaults = 0
      ∧ forkedF.map (fun s => s.totalPageFaults) = some 2 := by
  refine ⟨?_, ?_, ?_⟩ <;> decide!

/-! ## Page table entries in the state -/

@[simp]
theorem setPTE_mainMemory (s : State) (key i : Nat) (e : TranslationEntry) :
    (setPTE s key i e).mainMemory = s.mainMemory := by
  unfold setPTE
  split <;> rfl

@[simp]
theorem setPTE_numPagesAllocated (s : State) (key i : Nat) (e : TranslationEntry) :
    (setPTE s key i e).numPagesAllocated = s.numPagesAllocated := by
  unfold setPTE
  split <;> rfl

@[simp]
theorem setPTE_pageReplaceAlgo (s : State) (key i : Nat) (e : TranslationEntry) :
    (setPTE s key i e).pageReplaceAlgo = s.pageReplaceAlgo := by
  unfold setPTE
  split <;> rfl

@[simp]
theorem setPTE_pid_of_physpage (s : State) (key i : Nat) (e : TranslationEntry) :
    (setPTE s key i e).pid_of_physpage = s.pid_of_physpage := by
  unfold setPTE
  split <;> rfl

@[simp]
theorem setPTE_vpn_of_physpage (s : State) (key i : Nat) (e : TranslationEntry) :
    (setPTE s key i e).vpn_of_physpage = s.vpn_of_physpage := by
  unfold setPTE
  split <;> rfl

@[simp]
theorem setPTE_physpage_owner (s : State) (key i : Nat) (e : TranslationEntry) :
    (setPTE s key i e).physpage_owner = s.physpage_owner := by
  unfold setPTE
  split <;> rfl

@[simp]
theorem setPTE_physpage_shared (s : State) (key i : Nat) (e : TranslationEntry) :
    (setPTE s key i e).physpage_shared = s.physpage_shared := by
  unfold setPTE
  split <;> rfl

@[simp]
theorem setPTE_physpage_FIFO (s : State) (key i : Nat) (e : TranslationEntry) :
    (setPTE s key i e).physpage_FIFO = s.physpage_FIFO := by
  unfold setPTE
  split <;> rfl

@[simp]
theorem setPTE_physpage_LRU (s : State) (key i : Nat) (e : TranslationEntry) :
    (setPTE s key i e).physpage_LRU = s.physpage_LRU := by
  unfold setPTE
  split <;> rfl

@[simp]
theorem setPTE_physpage_LRUclock (s : State) (key i : Nat) (e : TranslationEntry) :
    (setPTE s key i e).physpage_LRUclock = s.physpage_LRUclock := by
  unfold setPTE
  split <;> rfl

@[simp]
theorem setPTE_totalPageFaults (s : State) (key i : Nat) (e : TranslationEntry) :
    (setPTE s key i e).totalPageFaults = s.totalPageFaults := by
  unfold setPTE
  split <;> rfl

@[simp]
theorem setPTE_totalTicks (s : State) (key i : Nat) (e : TranslationEntry) :
    (setPTE s key i e).totalTicks = s.totalTicks := by
  unfold setPTE
  split <;> rfl

theorem setPTE_threadArray_ne (s : State) (key i : Nat) (e : TranslationEntry) (key1 : Nat)
    (h : key1 ≠ key) : (setPTE s key i e).threadArray key1 = s.threadArray key1 := by
  unfold setPTE
  split
  · rfl
  · exact setAt_ne _ _ h

theorem getPTE_setPTE_ne_key (s : State) (key i : Nat) (e : TranslationEntry) (key1 j : Nat)
    (h : key1 ≠ key) : getPTE (setPTE s key i e) key1 j = getPTE s key1 j := by
  unfold getPTE
  rw [setPTE_threadArray_ne s key i e key1 h]

theorem getPTE_setPTE_ne_idx (s : State) (key i : Nat) (e : TranslationEntry) (key1 j : Nat)
    (h : j ≠ i) : getPTE (setPTE s key i e) key1 j = getPTE s key1 j := by
  by_cases hk : key1 = key
  · subst hk
    unfold getPTE setPTE
    cases hsp : s.threadArray key1 with
    | none => simp [hsp]
    | some sp =>
      simp only [hsp, setAt_same]
      exact List.getElem?_set_ne (Ne.symm h)
  · exact getPTE_setPTE_ne_key s key i e key1 j hk

theorem getPTE_setPTE_self (s : State) (key i : Nat) (e c : TranslationEntry)
    (hc : getPTE s key i = some c) : getPTE (setPTE s key i e) key i = some e := by
  unfold getPTE at hc
  cases hsp : s.threadArray key with
  | none => simp [hsp] at hc
  | some sp =>
    simp only [hsp] at hc
    have hlt : i < sp.KernelPageTable.length := by
      by_contra hn
      rw [List.getElem?_eq_none (by omega)] at hc
      exact Option.noConfusion hc
    exact getPTE_setPTE_same s key i e sp hsp hlt

theorem getPTE_of_threadArray (s : State) (key i : Nat) (sp : ProcessAddressSpace)
    (h : s.threadArray key = some sp) : getPTE s key i = sp.KernelPageTable[i]? := by
  simp only [getPTE, h]

/-! ## The fault counter of a fork -/

theorem manageStep_policy0 (cfg : Config) (self parent : Nat) (childpid : Int)
    (childthread : Option Nat) (s : State) (i : Nat) (s1 : State) (P : ProcessAddressSpace)
    (hne : self ≠ parent) (halgo : s.pageReplaceAlgo = 0) (hP : s.threadArray parent = some P)
    (h : manageStep cfg self parent childpid childthread s i = some s1) :
    ∃ p, P.KernelPageTable[i]? = some p ∧ s1.pageReplaceAlgo = 0 ∧ s1.threadArray parent = some P
      ∧ s1.totalPageFaults
          = s.totalPageFaults + (if p.valid = true ∧ p.shared = false then 1 else 0) := by
  unfold manageStep at h
  cases hc0 : getPTE s self i with
  | none => simp [hc0] at h
  | some c0 =>
    simp only [hc0] at h
    have hpar : ∀ e, getPTE (setPTE s self i e) parent i = P.KernelPageTable[i]? := by
      intro e
      rw [getPTE_setPTE_ne_key _ _ _ _ _ _ (Ne.symm hne), getPTE_of_threadArray s parent i P hP]
    rw [hpar] at h
    cases hp : P.KernelPageTable[i]? with
    | none => simp [hp] at h
    | some p =>
      simp only [hp] at h
      refine ⟨p, rfl, ?_⟩
      have hcA := getPTE_setPTE_self s self i { c0 with virtualPage := (i : Int) } c0 hc0
      by_cases hsh : p.shared = true
      · rw [if_pos hsh] at h
        simp only [hcA] at h
        have hcB := getPTE_setPTE_self _ self i
          { ({ c0 with virtualPage := (i : Int) } : TranslationEntry) with physicalPage := p.physicalPage }
          _ hcA
        have hpB : getPTE (setPTE (setPTE s self i { c0 with virtualPage := (i : Int) }) self i
            { ({ c0 with virtualPage := (i : Int) } : TranslationEntry) with
              physicalPage := p.physicalPage }) parent i = some p := by
          rw [getPTE_setPTE_ne_key _ _ _ _ _ _ (Ne.symm hne), hpar, hp]
        simp only [hpB, hcB, Option.some.injEq] at h
        rw [← h]
        refine ⟨by simpa using halgo, ?_, ?_⟩
        · rw [setPTE_threadArray_ne _ _ _ _ _ (Ne.symm hne), setPTE_threadArray_ne _ _ _ _ _ (Ne.symm hne),
            setPTE_threadArray_ne _ _ _ _ _ (Ne.symm hne)]
          exact hP
        · have hn : ¬(p.valid = true ∧ p.shared = false) := by
            intro hh
            rw [hsh] at hh
            exact Bool.noConfusion hh.2
          rw [if_neg hn]
          simp
      · rw [if_neg hsh] at h
        have hshf : p.shared = false := by simpa using hsh
        by_cases hv : p.valid = true
        · rw [if_pos hv] at h
          have hrep : replace_with_next_physpage cfg (setPTE s self i { c0 with virtualPage := (i : Int) })
              p.physicalPage
              = some ({ setPTE s self i { c0 with virtualPage := (i : Int) } with
                  numPagesAllocated := s.numPagesAllocated + 1 }, (s.numPagesAllocated : Int)) := by
            unfold replace_with_next_physpage
            rw [if_pos (by simpa using halgo)]
            simp
          simp only [hrep] at h
          have hc1 : getPTE ({ setPTE s self i { c0 with virtualPage := (i : Int) } with
              numPagesAllocated := s.numPagesAllocated + 1 } : State) self i
              = some { c0 with virtualPage := (i : Int) } := hcA
          simp only [hc1] at h
          split at h
          · exact Option.noConfusion h
          · have hp2 : getPTE (setPTE ({ setPTE s self i { c0 with virtualPage := (i : Int) } with
                numPagesAllocated := s.numPagesAllocated + 1 } : State) self i
                { ({ c0 with virtualPage := (i : Int) } : TranslationEntry) with
                  physicalPage := (s.numPagesAllocated : Int) }) parent i = some p := by
              rw [getPTE_setPTE_ne_key _ _ _ _ _ _ (Ne.symm hne)]
              have := hpar { c0 with virtualPage := (i : Int) }
              rw [hp] at this
              exact this
            simp only [hp2] at h
            split at h
            · exact Option.noConfusion h
            · split at h
              · exact Option.noConfusion h
              · simp only [Option.some.injEq] at h
                rw [← h]
                refine ⟨by simpa using halgo, ?_, ?_⟩
                · rw [setPTE_threadArray_ne _ _ _ _ _ (Ne.symm hne)]
                  show (setPTE ({ setPTE s self i { c0 with virtualPage := (i : Int) } with
                    numPagesAllocated := s.numPagesAllocated + 1 } : State) self i _).threadArray parent
                    = some P
                  rw [setPTE_threadArray_ne _ _ _ _ _ (Ne.symm hne)]
                  show (setPTE s self i _).threadArray parent = some P
                  rw [setPTE_threadArray_ne _ _ _ _ _ (Ne.symm hne)]
                  exact hP
                · rw [if_pos ⟨hv, hshf⟩]
                  simp
        · rw [if_neg hv] at h
          simp only [hcA] at h
          have hcB := getPTE_setPTE_self _ self i
            { ({ c0 with virtualPage := (i : Int) } : TranslationEntry) with physicalPage := -1 }
            _ hcA
          have hpB : getPTE (setPTE (setPTE s self i { c0 with virtualPage := (i : Int) }) self i
              { ({ c0 with virtualPage := (i : Int) } : TranslationEntry) with
                physicalPage := -1 }) parent i = some p := by
            rw [getPTE_setPTE_ne_key _ _ _ _ _ _ (Ne.symm hne), hpar, hp]
          simp only [hpB, hcB, Option.some.injEq] at h
          rw [← h]
          refine ⟨by simpa using halgo, ?_, ?_⟩
          · rw [setPTE_threadArray_ne _ _ _ _ _ (Ne.symm hne),
              setPTE_threadArray_ne _ _ _ _ _ (Ne.symm hne),
              setPTE_threadArray_ne _ _ _ _ _ (Ne.symm hne)]
            exact hP
          · have hn : ¬(p.valid = true ∧ p.shared = false) := fun hh => hv hh.1
            rw [if_neg hn]
            simp

theorem countResident_take_succ (l : List TranslationEntry) (k : Nat) (p : TranslationEntry)
    (hp : l[k]? = some p) :
    countResident (l.take (k + 1))
      = countResident (l.take k) + (if p.valid = true ∧ p.shared = false then 1 else 0) := by
  unfold countResident
  rw [List.take_succ, hp, List.filter_append, List.length_append]
  congr 1
  by_cases h : p.valid = true ∧ p.shared = false
  · rw [if_pos h]
    simp [h.1, h.2]
  · rw [if_neg h]
    have : (p.valid && !p.shared) = false := by
      cases hv : p.valid <;> cases hs : p.shared <;> simp_all
    simp [this]

theorem manageLoop_policy0 (cfg : Config) (self parent : Nat) (childpid : Int)
    (childthread : Option Nat) (s : State) (P : ProcessAddressSpace)
    (hne : self ≠ parent) (halgo : s.pageReplaceAlgo = 0) (hP : s.threadArray parent = some P) :
    ∀ (k : Nat) (s1 : State), manageLoop cfg self parent childpid childthread k s = some s1 →
      s1.pageReplaceAlgo = 0 ∧ s1.threadArray parent = some P
        ∧ s1.totalPageFaults = s.totalPageFaults + countResident (P.KernelPageTable.take k) := by
  intro k
  induction k with
  | zero =>
    intro s1 h
    simp only [manageLoop, Option.some.injEq] at h
    rw [← h]
    exact ⟨halgo, hP, by simp [countResident]⟩
  | succ k ih =>
    intro s1 h
    simp only [manageLoop] at h
    cases hk : manageLoop cfg self parent childpid childthread k s with
    | none => simp [hk] at h
    | some sk =>
      simp only [hk] at h
      obtain ⟨h1, h2, h3⟩ := ih sk hk
      obtain ⟨p, hp, h4, h5, h6⟩ :=
        manageStep_policy0 cfg self parent childpid childthread sk k s1 P hne h1 h2 h
      refine ⟨h4, h5, ?_⟩
      rw [h6, h3, countResident_take_succ _ k p hp]
      by_cases hc : p.valid = true ∧ p.shared = false
      · rw [if_pos hc, if_pos hc]
        push_cast
        omega
      · rw [if_neg hc, if_neg hc]
        push_cast
        omega

/-- With replacement disabled and the child in a slot other than
the parent's, `manageChildParentTable`, when it returns, has increased
`stats->totalPageFaults` by exactly the number of pages that were valid and not
shared in the parent at fork time. -/
theorem fork_faults_without_replacement (cfg : Config) (s : State) (self parent : Nat)
    (childpid : Int) (childthread : Option Nat) (s2 : State) (P C : ProcessAddressSpace)
    (hne : self ≠ parent) (halgo : s.pageReplaceAlgo = 0)
    (hP : s.threadArray parent = some P) (hC : s.threadArray self = some C)
    (h : manageChildParentTable cfg s self parent childpid childthread = some s2) :
    s2.totalPageFaults
      = s.totalPageFaults + countResident (P.KernelPageTable.take C.numVirtualPages) := by
  simp only [manageChildParentTable, hC] at h
  cases hl : manageLoop cfg self parent childpid childthread C.numVirtualPages s with
  | none => simp [hl] at h
  | some s1 =>
    simp only [hl] at h
    obtain ⟨_, _, h3⟩ :=
      manageLoop_policy0 cfg self parent childpid childthread s P hne halgo hP C.numVirtualPages s1 hl
    split at h
    · split at h
      · exact Option.noConfusion h
      · simp only [Option.some.injEq] at h
        rw [← h, ← h3]
        unfold setBackup
        split <;> rfl
    · exact Option.noConfusion h

set_option maxRecDepth 100000 in
/-- Witness of `fork_faults_without_replacement`: scenario S2, a parent of 3
pages whose page 1 is shared and whose pages 0 and 2 are valid; the fork
increases `totalPageFaults` by 2. -/
theorem fork_faults_without_replacement_witness :
    ∃ s2, manageChildParentTable cfgS4 copiedS2 1 0 1 (some 1) = some s2
      ∧ s2.totalPageFaults = copiedS2.totalPageFaults + 2 := by
  have hs : (manageChildParentTable cfgS4 copiedS2 1 0 1 (some 1)).isSome = true := by decide!
  obtain ⟨s2, h⟩ := Option.isSome_iff_exists.1 hs
  have hC : ∃ C, copiedS2.threadArray 1 = some C ∧ C.numVirtualPages = 3 := ⟨_, rfl, rfl⟩
  obtain ⟨C, hC, hn⟩ := hC
  have h1 := fork_faults_without_replacement cfgS4 copiedS2 1 0 1 (some 1) s2 spaceS2 C
    (by decide) rfl rfl hC h
  rw [hn] at h1
  exact ⟨s2, h, h1⟩

/-! ## Shared pages in a fork -/

theorem evictPage_aliasView (cfg : Config) (s : State) (f p k : Nat) (sp : ProcessAddressSpace)
    (pte : TranslationEntry) (hsp : s.threadArray p = some sp)
    (hpte : sp.KernelPageTable[k]? = some pte) (key j : Nat) :
    aliasView (getPTE (evictPage cfg s f p k sp pte) key j) = aliasView (getPTE s key j) := by
  have hlt : k < sp.KernelPageTable.length := by
    by_contra hn
    rw [List.getElem?_eq_none (by omega)] at hpte
    exact Option.noConfusion hpte
  by_cases hk : key = p
  · subst hk
    rw [getPTE_of_threadArray s key j sp hsp]
    rw [getPTE_of_threadArray (evictPage cfg s f key k sp pte) key j _ (setAt_same _ _ _)]
    show aliasView ((sp.KernelPageTable.set k _)[j]?) = _
    by_cases hj : j = k
    · subst hj
      rw [List.getElem?_set_self hlt, hpte]
      by_cases hd : pte.dirty = true
      · simp [aliasView, hd]
      · simp [aliasView, hd]
    · rw [List.getElem?_set_ne (Ne.symm hj)]
  · unfold getPTE
    show aliasView (match setAt s.threadArray p _ key with
      | none => none
      | some space => space.KernelPageTable[j]?) = _
    rw [setAt_ne _ _ hk]

theorem replace_aliasView (cfg : Config) (s : State) (hint : Int) (s1 : State) (r : Int)
    (h : replace_with_next_physpage cfg s hint = some (s1, r)) (key j : Nat) :
    aliasView (getPTE s1 key j) = aliasView (getPTE s key j) := by
  rcases replace_cases cfg s hint s1 r h with ⟨_, h1, _⟩ | ⟨_, i, _, h1, _⟩ | ⟨_, _, f, rest, hg, he⟩
  · rw [h1]
    rfl
  · rw [h1]
  · obtain ⟨p, k, sp, pte, _, _, hsp, hpte, _, h1, _⟩ :=
      evict_inv cfg _ f s1 r he (get_random_physpage_spec cfg _ _ f rest hg).1
    rw [h1]
    exact evictPage_aliasView cfg _ f p k sp pte hsp hpte key j

theorem manageStep_aliasView (cfg : Config) (self parent : Nat) (childpid : Int)
    (childthread : Option Nat) (s : State) (i : Nat) (s1 : State)
    (h : manageStep cfg self parent childpid childthread s i = some s1) (key j : Nat) (hj : j ≠ i) :
    aliasView (getPTE s1 key j) = aliasView (getPTE s key j) := by
  unfold manageStep at h
  split at h
  · exact Option.noConfusion h
  · dsimp only at h
    split at h
    · exact Option.noConfusion h
    · split at h
      · split at h
        · exact Option.noConfusion h
        · split at h
          · simp only [Option.some.injEq] at h
            rw [← h, getPTE_setPTE_ne_idx _ _ _ _ _ _ hj, getPTE_setPTE_ne_idx _ _ _ _ _ _ hj,
              getPTE_setPTE_ne_idx _ _ _ _ _ _ hj]
          · exact Option.noConfusion h
      · split at h
        · split at h
          · exact Option.noConfusion h
          · rename_i s1a ppn hrep
            split at h
            · exact Option.noConfusion h
            · split at h
              · exact Option.noConfusion h
              · split at h
                · exact Option.noConfusion h
                · split at h
                  · exact Option.noConfusion h
                  · split at h
                    · exact Option.noConfusion h
                    · simp only [Option.some.injEq] at h
                      rw [← h, getPTE_setPTE_ne_idx _ _ _ _ _ _ hj]
                      show aliasView (getPTE (setPTE s1a self i _) key j) = _
                      rw [getPTE_setPTE_ne_idx _ _ _ _ _ _ hj, replace_aliasView cfg _ _ s1a ppn hrep,
                        getPTE_setPTE_ne_idx _ _ _ _ _ _ hj]
        · split at h
          · exact Option.noConfusion h
          · split at h
            · simp only [Option.some.injEq] at h
              rw [← h, getPTE_setPTE_ne_idx _ _ _ _ _ _ hj, getPTE_setPTE_ne_idx _ _ _ _ _ _ hj,
                getPTE_setPTE_ne_idx _ _ _ _ _ _ hj]
            · exact Option.noConfusion h

theorem setPTE_eq_with (s : State) (key i : Nat) (e : TranslationEntry) :
    setPTE s key i e = { s with threadArray := (setPTE s key i e).threadArray } := by
  unfold setPTE
  split <;> rfl

theorem manageStep_shared (cfg : Config) (self parent : Nat) (childpid : Int)
    (childthread : Option Nat) (s : State) (i : Nat) (s1 : State) (p : TranslationEntry)
    (hne : self ≠ parent) (hp : getPTE s parent i = some p) (hsh : p.shared = true)
    (h : manageStep cfg self parent childpid childthread s i = some s1) :
    s1 = { s with threadArray := s1.threadArray }
      ∧ (∀ key, key ≠ self → s1.threadArray key = s.threadArray key)
      ∧ ∃ c, getPTE s1 self i = some c ∧ c.physicalPage = p.physicalPage ∧ c.shared = true := by
  unfold manageStep at h
  cases hc0 : getPTE s self i with
  | none => simp [hc0] at h
  | some c0 =>
    simp only [hc0] at h
    have hpA : getPTE (setPTE s self i { c0 with virtualPage := (i : Int) }) parent i = some p := by
      rw [getPTE_setPTE_ne_key _ _ _ _ _ _ (Ne.symm hne), hp]
    simp only [hpA] at h
    rw [if_pos hsh] at h
    have hcA := getPTE_setPTE_self s self i { c0 with virtualPage := (i : Int) } c0 hc0
    simp only [hcA] at h
    have hcB := getPTE_setPTE_self _ self i
      { ({ c0 with virtualPage := (i : Int) } : TranslationEntry) with physicalPage := p.physicalPage }
      _ hcA
    have hpB : getPTE (setPTE (setPTE s self i { c0 with virtualPage := (i : Int) }) self i
        { ({ c0 with virtualPage := (i : Int) } : TranslationEntry) with
          physicalPage := p.physicalPage }) parent i = some p := by
      rw [getPTE_setPTE_ne_key _ _ _ _ _ _ (Ne.symm hne), hpA]
    simp only [hpB, hcB, Option.some.injEq] at h
    rw [← h]
    refine ⟨?_, ?_, ?_⟩
    · rw [setPTE_eq_with, setPTE_eq_with (setPTE s self i _), setPTE_eq_with s]
    · intro key hkey
      rw [setPTE_threadArray_ne _ _ _ _ _ hkey, setPTE_threadArray_ne _ _ _ _ _ hkey,
        setPTE_threadArray_ne _ _ _ _ _ hkey]
    · exact ⟨_, getPTE_setPTE_self _ self i _ _ hcB, rfl, hsh⟩

theorem countResident_cons (p : TranslationEntry) (ps : List TranslationEntry) :
    countResident (p :: ps)
      = (if p.shared = false ∧ p.valid = true then 1 else 0) + countResident ps := by
  unfold countResident
  cases hv : p.valid <;> cases hs : p.shared <;> simp [List.filter_cons, hv, hs]
  omega

theorem copyEntries_spec (npa : Nat) (l : List TranslationEntry) :
    ∀ (i c : Nat), (copyEntries npa l i c).1.length = l.length
      ∧ (copyEntries npa l i c).2 = c + countResident l
      ∧ ∀ (j : Nat) (p : TranslationEntry), l[j]? = some p → p.shared = true →
          ∃ e, (copyEntries npa l i c).1[j]? = some e ∧ e.physicalPage = p.physicalPage
            ∧ e.shared = true := by
  induction l with
  | nil =>
    intro i c
    refine ⟨rfl, by simp [copyEntries, countResident], ?_⟩
    intro j p hp
    simp at hp
  | cons q qs ih =>
    intro i c
    obtain ⟨h1, h2, h3⟩ := ih (i + 1) (if q.shared = false ∧ q.valid = true then c + 1 else c)
    refine ⟨?_, ?_, ?_⟩
    · simp only [copyEntries, List.length_cons, h1]
    · simp only [copyEntries, h2, countResident_cons]
      by_cases hq : q.shared = false ∧ q.valid = true
      · rw [if_pos hq, if_pos hq]
        omega
      · rw [if_neg hq, if_neg hq]
        omega
    · intro j p hp hsh
      cases j with
      | zero =>
        simp only [List.getElem?_cons_zero, Option.some.injEq] at hp
        subst hp
        refine ⟨{ virtualPage := (i : Int)
                  physicalPage :=
                    if q.shared = true then q.physicalPage
                    else if q.valid = true then ((c + npa : Nat) : Int) else -1
                  valid := q.valid, use := q.use, dirty := q.dirty, readOnly := q.readOnly
                  shared := q.shared, backed_up := q.backed_up },
          by simp only [copyEntries, List.getElem?_cons_zero], ?_, hsh⟩
        simp [hsh]
      | succ j =>
        simp only [List.getElem?_cons_succ] at hp
        obtain ⟨e, he, he1, he2⟩ := h3 j p hp hsh
        exact ⟨e, by simpa only [copyEntries, List.getElem?_cons_succ] using he, he1, he2⟩

theorem forkSpace_inv (cfg : Config) (s : State) (parent : Nat) (P : ProcessAddressSpace)
    (s1 : State) (child : ProcessAddressSpace) (hP : s.threadArray parent = some P)
    (h : forkSpace cfg s parent = some (s1, child)) :
    P.numVirtualPages ≤ P.KernelPageTable.length
      ∧ child.numVirtualPages = P.numVirtualPages
      ∧ child.KernelPageTable
          = (copyEntries s.numPagesAllocated (P.KernelPageTable.take P.numVirtualPages) 0 0).1
      ∧ s1 = { s with
          mainMemory := s1.mainMemory
          numPagesAllocated := s.numPagesAllocated
            + (copyEntries s.numPagesAllocated (P.KernelPageTable.take P.numVirtualPages) 0 0).2 } := by
  simp only [forkSpace, hP] at h
  split at h
  · exact Option.noConfusion h
  · split at h
    · exact Option.noConfusion h
    · rename_i hlen
      split at h
      · exact Option.noConfusion h
      · split at h
        · exact Option.noConfusion h
        · simp only [Option.some.injEq, Prod.mk.injEq] at h
          refine ⟨by omega, ?_, ?_, ?_⟩
          · rw [← h.2]
          · rw [← h.2]
          · rw [← h.1]

theorem aliasView_some (e : Option TranslationEntry) (ppn : Int) (sh : Bool)
    (h : aliasView e = some (ppn, sh)) : ∃ p, e = some p ∧ p.physicalPage = ppn ∧ p.shared = sh := by
  cases e with
  | none => simp [aliasView] at h
  | some p =>
    simp only [aliasView, Option.map_some', Option.some.injEq, Prod.mk.injEq] at h
    exact ⟨p, rfl, h.1, h.2⟩

theorem manageLoop_alias (cfg : Config) (self parent : Nat) (childpid : Int)
    (childthread : Option Nat) (s : State) (v : Nat) (ppn : Int) (hne : self ≠ parent)
    (hv : aliasView (getPTE s parent v) = some (ppn, true)) :
    ∀ (k : Nat) (s1 : State), manageLoop cfg self parent childpid childthread k s = some s1 →
      aliasView (getPTE s1 parent v) = some (ppn, true)
        ∧ (v < k → aliasView (getPTE s1 self v) = some (ppn, true)) := by
  intro k
  induction k with
  | zero =>
    intro s1 h
    simp only [manageLoop, Option.some.injEq] at h
    rw [← h]
    exact ⟨hv, fun h0 => absurd h0 (Nat.not_lt_zero v)⟩
  | succ k ih =>
    intro s1 h
    simp only [manageLoop] at h
    cases hk : manageLoop cfg self parent childpid childthread k s with
    | none => simp [hk] at h
    | some sk =>
      simp only [hk] at h
      obtain ⟨h1, h2⟩ := ih sk hk
      by_cases hvk : v = k
      · subst hvk
        obtain ⟨p, hp, hp1, hp2⟩ := aliasView_some _ _ _ h1
        obtain ⟨_, h4, c, hc, hc1, hc2⟩ :=
          manageStep_shared cfg self parent childpid childthread sk v s1 p hne hp hp2 h
        constructor
        · unfold getPTE
          rw [h4 parent (Ne.symm hne)]
          exact h1
        · intro _
          rw [hc]
          simp [aliasView, hc1, hc2, hp1]
      · have h5 := manageStep_aliasView cfg self parent childpid childthread sk k s1 h
        constructor
        · rw [h5 parent v hvk]
          exact h1
        · intro hlt
          rw [h5 self v hvk]
          exact h2 (by omega)

theorem getPTE_setBackup (s : State) (key : Nat) (b : Nat → Nat) (key1 j : Nat) :
    getPTE (setBackup s key b) key1 j = getPTE s key1 j := by
  unfold setBackup
  cases hsp : s.threadArray key with
  | none => rfl
  | some sp =>
    unfold getPTE
    by_cases hk : key1 = key
    · subst hk
      simp only [setAt_same, hsp]
    · simp only [setAt_ne _ _ hk]

/-- Let page `v` be shared in the parent and let the child be stored in a
slot other than the parent's.  The copy constructor gives the child an entry
for `v` with the frame of the parent and `shared` set, reserves frames only for
the pages that are valid and not shared, and does not write the frame table.
After `manageChildParentTable` the entry of the child for `v` has the frame of
the parent and `shared` set; and the iteration of its loop for a page that is
shared in the parent changes nothing but page tables: no frame is acquired, no
byte of memory, no entry of the frame table and no counter is written. -/
theorem fork_aliases_shared_page (cfg : Config) (s : State) (self parent : Nat) (childpid : Int)
    (childthread : Option Nat) (P : ProcessAddressSpace) (v : Nat) (pv : TranslationEntry)
    (s1 : State) (child : ProcessAddressSpace) (s2 : State)
    (hne : self ≠ parent) (hP : s.threadArray parent = some P) (hv : v < P.numVirtualPages)
    (hpv : P.KernelPageTable[v]? = some pv) (hsh : pv.shared = true)
    (hfork : forkSpace cfg s parent = some (s1, child))
    (hmanage : manageChildParentTable cfg (installSpace s1 self child) self parent childpid childthread
      = some s2) :
    (∃ cv, child.KernelPageTable[v]? = some cv ∧ cv.physicalPage = pv.physicalPage ∧ cv.shared = true)
      ∧ s1.numPagesAllocated
          = s.numPagesAllocated + countResident (P.KernelPageTable.take P.numVirtualPages)
      ∧ s1 = { s with mainMemory := s1.mainMemory, numPagesAllocated := s1.numPagesAllocated }
      ∧ (∃ cv, getPTE s2 self v = some cv ∧ cv.physicalPage = pv.physicalPage ∧ cv.shared = true)
      ∧ ∀ (t t1 : State) (p : TranslationEntry), getPTE t parent v = some p → p.shared = true →
          manageStep cfg self parent childpid childthread t v = some t1 →
          t1 = { t with threadArray := t1.threadArray } := by
  obtain ⟨hlen, hn, htab, hs1⟩ := forkSpace_inv cfg s parent P s1 child hP hfork
  obtain ⟨_, hcount, hent⟩ :=
    copyEntries_spec s.numPagesAllocated (P.KernelPageTable.take P.numVirtualPages) 0 0
  have htake : (P.KernelPageTable.take P.numVirtualPages)[v]? = some pv := by
    rw [List.getElem?_take_of_lt hv]
    exact hpv
  have hchild : ∃ cv, child.KernelPageTable[v]? = some cv ∧ cv.physicalPage = pv.physicalPage
      ∧ cv.shared = true := by
    rw [htab]
    exact hent v pv htake hsh
  refine ⟨hchild, ?_, ?_, ?_, ?_⟩
  · rw [hs1, hcount]
    simp
  · rw [hs1]
  · have hPI : (installSpace s1 self child).threadArray parent = some P := by
      show setAt s1.threadArray self (some child) parent = some P
      rw [setAt_ne _ _ (Ne.symm hne), hs1]
      exact hP
    have hCI : (installSpace s1 self child).threadArray self = some child := setAt_same _ _ _
    have hview : aliasView (getPTE (installSpace s1 self child) parent v)
        = some (pv.physicalPage, true) := by
      rw [getPTE_of_threadArray _ parent v P hPI, hpv]
      simp [aliasView, hsh]
    simp only [manageChildParentTable, hCI] at hmanage
    cases hl : manageLoop cfg self parent childpid childthread child.numVirtualPages
        (installSpace s1 self child) with
    | none => simp [hl] at hmanage
    | some sl =>
      simp only [hl] at hmanage
      obtain ⟨_, h2⟩ := manageLoop_alias cfg self parent childpid childthread _ v pv.physicalPage
        hne hview child.numVirtualPages sl hl
      have h3 := h2 (by rw [hn]; exact hv)
      split at hmanage
      · split at hmanage
        · exact Option.noConfusion hmanage
        · simp only [Option.some.injEq] at hmanage
          rw [← hmanage, getPTE_setBackup]
          obtain ⟨cv, hcv, hcv1, hcv2⟩ := aliasView_some _ _ _ h3
          exact ⟨cv, hcv, hcv1, hcv2⟩
      · exact Option.noConfusion hmanage
  · intro t t1 p hp hps hstep
    exact (manageStep_shared cfg self parent childpid childthread t v t1 p hne hp hps hstep).1

set_option maxRecDepth 100000 in
/-- Witness of `fork_aliases_shared_page`: scenario S2, page 1 of the parent is
shared in frame 1; after the fork page 1 of the child is shared in frame 1, and
the copy constructor has reserved 2 frames. -/
theorem fork_aliases_shared_page_witness :
    ∃ s2 cv, manageChildParentTable cfgS4 (installSpace forkS2.1 1 forkS2.2) 1 0 1 (some 1) = some s2
      ∧ getPTE s2 1 1 = some cv ∧ cv.physicalPage = 1 ∧ cv.shared = true
      ∧ forkS2.1.numPagesAllocated = stateS2.numPagesAllocated + 2 := by
  have hs : (manageChildParentTable cfgS4 (installSpace forkS2.1 1 forkS2.2) 1 0 1 (some 1)).isSome
      = true := by decide!
  obtain ⟨s2, h⟩ := Option.isSome_iff_exists.1 hs
  have hf : forkSpace cfgS4 stateS2 0 = some (forkS2.1, forkS2.2) := by rfl
  obtain ⟨_, h2, _, ⟨cv, hcv, hcv1, hcv2⟩, _⟩ :=
    fork_aliases_shared_page cfgS4 stateS2 1 0 1 (some 1) spaceS2 1
      { virtualPage := 1, physicalPage := 1, valid := true, readOnly := false, use := false,
        dirty := false, shared := true, backed_up := false }
      forkS2.1 forkS2.2 s2 (by decide) rfl (by decide) rfl rfl hf h
  exact ⟨s2, cv, h, hcv, hcv1, hcv2, h2⟩

/-! ## Reload from the executable -/

theorem evictPage_space_other (cfg : Config) (s : State) (f p1 k1 : Nat)
    (sp1 : ProcessAddressSpace) (pte1 : TranslationEntry) (p k : Nat) (sp : ProcessAddressSpace)
    (hsp1 : s.threadArray p1 = some sp1) (hsp : s.threadArray p = some sp)
    (hne : ¬(p1 = p ∧ k1 = k)) :
    ∃ sp2, (evictPage cfg s f p1 k1 sp1 pte1).threadArray p = some sp2
      ∧ sp2.Executable = sp.Executable ∧ sp2.KernelPageTable[k]? = sp.KernelPageTable[k]? := by
  by_cases hp : p1 = p
  · subst hp
    have hk : k ≠ k1 := fun h => hne ⟨rfl, h.symm⟩
    rw [hsp1] at hsp
    cases hsp
    refine ⟨_, setAt_same _ _ _, rfl, ?_⟩
    show (sp1.KernelPageTable.set k1 _)[k]? = _
    rw [List.getElem?_set_ne (Ne.symm hk)]
  · refine ⟨sp, ?_, rfl, rfl⟩
    show setAt s.threadArray p1 _ p = some sp
    rw [setAt_ne _ _ (Ne.symm hp)]
    exact hsp

theorem replace_space_not_recorded (cfg : Config) (s : State) (hint : Int) (s1 : State) (r : Int)
    (p k : Nat) (sp : ProcessAddressSpace)
    (h : replace_with_next_physpage cfg s hint = some (s1, r))
    (hsp : s.threadArray p = some sp) (hn : ¬ frameRecorded cfg s p k) :
    ∃ sp2, s1.threadArray p = some sp2 ∧ sp2.Executable = sp.Executable
      ∧ sp2.KernelPageTable[k]? = sp.KernelPageTable[k]? := by
  rcases replace_cases cfg s hint s1 r h with ⟨_, h1, _⟩ | ⟨_, i, _, h1, _⟩ | ⟨_, _, f, rest, hg, he⟩
  · rw [h1]
    exact ⟨sp, hsp, rfl, rfl⟩
  · rw [h1]
    exact ⟨sp, hsp, rfl, rfl⟩
  · obtain ⟨hsh, hf⟩ := get_random_physpage_spec cfg _ _ f rest hg
    obtain ⟨p1, k1, sp1, pte1, hpid, hvpn, hsp1, _, _, h1, _⟩ := evict_inv cfg _ f s1 r he hsh
    rw [h1]
    refine evictPage_space_other cfg _ f p1 k1 sp1 pte1 p k sp hsp1 hsp ?_
    intro hpk
    refine hn ⟨f, hf, ?_, ?_⟩
    · rw [← hpk.1]
      exact hpid
    · rw [← hpk.2]
      exact hvpn

theorem ReadAt_page (file : OpenFile) (into : Nat → Nat) (dst P : Nat) (pos : Int) (j : Nat)
    (hP : 0 < P) (hpos : 0 ≤ pos) (hj : j < P) :
    ReadAt file into dst (P : Int) pos (dst + j)
      = if pos + (j : Int) < (file.length : Int) then file.getD (pos + (j : Int)).toNat 0
        else into (dst + j) := by
  unfold ReadAt ReadAtCount
  have h1 : dst + j - dst = j := by omega
  rw [h1]
  by_cases hin : pos + (j : Int) < (file.length : Int)
  · rw [if_pos hin]
    have hc : ¬((P : Int) ≤ 0 ∨ pos < 0 ∨ (file.length : Int) ≤ pos) := by omega
    rw [if_neg hc]
    have hlt : j < min (P : Int).toNat (file.length - pos.toNat) := by
      rw [Int.toNat_ofNat]
      omega
    rw [if_pos ⟨by omega, hlt⟩]
    congr 1
    omega
  · rw [if_neg hin]
    by_cases hc : (P : Int) ≤ 0 ∨ pos < 0 ∨ (file.length : Int) ≤ pos
    · rw [if_pos hc]
      rw [if_neg (by omega)]
    · rw [if_neg hc]
      have hge : ¬ j < min (P : Int).toNat (file.length - pos.toNat) := by
        rw [Int.toNat_ofNat]
        omega
      rw [if_neg (fun h => hge h.2)]

/-- C16: let page `vpn = v / PageSize` of the space in slot `self` have no
frame recorded in the frame table, and let the frame acquisition of
`DemandPageAllocation(v)` return the frame `f` of the machine.  Whenever the
call returns, the entry of the page has `backed_up` as before and `dirty`
cleared.  If moreover `backed_up` is false, the executable is open, holds a
header, and the offset `code.inFileAddr + vpn * PageSize` is not negative, the
call returns true and byte `j` of frame `f` is the byte of the executable at
that offset plus `j` when it is inside the file and 0 otherwise. -/
theorem DemandPageAllocation_reloads_executable (cfg : Config) (s : State) (self v : Nat)
    (sp : ProcessAddressSpace) (pte : TranslationEntry) (s1 : State) (f : Nat)
    (hsp : s.threadArray self = some sp)
    (hpte : sp.KernelPageTable[v / cfg.PageSize]? = some pte)
    (hnr : ¬ frameRecorded cfg s self (v / cfg.PageSize))
    (hr : replace_with_next_physpage cfg s (-1) = some (s1, (f : Int)))
    (hf : f < cfg.NumPhysPages) :
    (∀ s2 b, DemandPageAllocation cfg s self v = some (s2, b) →
        ∃ pte2, getPTE s2 self (v / cfg.PageSize) = some pte2
          ∧ pte2.backed_up = pte.backed_up ∧ pte2.dirty = false)
      ∧ ∀ (exe : OpenFile) (raw : NoffHeader), pte.backed_up = false → sp.Executable = some exe →
          readNoffHeader exe = some raw →
          0 ≤ toInt32 (fixHeader cfg raw).code.inFileAddr + ((v / cfg.PageSize * cfg.PageSize : Nat) : Int) →
          ∃ s2, DemandPageAllocation cfg s self v = some (s2, true)
            ∧ ∀ j, j < cfg.PageSize →
                s2.mainMemory (f * cfg.PageSize + j)
                  = if toInt32 (fixHeader cfg raw).code.inFileAddr
                        + ((v / cfg.PageSize * cfg.PageSize : Nat) : Int) + (j : Int)
                      < (exe.length : Int)
                    then exe.getD (toInt32 (fixHeader cfg raw).code.inFileAddr
                        + ((v / cfg.PageSize * cfg.PageSize : Nat) : Int) + (j : Int)).toNat 0
                    else 0 := by
  obtain ⟨sp2, hsp2, hexe2, hpte2⟩ :=
    replace_space_not_recorded cfg s (-1) s1 f self (v / cfg.PageSize) sp hr hsp hnr
  rw [hpte] at hpte2
  have hlt : v / cfg.PageSize < sp2.KernelPageTable.length := by
    by_contra hn
    rw [List.getElem?_eq_none (by omega)] at hpte2
    exact Option.noConfusion hpte2
  constructor
  · intro s2 b h
    obtain ⟨s1a, fa, this, ptea, mem, hra, _, hspa, hptea, _, _, hs2⟩ :=
      DemandPageAllocation_cases cfg s self v s2 b h
    rw [hr] at hra
    simp only [Option.some.injEq, Prod.mk.injEq] at hra
    obtain ⟨hra1, _⟩ := hra
    subst hra1
    rw [hsp2] at hspa
    cases hspa
    rw [hpte2] at hptea
    cases hptea
    refine ⟨{ pte with valid := true, dirty := false, physicalPage := (fa : Int) }, ?_, rfl, rfl⟩
    rw [hs2]
    exact getPTE_setPTE_same _ self _ _ sp2 hsp2 hlt
  · intro exe raw hbu hexe hraw hpos
    have hexe3 : sp2.Executable = some exe := by rw [hexe2, hexe]
    have hbf : ¬ pte.backed_up = true := by
      rw [hbu]
      exact Bool.noConfusion
    have hre : refill cfg sp2 pte (bzero s1.mainMemory (f * cfg.PageSize) cfg.PageSize)
        (v / cfg.PageSize) f
        = some (ReadAt exe (bzero s1.mainMemory (f * cfg.PageSize) cfg.PageSize) (f * cfg.PageSize)
            (cfg.PageSize : Int)
            (toInt32 (fixHeader cfg raw).code.inFileAddr
              + ((v / cfg.PageSize * cfg.PageSize : Nat) : Int))) := by
      simp only [refill, if_neg hbf, hexe3, hraw]
    have hd := DemandPageAllocation_eq cfg s self v s1 f sp2 pte _ hr hf hsp2 hpte2 hre
    refine ⟨_, hd, ?_⟩
    intro j hj
    rw [setPTE_mainMemory]
    show ReadAt exe _ (f * cfg.PageSize) (cfg.PageSize : Int) _ (f * cfg.PageSize + j) = _
    rw [ReadAt_page exe _ (f * cfg.PageSize) cfg.PageSize _ j cfg.PageSize_pos hpos hj]
    by_cases hin : toInt32 (fixHeader cfg raw).code.inFileAddr
        + ((v / cfg.PageSize * cfg.PageSize : Nat) : Int) + (j : Int) < (exe.length : Int)
    · rw [if_pos hin, if_pos hin]
    · rw [if_neg hin, if_neg hin]
      unfold bzero
      rw [if_pos ⟨by omega, by omega⟩]

set_option maxRecDepth 100000 in
theorem DemandPageAllocation_reloads_executable_witness :
    (∀ s2 b, DemandPageAllocation cfgSmall stateBound 0 0 = some (s2, b) →
        ∃ pte2, getPTE s2 0 (0 / cfgSmall.PageSize) = some pte2
          ∧ pte2.backed_up = false ∧ pte2.dirty = false)
      ∧ ∃ s2, DemandPageAllocation cfgSmall stateBound 0 0 = some (s2, true)
          ∧ frameBytes s2 0 = (exeSmall.drop 40).take 4 := by
  have hsp : stateBound.threadArray 0 = some spaceBound := rfl
  have hs : (spaceBound.KernelPageTable[0 / cfgSmall.PageSize]?).isSome = true := by decide!
  obtain ⟨pte, hpte⟩ := Option.isSome_iff_exists.1 hs
  have hbu : pte.backed_up = false := by
    have h : (spaceBound.KernelPageTable[0 / cfgSmall.PageSize]?).map (fun e => e.backed_up)
        = some false := by decide!
    rw [hpte] at h
    exact Option.some.inj h
  have hnr : ¬ frameRecorded cfgSmall stateBound 0 (0 / cfgSmall.PageSize) := by decide!
  have hr : replace_with_next_physpage cfgSmall stateBound (-1) = some (stateBound, ((0 : Nat) : Int)) := by
    rfl
  have hexe : spaceBound.Executable = some exeSmall := by rfl
  have hs2 : (readNoffHeader exeSmall).isSome = true := by decide!
  obtain ⟨raw, hraw⟩ := Option.isSome_iff_exists.1 hs2
  have hin : toInt32 (fixHeader cfgSmall raw).code.inFileAddr = 40 := by
    have h : (readNoffHeader exeSmall).map (fun r => toInt32 (fixHeader cfgSmall r).code.inFileAddr)
        = some 40 := by decide!
    rw [hraw] at h
    exact Option.some.inj h
  have hmain := DemandPageAllocation_reloads_executable cfgSmall stateBound 0 0 spaceBound pte
    stateBound 0 hsp hpte hnr hr (by decide)
  refine ⟨?_, ?_⟩
  · intro s2 b h
    obtain ⟨pte2, h1, h2, h3⟩ := hmain.1 s2 b h
    exact ⟨pte2, h1, h2.trans hbu, h3⟩
  · obtain ⟨s2, hd, _⟩ := hmain.2 exeSmall raw hbu hexe hraw (by rw [hin]; decide)
    refine ⟨s2, hd, ?_⟩
    have h : (DemandPageAllocation cfgSmall stateBound 0 0).map
        (fun r => frameBytes r.1 0) = some ((exeSmall.drop 40).take 4) := by decide!
    rw [hd] at h
    exact Option.some.inj h

/-! ## The loader without replacement -/

theorem loadPages_policy0 (cfg : Config) (s : State) (halgo : s.pageReplaceAlgo = 0) :
    ∀ k, s.numPagesAllocated + k ≤ cfg.NumPhysPages →
      ∃ s1 table, loadPages cfg k s = some (s1, table)
        ∧ s1.mainMemory = s.mainMemory ∧ s1.numPagesAllocated = s.numPagesAllocated + k
        ∧ s1.pageReplaceAlgo = 0 ∧ table.length = k
        ∧ ∀ i, i < k →
            ∃ e, table[i]? = some e ∧ e.physicalPage = ((s.numPagesAllocated + i : Nat) : Int) := by
  intro k
  induction k with
  | zero =>
    intro _
    exact ⟨s, [], rfl, rfl, rfl, halgo, rfl, fun i hi => absurd hi (Nat.not_lt_zero i)⟩
  | succ k ih =>
    intro hk
    obtain ⟨s1, table, hl, hm, hn, ha, hlen, ht⟩ := ih (by omega)
    have hr : replace_with_next_physpage cfg s1 (-1)
        = some ({ s1 with numPagesAllocated := s1.numPagesAllocated + 1 },
            (s1.numPagesAllocated : Int)) := by
      unfold replace_with_next_physpage
      rw [if_pos ha]
    have hg : ¬((s1.numPagesAllocated : Int) < 0
        ∨ (cfg.NumPhysPages : Int) ≤ (s1.numPagesAllocated : Int)) := by omega
    simp only [loadPages, hl, hr, if_neg hg]
    refine ⟨_, _, rfl, hm, ?_, ha, ?_, ?_⟩
    · show s1.numPagesAllocated + 1 = _
      omega
    · rw [List.length_append, hlen]
      rfl
    · intro i hi
      by_cases hik : i < k
      · obtain ⟨e, he, hp⟩ := ht i hik
        refine ⟨e, ?_, hp⟩
        rw [List.getElem?_append_left (by omega)]
        exact he
      · have hik2 : i = table.length := by omega
        rw [hik2, List.getElem?_concat_length]
        refine ⟨_, rfl, ?_⟩
        show (s1.numPagesAllocated : Int) = _
        rw [hn, hlen]

theorem ReadAtCount_le (file : OpenFile) (sz : Nat) (pos : Int) :
    ReadAtCount file (sz : Int) pos ≤ sz := by
  unfold ReadAtCount
  split
  · omega
  · rw [Int.toNat_ofNat]
    exact Nat.min_le_left _ _

theorem loadSegment_eq (cfg : Config) (exe : OpenFile) (table : List TranslationEntry)
    (mem : Nat → Nat) (seg : Segment) (npa0 n sz va : Nat)
    (htab : ∀ i, i < n →
      ∃ e, table[i]? = some e ∧ e.physicalPage = ((npa0 + i : Nat) : Int))
    (hsz : toInt32 seg.size = (sz : Int)) (hva : toInt32 seg.virtualAddr = (va : Int))
    (hpos : 0 < sz) (hin : va + sz ≤ n * cfg.PageSize) (hmem : npa0 + n ≤ cfg.NumPhysPages) :
    loadSegment cfg exe table mem seg
      = some (ReadAt exe mem (npa0 * cfg.PageSize + va) (sz : Int) (toInt32 seg.inFileAddr)) := by
  have hlt : va / cfg.PageSize < n := by
    rw [Nat.div_lt_iff_lt_mul cfg.PageSize_pos]
    omega
  obtain ⟨e, he, hp⟩ := htab _ hlt
  have hdst : (npa0 + va / cfg.PageSize) * cfg.PageSize + va % cfg.PageSize
      = npa0 * cfg.PageSize + va := by
    rw [Nat.add_mul, Nat.add_assoc, Nat.div_add_mod']
  have hc := ReadAtCount_le exe sz (toInt32 seg.inFileAddr)
  have hM : (npa0 + n) * cfg.PageSize ≤ cfg.NumPhysPages * cfg.PageSize :=
    Nat.mul_le_mul_right _ hmem
  rw [Nat.add_mul] at hM
  have h1 : (0 : Int) < (sz : Int) := by exact_mod_cast hpos
  have h2 : ¬((va : Int) < 0) := by omega
  have h3 : ¬(((npa0 + va / cfg.PageSize : Nat) : Int) < 0) :=
    Int.not_lt.2 (Int.ofNat_nonneg _)
  have h4 : ¬(cfg.MemorySize < npa0 * cfg.PageSize + va
      + ReadAtCount exe (sz : Int) (toInt32 seg.inFileAddr)) := by
    unfold Config.MemorySize
    omega
  unfold loadSegment
  rw [hsz, hva, if_pos h1, if_neg h2, Int.toNat_ofNat]
  simp only [he]
  rw [hp, if_neg h3, Int.toNat_ofNat, hdst, if_neg h4]

theorem loadSegment_empty (cfg : Config) (exe : OpenFile) (table : List TranslationEntry)
    (mem : Nat → Nat) (seg : Segment) (h : ¬ 0 < toInt32 seg.size) :
    loadSegment cfg exe table mem seg = some mem := by
  unfold loadSegment
  rw [if_neg h]

theorem loadSegment_inside (cfg : Config) (exe : OpenFile) (table : List TranslationEntry)
    (mem : Nat → Nat) (seg : Segment) (npa0 n : Nat)
    (htab : ∀ i, i < n →
      ∃ e, table[i]? = some e ∧ e.physicalPage = ((npa0 + i : Nat) : Int))
    (hin : segmentInside cfg n seg) (hmem : npa0 + n ≤ cfg.NumPhysPages) :
    ∃ mem1, loadSegment cfg exe table mem seg = some mem1 := by
  by_cases hs : 0 < toInt32 seg.size
  · obtain ⟨h0, h1⟩ := hin hs
    refine ⟨_, loadSegment_eq cfg exe table mem seg npa0 n (toInt32 seg.size).toNat
      (toInt32 seg.virtualAddr).toNat htab ?_ ?_ ?_ ?_ hmem⟩
    · rw [Int.toNat_of_nonneg (le_of_lt hs)]
    · rw [Int.toNat_of_nonneg h0]
    · omega
    · omega
  · exact ⟨mem, loadSegment_empty cfg exe table mem seg hs⟩

theorem fixHeader_magic (cfg : Config) (raw : NoffHeader)
    (h : raw.noffMagic = cfg.NOFFMAGIC ∨ cfg.WordToHost raw.noffMagic = cfg.NOFFMAGIC) :
    (fixHeader cfg raw).noffMagic = cfg.NOFFMAGIC := by
  unfold fixHeader
  by_cases h1 : raw.noffMagic = cfg.NOFFMAGIC
  · rw [if_neg (fun hc => hc.1 h1)]
    exact h1
  · have h2 : cfg.WordToHost raw.noffMagic = cfg.NOFFMAGIC := by
      rcases h with h | h
      · exact absurd h h1
      · exact h
    rw [if_pos ⟨h1, h2⟩]
    exact h2

theorem loadFromFile_inv (cfg : Config) (s : State) (exe : OpenFile) (raw : NoffHeader)
    (s' : State) (sp : ProcessAddressSpace) (hraw : readNoffHeader exe = some raw)
    (h : loadFromFile cfg s exe = some (s', sp)) :
    ∃ s1 mem1,
      loadPages cfg (divRoundUp (headerSize cfg (fixHeader cfg raw)) cfg.PageSize) s
          = some (s1, sp.KernelPageTable)
        ∧ divRoundUp (headerSize cfg (fixHeader cfg raw)) cfg.PageSize + s.numPagesAllocated
            ≤ cfg.NumPhysPages
        ∧ loadSegment cfg exe sp.KernelPageTable
            (bzero s1.mainMemory (s1.numPagesAllocated * cfg.PageSize)
              ((divRoundUp (headerSize cfg (fixHeader cfg raw)) cfg.PageSize * cfg.PageSize) % 2 ^ 32))
            (fixHeader cfg raw).code = some mem1
        ∧ loadSegment cfg exe sp.KernelPageTable mem1 (fixHeader cfg raw).initData
            = some s'.mainMemory := by
  simp only [loadFromFile, hraw] at h
  split at h
  · exact Option.noConfusion h
  · split at h
    · exact Option.noConfusion h
    · rename_i hfit
      split at h
      · exact Option.noConfusion h
      · rename_i s1 table hlp
        split at h
        · exact Option.noConfusion h
        · split at h
          · exact Option.noConfusion h
          · rename_i mem1 hc
            split at h
            · exact Option.noConfusion h
            · rename_i mem2 hd
              simp only [Option.some.injEq, Prod.mk.injEq] at h
              obtain ⟨h1, h2⟩ := h
              subst h1
              subst h2
              exact ⟨s1, mem1, hlp, by omega, hc, hd⟩

set_option maxRecDepth 100000 in
/-- The header of `exeStray` has the magic number and asks
for 3 pages, with all 8 frames of `cfgS1` unused, and the construction of the
address space does not complete, without replacement and under the random
policy: the page table has no entry for the page 4 of the code segment. -/
theorem loadFromFile_stray_segment :
    (readNoffHeader exeStray).map
        (fun raw => ((fixHeader cfgS1 raw).noffMagic,
          divRoundUp (headerSize cfgS1 (fixHeader cfgS1 raw)) cfgS1.PageSize))
      = some (cfgS1.NOFFMAGIC, 3)
      ∧ 3 + (bootState 0 (fun _ => none) []).numPagesAllocated ≤ cfgS1.NumPhysPages
      ∧ (loadFromFile cfgS1 (bootState 0 (fun _ => none) []) exeStray).isNone = true
      ∧ (loadFromFile cfgS1 (bootState 1 (fun _ => none) []) exeStray).isNone = true := by
  decide!

/-- For a file that holds a header, the construction fails when
the magic number matches in neither byte order, and fails when the pages do not
fit in `NumPhysPages - numPagesAllocated` frames.  It completes, with
`numVirtualPages` pages and as many frames taken, when the magic number matches
in one of the byte orders, no replacement policy is set, the frames after the
new ones of the space exist as well (`numPagesAllocated + 2 * numVirtualPages ≤
NumPhysPages`, for the range that is zeroed) and the code and initialised-data
segments lie inside the address space. -/
theorem loadFromFile_outcomes (cfg : Config) (s : State) (exe : OpenFile) (raw : NoffHeader)
    (hraw : readNoffHeader exe = some raw) :
    (raw.noffMagic ≠ cfg.NOFFMAGIC → cfg.WordToHost raw.noffMagic ≠ cfg.NOFFMAGIC →
        loadFromFile cfg s exe = none)
      ∧ (cfg.NumPhysPages
            < divRoundUp (headerSize cfg (fixHeader cfg raw)) cfg.PageSize + s.numPagesAllocated →
          loadFromFile cfg s exe = none)
      ∧ ((raw.noffMagic = cfg.NOFFMAGIC ∨ cfg.WordToHost raw.noffMagic = cfg.NOFFMAGIC) →
          s.pageReplaceAlgo = 0 →
          s.numPagesAllocated + 2 * divRoundUp (headerSize cfg (fixHeader cfg raw)) cfg.PageSize
            ≤ cfg.NumPhysPages →
          segmentInside cfg (divRoundUp (headerSize cfg (fixHeader cfg raw)) cfg.PageSize)
            (fixHeader cfg raw).code →
          segmentInside cfg (divRoundUp (headerSize cfg (fixHeader cfg raw)) cfg.PageSize)
            (fixHeader cfg raw).initData →
          ∃ s1 sp, loadFromFile cfg s exe = some (s1, sp)
            ∧ sp.numVirtualPages = divRoundUp (headerSize cfg (fixHeader cfg raw)) cfg.PageSize
            ∧ s1.numPagesAllocated = s.numPagesAllocated
                + divRoundUp (headerSize cfg (fixHeader cfg raw)) cfg.PageSize) := by
  refine ⟨?_, ?_, ?_⟩
  · intro h1 h2
    have hfix : fixHeader cfg raw = raw := by
      unfold fixHeader
      rw [if_neg (fun hc => h2 hc.2)]
    simp only [loadFromFile, hraw, hfix]
    rw [if_pos h1]
  · intro h
    simp only [loadFromFile, hraw]
    split <;> rfl
  · intro hmag halgo hfit hcin hdin
    have hm := fixHeader_magic cfg raw hmag
    generalize hn : divRoundUp (headerSize cfg (fixHeader cfg raw)) cfg.PageSize = n at hfit hcin hdin
    obtain ⟨s1, table, hl, hmem, hnpa, ha, hlen, ht⟩ := loadPages_policy0 cfg s halgo n (by omega)
    have hmod : (n * cfg.PageSize) % 2 ^ 32 ≤ n * cfg.PageSize := Nat.mod_le _ _
    have hM : (s.numPagesAllocated + 2 * n) * cfg.PageSize ≤ cfg.NumPhysPages * cfg.PageSize :=
      Nat.mul_le_mul_right _ hfit
    have hexp : (s.numPagesAllocated + 2 * n) * cfg.PageSize
        = (s.numPagesAllocated + n) * cfg.PageSize + n * cfg.PageSize := by ring
    have hg : ¬(cfg.MemorySize < s1.numPagesAllocated * cfg.PageSize + (n * cfg.PageSize) % 2 ^ 32) := by
      unfold Config.MemorySize
      rw [hnpa]
      omega
    obtain ⟨mem1, hc⟩ := loadSegment_inside cfg exe table
      (bzero s1.mainMemory (s1.numPagesAllocated * cfg.PageSize) ((n * cfg.PageSize) % 2 ^ 32))
      (fixHeader cfg raw).code s.numPagesAllocated n ht hcin (by omega)
    obtain ⟨mem2, hd⟩ := loadSegment_inside cfg exe table mem1
      (fixHeader cfg raw).initData s.numPagesAllocated n ht hdin (by omega)
    have hf : ¬(cfg.NumPhysPages < n + s.numPagesAllocated) := by omega
    refine ⟨{ s1 with mainMemory := mem2 },
      { KernelPageTable := table, numVirtualPages := n, backup := fun _ => 0,
        backupSize := (n * cfg.PageSize) % 2 ^ 32, execFile := none, Executable := none },
      ?_, rfl, hnpa⟩
    simp only [loadFromFile, hraw, hm, hn, ne_eq, not_true_eq_false, if_false, if_neg hf, hl,
      if_neg hg, hc, hd]

set_option maxRecDepth 100000 in
theorem loadFromFile_outcomes_witness :
    loadFromFile cfgS1 (bootState 0 (fun _ => none) []) exeBadMagic = none
      ∧ loadFromFile cfgS1 { bootState 0 (fun _ => none) [] with numPagesAllocated := 5 } exeS1 = none
      ∧ ∃ s1 sp, loadFromFile cfgS1 (bootState 0 (fun _ => none) []) exeS1 = some (s1, sp)
          ∧ sp.numVirtualPages = 4 ∧ s1.numPagesAllocated = 0 + 4 := by
  have hS1 : readNoffHeader exeS1 = some headerS1 := by decide!
  have hB : readNoffHeader exeBadMagic
      = some { noffMagic := 0x1234, code := ⟨0, 0, 40⟩, initData := ⟨0, 0, 0⟩,
               uninitData := ⟨0, 0, 0⟩ } := by decide!
  refine ⟨?_, ?_, ?_⟩
  · exact (loadFromFile_outcomes cfgS1 (bootState 0 (fun _ => none) []) exeBadMagic _ hB).1
      (by decide) (by decide)
  · exact (loadFromFile_outcomes cfgS1
      { bootState 0 (fun _ => none) [] with numPagesAllocated := 5 } exeS1 _ hS1).2.1 (by decide)
  · exact (loadFromFile_outcomes cfgS1 (bootState 0 (fun _ => none) []) exeS1 _ hS1).2.2
      (Or.inl (by decide)) rfl (by decide) (fun _ => by decide) (fun _ => by decide)

/-! ## Segment copies of the loader -/

theorem ReadAt_at_inside (file : OpenFile) (into : Nat → Nat) (dst sz p j : Nat)
    (hj : j < sz) (hin : p + j < file.length) :
    ReadAt file into dst (sz : Int) (p : Int) (dst + j) = file.getD (p + j) 0 := by
  unfold ReadAt ReadAtCount
  have h1 : dst + j - dst = j := by omega
  have hc : ¬((sz : Int) ≤ 0 ∨ (p : Int) < 0 ∨ (file.length : Int) ≤ (p : Int)) := by omega
  rw [h1, if_neg hc, Int.toNat_ofNat, Int.toNat_ofNat]
  rw [if_pos ⟨by omega, by omega⟩]

theorem ReadAt_at_outside (file : OpenFile) (into : Nat → Nat) (dst sz : Nat) (pos : Int) (a : Nat)
    (h : a < dst ∨ dst + sz ≤ a) :
    ReadAt file into dst (sz : Int) pos a = into a := by
  have hc := ReadAtCount_le file sz pos
  unfold ReadAt
  rw [if_neg (by omega)]

theorem table_translation (cfg : Config) (table : List TranslationEntry) (npa0 n a : Nat)
    (htab : ∀ i, i < n →
      ∃ e, table[i]? = some e ∧ e.physicalPage = ((npa0 + i : Nat) : Int))
    (ha : a < n * cfg.PageSize) :
    ∃ pte, table[a / cfg.PageSize]? = some pte ∧ 0 ≤ pte.physicalPage
      ∧ pte.physicalPage.toNat * cfg.PageSize + a % cfg.PageSize = npa0 * cfg.PageSize + a := by
  have hlt : a / cfg.PageSize < n := by
    rw [Nat.div_lt_iff_lt_mul cfg.PageSize_pos]
    exact ha
  obtain ⟨e, he, hp⟩ := htab _ hlt
  refine ⟨e, he, ?_, ?_⟩
  · rw [hp]
    exact Int.ofNat_nonneg _
  · rw [hp, Int.toNat_ofNat, Nat.add_mul, Nat.add_assoc, Nat.div_add_mod']

/-- C12: let the load of `exe` return without replacement, let the code
segment have `cs` bytes for the virtual addresses from `cva` read at the file
offset `cfa`, the initialised data `ds` bytes for the addresses from `dva` read
at `dfa`, and let each segment with bytes lie inside the address space and the
two be disjoint when both have bytes.  Then every byte `j` of a segment that
the file holds is, after the load, at the physical address that the page table
of the new space gives to its virtual address.  A segment of size zero is not
copied: `loadSegment` returns the memory as it was. -/
theorem loadFromFile_copies_segments (cfg : Config) (s : State) (exe : OpenFile)
    (raw : NoffHeader) (s' : State) (sp : ProcessAddressSpace) (cs cva cfa ds dva dfa : Nat)
    (halgo : s.pageReplaceAlgo = 0)
    (hraw : readNoffHeader exe = some raw)
    (hload : loadFromFile cfg s exe = some (s', sp))
    (hcs : toInt32 (fixHeader cfg raw).code.size = (cs : Int))
    (hcva : toInt32 (fixHeader cfg raw).code.virtualAddr = (cva : Int))
    (hcfa : toInt32 (fixHeader cfg raw).code.inFileAddr = (cfa : Int))
    (hds : toInt32 (fixHeader cfg raw).initData.size = (ds : Int))
    (hdva : toInt32 (fixHeader cfg raw).initData.virtualAddr = (dva : Int))
    (hdfa : toInt32 (fixHeader cfg raw).initData.inFileAddr = (dfa : Int))
    (hcin : 0 < cs → cva + cs ≤ sp.numVirtualPages * cfg.PageSize)
    (hdin : 0 < ds → dva + ds ≤ sp.numVirtualPages * cfg.PageSize)
    (hdisj : 0 < cs → 0 < ds → cva + cs ≤ dva ∨ dva + ds ≤ cva) :
    (∀ j, j < cs → cfa + j < exe.length →
        ∃ pte, sp.KernelPageTable[(cva + j) / cfg.PageSize]? = some pte ∧ 0 ≤ pte.physicalPage
          ∧ s'.mainMemory (pte.physicalPage.toNat * cfg.PageSize + (cva + j) % cfg.PageSize)
              = exe.getD (cfa + j) 0)
      ∧ (∀ j, j < ds → dfa + j < exe.length →
        ∃ pte, sp.KernelPageTable[(dva + j) / cfg.PageSize]? = some pte ∧ 0 ≤ pte.physicalPage
          ∧ s'.mainMemory (pte.physicalPage.toNat * cfg.PageSize + (dva + j) % cfg.PageSize)
              = exe.getD (dfa + j) 0)
      ∧ ∀ (table : List TranslationEntry) (mem : Nat → Nat) (seg : Segment),
          toInt32 seg.size = 0 → loadSegment cfg exe table mem seg = some mem := by
  obtain ⟨s1, mem1, hlp, hfit, hc, hd⟩ := loadFromFile_inv cfg s exe raw s' sp hraw hload
  have hn := loadFromFile_numVirtualPages cfg s exe raw s' sp hraw hload
  rw [← hn] at hlp hfit hc
  obtain ⟨s1a, table, hl, _, _, _, _, ht⟩ :=
    loadPages_policy0 cfg s halgo sp.numVirtualPages (by omega)
  rw [hlp] at hl
  simp only [Option.some.injEq, Prod.mk.injEq] at hl
  rw [← hl.2] at ht
  have hmem : s.numPagesAllocated + sp.numVirtualPages ≤ cfg.NumPhysPages := by omega
  refine ⟨?_, ?_, ?_⟩
  · intro j hj hfile
    have hcp : 0 < cs := by omega
    obtain ⟨pte, hpte, h0, hphys⟩ := table_translation cfg sp.KernelPageTable
      s.numPagesAllocated sp.numVirtualPages (cva + j) ht (by have := hcin hcp; omega)
    refine ⟨pte, hpte, h0, ?_⟩
    rw [hphys]
    have hcode : mem1 (s.numPagesAllocated * cfg.PageSize + (cva + j)) = exe.getD (cfa + j) 0 := by
      rw [loadSegment_eq cfg exe sp.KernelPageTable _ _ s.numPagesAllocated sp.numVirtualPages
        cs cva ht hcs hcva hcp (hcin hcp) hmem] at hc
      rw [← Option.some.inj hc, hcfa, ← Nat.add_assoc]
      exact ReadAt_at_inside exe _ _ cs cfa j hj hfile
    by_cases hdp : 0 < ds
    · rw [loadSegment_eq cfg exe sp.KernelPageTable _ _ s.numPagesAllocated sp.numVirtualPages
        ds dva ht hds hdva hdp (hdin hdp) hmem] at hd
      rw [← Option.some.inj hd, ReadAt_at_outside exe _ _ ds _ _
        (by have := hdisj hcp hdp; omega)]
      exact hcode
    · rw [loadSegment_empty cfg exe sp.KernelPageTable _ _ (by rw [hds]; omega)] at hd
      rw [← Option.some.inj hd]
      exact hcode
  · intro j hj hfile
    have hdp : 0 < ds := by omega
    obtain ⟨pte, hpte, h0, hphys⟩ := table_translation cfg sp.KernelPageTable
      s.numPagesAllocated sp.numVirtualPages (dva + j) ht (by have := hdin hdp; omega)
    refine ⟨pte, hpte, h0, ?_⟩
    rw [hphys]
    rw [loadSegment_eq cfg exe sp.KernelPageTable _ _ s.numPagesAllocated sp.numVirtualPages
      ds dva ht hds hdva hdp (hdin hdp) hmem] at hd
    rw [← Option.some.inj hd, hdfa, ← Nat.add_assoc]
    exact ReadAt_at_inside exe _ _ ds dfa j hj hfile
  · intro table mem seg hz
    exact loadSegment_empty cfg exe table mem seg (by rw [hz]; decide)

set_option maxRecDepth 100000 in
theorem loadFromFile_copies_segments_witness :
    ∃ s' sp, loadFromFile cfgS1 (bootState 0 (fun _ => none) []) exeS1 = some (s', sp)
      ∧ (∀ j, j < 100 → 64 + j < exeS1.length →
          ∃ pte, sp.KernelPageTable[(0 + j) / cfgS1.PageSize]? = some pte ∧ 0 ≤ pte.physicalPage
            ∧ s'.mainMemory (pte.physicalPage.toNat * cfgS1.PageSize + (0 + j) % cfgS1.PageSize)
                = exeS1.getD (64 + j) 0)
      ∧ (∀ j, j < 50 → 164 + j < exeS1.length →
          ∃ pte, sp.KernelPageTable[(128 + j) / cfgS1.PageSize]? = some pte ∧ 0 ≤ pte.physicalPage
            ∧ s'.mainMemory (pte.physicalPage.toNat * cfgS1.PageSize + (128 + j) % cfgS1.PageSize)
                = exeS1.getD (164 + j) 0) := by
  have hS1 : readNoffHeader exeS1 = some headerS1 := by decide!
  have hs : (loadFromFile cfgS1 (bootState 0 (fun _ => none) []) exeS1).isSome = true := by decide!
  obtain ⟨r, hr⟩ := Option.isSome_iff_exists.1 hs
  have hn : r.2.numVirtualPages = 4 := by
    have h : (loadFromFile cfgS1 (bootState 0 (fun _ => none) []) exeS1).map
        (fun r => r.2.numVirtualPages) = some 4 := by decide!
    rw [hr] at h
    exact Option.some.inj h
  have hmain := loadFromFile_copies_segments cfgS1 (bootState 0 (fun _ => none) []) exeS1 headerS1
    r.1 r.2 100 0 64 50 128 164 rfl hS1 hr (by decide) (by decide) (by decide) (by decide)
    (by decide) (by decide) (fun _ => by rw [hn]; decide) (fun _ => by rw [hn]; decide)
    (fun _ _ => Or.inl (by decide))
  exact ⟨r.1, r.2, hr, hmain.1, hmain.2.1⟩

/-! ## Effect of an eviction -/

/-- C22: let no frame be free under the random policy and let
`replace_with_next_physpage` draw the victim `v`, a frame that the frame table
records for page `k` of the space `sp` in slot `p`, with `pte` the entry of the
page (and room for the page in the backup buffer when it is dirty).  The call
returns `v`.  If the entry is dirty, shared or not, the bytes `k * PageSize ..
(k + 1) * PageSize - 1` of the backup buffer of the owner equal the bytes that
frame `v` held, the rest of the buffer is as before and `backed_up` is set; if
it is not dirty, the buffer and `backed_up` are as before.  The entry becomes
invalid and keeps its other fields, frame `v` is released, and every other
entry of the owner, every other space, every other frame table entry and the
memory are as before. -/
theorem replace_eviction_effect (cfg : Config) (s : State) (hint : Int) (v p k : Nat)
    (sp : ProcessAddressSpace) (pte : TranslationEntry) (rest : List Nat)
    (halgo : s.pageReplaceAlgo = 1) (hfull : firstFree cfg s = none)
    (hrand : get_random_physpage cfg s.physpage_shared s.randomStream = some (v, rest))
    (hpid : s.pid_of_physpage v = (p : Int)) (hvpn : s.vpn_of_physpage v = (k : Int))
    (hsp : s.threadArray p = some sp) (hpte : sp.KernelPageTable[k]? = some pte)
    (hbk : pte.dirty = true → k * cfg.PageSize + cfg.PageSize ≤ sp.backupSize) :
    ∃ s1 sp1, replace_with_next_physpage cfg s hint = some (s1, (v : Int))
      ∧ s1.threadArray p = some sp1
      ∧ (pte.dirty = true →
          (∀ j, j < cfg.PageSize → sp1.backup (k * cfg.PageSize + j) = s.mainMemory (v * cfg.PageSize + j))
            ∧ (∀ a, (a < k * cfg.PageSize ∨ (k + 1) * cfg.PageSize ≤ a) → sp1.backup a = sp.backup a)
            ∧ sp1.KernelPageTable[k]? = some { pte with valid := false, backed_up := true })
      ∧ (pte.dirty = false →
          sp1.backup = sp.backup ∧ sp1.KernelPageTable[k]? = some { pte with valid := false })
      ∧ (∀ i, i ≠ k → sp1.KernelPageTable[i]? = sp.KernelPageTable[i]?)
      ∧ (∀ q, q ≠ p → s1.threadArray q = s.threadArray q)
      ∧ (s1.pid_of_physpage v = -1 ∧ s1.vpn_of_physpage v = -1 ∧ s1.physpage_owner v = none)
      ∧ (∀ g, g ≠ v →
          s1.pid_of_physpage g = s.pid_of_physpage g ∧ s1.vpn_of_physpage g = s.vpn_of_physpage g
            ∧ s1.physpage_owner g = s.physpage_owner g ∧ s1.physpage_LRU g = s.physpage_LRU g
            ∧ s1.physpage_LRUclock g = s.physpage_LRUclock g)
      ∧ s1.physpage_shared = s.physpage_shared ∧ s1.physpage_FIFO = s.physpage_FIFO
      ∧ s1.mainMemory = s.mainMemory := by
  have hsh := (get_random_physpage_spec cfg _ _ v rest hrand).1
  have he := evict_eq cfg { s with randomStream := rest } v p k sp pte hsh hpid hvpn hsp hpte hbk
  have hr := replace_eq_evict cfg s hint v rest halgo hfull hrand
  rw [he] at hr
  have hlt : k < sp.KernelPageTable.length := by
    by_contra hn
    rw [List.getElem?_eq_none (by omega)] at hpte
    exact Option.noConfusion hpte
  refine ⟨_, _, hr, setAt_same _ _ _, ?_, ?_, ?_, ?_, ?_, ?_, rfl, rfl, rfl⟩
  · intro hd
    refine ⟨?_, ?_, ?_⟩
    · intro j hj
      show (if pte.dirty = true then
          copyBytes s.mainMemory (v * cfg.PageSize) sp.backup (k * cfg.PageSize) cfg.PageSize
        else sp.backup) (k * cfg.PageSize + j) = _
      rw [if_pos hd, copyBytes_apply, if_pos ⟨by omega, by omega⟩]
      congr 2
      omega
    · intro a ha
      show (if pte.dirty = true then
          copyBytes s.mainMemory (v * cfg.PageSize) sp.backup (k * cfg.PageSize) cfg.PageSize
        else sp.backup) a = _
      rw [Nat.succ_mul] at ha
      rw [if_pos hd, copyBytes_apply, if_neg (by omega)]
    · show (sp.KernelPageTable.set k _)[k]? = _
      rw [List.getElem?_set_self hlt, if_pos hd]
  · intro hd
    have hnd : ¬ pte.dirty = true := by
      rw [hd]
      exact Bool.noConfusion
    refine ⟨?_, ?_⟩
    · show (if pte.dirty = true then
          copyBytes s.mainMemory (v * cfg.PageSize) sp.backup (k * cfg.PageSize) cfg.PageSize
        else sp.backup) = _
      rw [if_neg hnd]
    · show (sp.KernelPageTable.set k _)[k]? = _
      rw [List.getElem?_set_self hlt, if_neg hnd]
  · intro i hi
    show (sp.KernelPageTable.set k _)[i]? = _
    rw [List.getElem?_set_ne (Ne.symm hi)]
  · intro q hq
    show setAt s.threadArray p _ q = _
    rw [setAt_ne _ _ hq]
  · exact ⟨setAt_same _ _ _, setAt_same _ _ _, setAt_same _ _ _⟩
  · intro g hg
    exact ⟨setAt_ne _ _ hg, setAt_ne _ _ hg, setAt_ne _ _ hg, setAt_ne _ _ hg, setAt_ne _ _ hg⟩

set_option maxRecDepth 100000 in
theorem replace_eviction_effect_witness :
    ∃ s1 sp1, replace_with_next_physpage cfgSmall stateEv (-1) = some (s1, ((1 : Nat) : Int))
      ∧ s1.threadArray 0 = some sp1
      ∧ (∀ j, j < 4 → sp1.backup (1 * 4 + j) = 20 + (1 * 4 + j))
      ∧ sp1.KernelPageTable[0]? = spaceEv.KernelPageTable[0]?
      ∧ s1.pid_of_physpage 0 = 0 ∧ s1.pid_of_physpage 1 = -1 := by
  obtain ⟨s1, sp1, h1, h2, h3, _, h5, _, h7, h8, _⟩ :=
    replace_eviction_effect cfgSmall stateEv (-1) 1 0 1 spaceEv
      { virtualPage := 1, physicalPage := 1, valid := true, readOnly := false, use := true,
        dirty := true, shared := false, backed_up := false } []
      rfl (by decide) (by decide) rfl rfl rfl rfl (fun _ => by decide)
  exact ⟨s1, sp1, h1, h2, (h3 rfl).1, h5 0 (by decide), (h8 0 (by decide)).1, h7.1⟩

/-! ## Entries of evicted pages -/

set_option maxRecDepth 100000 in
/-- C21 (failing input): in `tightFull` no frame is free and pages 0 and 1 of
thread 0 are valid in frames 0 and 1.  `replace_with_next_physpage` evicts frame
0, the frame of page 0: the frame is released (pid -1, vpn -1) and the entry of
page 0 is invalid, and it still names frame 0.  After the whole fault of thread
0 on its page 2, which takes frame 0, the entry of page 0 is invalid with
`physicalPage = 0`, not -1. -/
theorem eviction_keeps_physicalPage :
    tightFull.map (fun s => firstFree cfgTight s) = some none
      ∧ tightFull.map (fun s => tableView s 0)
        = some (some [(0, true, false), (1, true, false), (-1, false, false)])
      ∧ (tightFull.bind fun s => replace_with_next_physpage cfgTight s (-1)).map (fun r => r.2)
        = some 0
      ∧ (tightFull.bind fun s => replace_with_next_physpage cfgTight s (-1)).map
          (fun r => tableView r.1 0)
        = some (some [(0, false, false), (1, true, false), (-1, false, false)])
      ∧ (tightFull.bind fun s => replace_with_next_physpage cfgTight s (-1)).map
          (fun r => frameView r.1 0)
        = some (-1, -1, false)
      ∧ (tightFull.bind fun s => DemandPageAllocation cfgTight s 0 8).map
          (fun r => tableView r.1 0)
        = some (some [(0, false, false), (1, true, false), (0, true, false)])
      ∧ (tightFull.bind fun s => DemandPageAllocation cfgTight s 0 8).map
          (fun r => frameView r.1 0)
        = some (0, 2, false) := by
  refine ⟨?_, ?_, ?_, ?_, ?_, ?_, ?_⟩ <;> decide!

/-! ## Inputs on which the code leaves the specification -/

set_option maxRecDepth 100000 in
/-- C5 (failing input): without replacement and with 2 frames, after the
faults on pages 0 and 1 of a 3-page program, the frame that
`DemandPageAllocation` acquires for the fault on address 8 (page 2) is
`replace_with_next_physpage(-1) = 2 = NumPhysPages`, not a frame index below
`NumPhysPages`: the bytes from `2 * PageSize = 8` on, which the fault clears
and fills, lie behind the 8 bytes of the memory, so the fault has no defined
result. -/
theorem DemandPageAllocation_frame_out_of_range :
    tightFaulted.map (fun s => (s.pageReplaceAlgo, s.numPagesAllocated)) = some (0, 2)
      ∧ tightFaulted.map (fun s => tableView s 0)
          = some (some [(0, true, false), (1, true, false), (-1, false, false)])
      ∧ (tightFaulted.bind fun s => replace_with_next_physpage cfgTight s (-1)).map Prod.snd
          = some (cfgTight.NumPhysPages : Int)
      ∧ 2 * cfgTight.PageSize = cfgTight.MemorySize
      ∧ (tightFaulted.bind fun s => DemandPageAllocation cfgTight s 0 8).isNone = true := by
  refine ⟨?_, ?_, ?_, ?_, ?_⟩ <;> decide!

set_option maxRecDepth 100000 in
/-- C10 (failing input): in `progShared` frame 0 is a shared frame, recorded
for the shared page 2 of thread 0, and page 0 of the same space, valid and not
shared, is mapped to frame 0 as well.  `cleanPages` releases frame 0 through
page 0: the frame table entry of the shared frame goes from pid 0, vpn 2 to
pid -1, vpn -1. -/
theorem cleanPages_releases_shared_frame :
    progShared.map (fun r => tableView r.1 0)
        = some (some [(0, true, false), (-1, false, false), (0, true, true)])
      ∧ progShared.map (fun r => frameView r.1 0) = some (0, 2, true)
      ∧ (progShared.bind fun r => cleanPages cfgSmall r.1 0).map (fun s => frameView s 0)
        = some (-1, -1, true) := by
  refine ⟨?_, ?_, ?_⟩ <;> decide!

set_option maxRecDepth 100000 in
/-- C13 (failing input): in scenario S2 the parent has 3 pages, page 1 shared
in frame 1, and 3 frames are handed out.  The copy constructor reserves 2
frames, 3 and 4, for the pages 0 and 2 of the child, and its copy loop copies
`3 * PageSize = 12` bytes, the shared page included: frame 4 receives the bytes
21 .. 24 of the shared page, and frame 5, which is not reserved, the bytes 31 ..
34 of page 2. -/
theorem fork_copies_shared_page :
    (forkSpace cfgS4 stateS2m 0).map (fun r => r.2.KernelPageTable.map pteView)
        = some [(3, true, false), (1, true, true), (4, true, false)]
      ∧ stateS2m.numPagesAllocated = 3
      ∧ (forkSpace cfgS4 stateS2m 0).map (fun r => r.1.numPagesAllocated) = some 5
      ∧ frameBytes stateS2m 1 = [21, 22, 23, 24]
      ∧ frameBytes stateS2m 4 = [51, 52, 53, 54]
      ∧ frameBytes stateS2m 5 = [61, 62, 63, 64]
      ∧ (forkSpace cfgS4 stateS2m 0).map (fun r => frameBytes r.1 3) = some [11, 12, 13, 14]
      ∧ (forkSpace cfgS4 stateS2m 0).map (fun r => frameBytes r.1 4) = some [21, 22, 23, 24]
      ∧ (forkSpace cfgS4 stateS2m 0).map (fun r => frameBytes r.1 5) = some [31, 32, 33, 34] := by
  refine ⟨?_, ?_, ?_, ?_, ?_, ?_, ?_, ?_, ?_⟩ <;> decide!

set_option maxRecDepth 100000 in
/-- C17 (failing input): the header of `exe5` has the magic number, its code
segment lies inside the address space, and its 5 pages fit the 8 unused frames
of `cfgS1`.  Without replacement the page loop takes the frames 0 to 4 and
leaves `numPagesAllocated` at 5, so the range that is zeroed starts at byte
`5 * 128 = 640` and ends at byte 1280, behind the 1024 bytes of the memory: the
construction has no defined result. -/
theorem loadFromFile_zeroes_past_memory :
    (readNoffHeader exe5).map
        (fun raw => ((fixHeader cfgS1 raw).noffMagic,
          divRoundUp (headerSize cfgS1 (fixHeader cfgS1 raw)) cfgS1.PageSize))
      = some (cfgS1.NOFFMAGIC, 5)
      ∧ (readNoffHeader exe5).map
          (fun raw => ((fixHeader cfgS1 raw).code, (fixHeader cfgS1 raw).initData))
        = some (⟨300, 0, 40⟩, ⟨0, 0, 0⟩)
      ∧ 5 + (bootState 0 (fun _ => none) []).numPagesAllocated ≤ cfgS1.NumPhysPages
      ∧ (loadPages cfgS1 5 (bootState 0 (fun _ => none) [])).map
          (fun r => (r.2.map (fun e => e.physicalPage), r.1.numPagesAllocated))
        = some ([0, 1, 2, 3, 4], 5)
      ∧ cfgS1.MemorySize = 1024
      ∧ 5 * cfgS1.PageSize + 5 * cfgS1.PageSize = 1280
      ∧ (loadFromFile cfgS1 (bootState 0 (fun _ => none) []) exe5).isNone = true := by
  refine ⟨?_, ?_, ?_, ?_, ?_, ?_, ?_⟩ <;> decide!

/-! ## The fault counter of a fork under every policy -/

theorem replace_totalPageFaults (cfg : Config) (s : State) (hint : Int) (s1 : State) (r : Int)
    (h : replace_with_next_physpage cfg s hint = some (s1, r)) :
    s1.totalPageFaults = s.totalPageFaults := by
  rcases replace_cases cfg s hint s1 r h with ⟨_, h1, _⟩ | ⟨_, i, _, h1, _⟩ | ⟨_, _, f, rest, hg, he⟩
  · rw [h1]
  · rw [h1]
  · obtain ⟨p, k, sp, pte, _, _, _, _, _, h1, _⟩ :=
      evict_inv cfg _ f s1 r he (get_random_physpage_spec cfg _ _ f rest hg).1
    rw [h1]
    rfl

theorem manageStep_faults (cfg : Config) (self parent : Nat) (childpid : Int)
    (childthread : Option Nat) (s : State) (i : Nat) (s1 : State)
    (hne : self ≠ parent)
    (h : manageStep cfg self parent childpid childthread s i = some s1) :
    ∃ p, getPTE s parent i = some p
      ∧ s1.totalPageFaults
          = s.totalPageFaults + (if p.valid = true ∧ p.shared = false then 1 else 0) := by
  unfold manageStep at h
  cases hc0 : getPTE s self i with
  | none => simp [hc0] at h
  | some c0 =>
    simp only [hc0] at h
    rw [getPTE_setPTE_ne_key _ _ _ _ _ _ (Ne.symm hne)] at h
    cases hp : getPTE s parent i with
    | none => simp [hp] at h
    | some p =>
      simp only [hp] at h
      refine ⟨p, rfl, ?_⟩
      by_cases hsh : p.shared = true
      · rw [if_pos hsh] at h
        have hn : ¬(p.valid = true ∧ p.shared = false) := by
          intro hh
          rw [hsh] at hh
          exact Bool.noConfusion hh.2
        rw [if_neg hn]
        split at h
        · exact Option.noConfusion h
        · split at h
          · simp only [Option.some.injEq] at h
            rw [← h]
            simp
          · exact Option.noConfusion h
      · rw [if_neg hsh] at h
        have hshf : p.shared = false := by simpa using hsh
        by_cases hv : p.valid = true
        · rw [if_pos hv] at h
          rw [if_pos ⟨hv, hshf⟩]
          split at h
          · exact Option.noConfusion h
          · rename_i sr ppn hrep
            have hrt := replace_totalPageFaults cfg _ _ sr ppn hrep
            rw [setPTE_totalPageFaults] at hrt
            split at h
            · exact Option.noConfusion h
            · split at h
              · exact Option.noConfusion h
              · split at h
                · exact Option.noConfusion h
                · split at h
                  · exact Option.noConfusion h
                  · split at h
                    · exact Option.noConfusion h
                    · simp only [Option.some.injEq] at h
                      rw [← h]
                      simp [hrt]
        · rw [if_neg hv] at h
          have hn : ¬(p.valid = true ∧ p.shared = false) := fun hh => hv hh.1
          rw [if_neg hn]
          split at h
          · exact Option.noConfusion h
          · split at h
            · simp only [Option.some.injEq] at h
              rw [← h]
              simp
            · exact Option.noConfusion h

theorem reachedResident_succ (cfg : Config) (self parent : Nat) (childpid : Int)
    (childthread : Option Nat) (s : State) (k : Nat) :
    reachedResident cfg self parent childpid childthread s (k + 1)
      = reachedResident cfg self parent childpid childthread s k
        + (if residentWhenReached cfg self parent childpid childthread s k = true then 1 else 0) := by
  unfold reachedResident
  rw [List.range_succ, List.filter_append, List.length_append]
  congr 1
  by_cases h : residentWhenReached cfg self parent childpid childthread s k = true
  · rw [if_pos h]
    simp [h]
  · rw [if_neg h]
    simp [h]

theorem residentWhenReached_eq (cfg : Config) (self parent : Nat) (childpid : Int)
    (childthread : Option Nat) (s : State) (k : Nat) (sk : State) (p : TranslationEntry)
    (hk : manageLoop cfg self parent childpid childthread k s = some sk)
    (hp : getPTE sk parent k = some p) :
    (residentWhenReached cfg self parent childpid childthread s k = true)
      ↔ (p.valid = true ∧ p.shared = false) := by
  unfold residentWhenReached
  simp only [hk, hp]
  cases hv : p.valid <;> cases hs : p.shared <;> simp

theorem manageLoop_faults (cfg : Config) (self parent : Nat) (childpid : Int)
    (childthread : Option Nat) (s : State) (hne : self ≠ parent) :
    ∀ (n : Nat) (sn : State), manageLoop cfg self parent childpid childthread n s = some sn →
      sn.totalPageFaults
        = s.totalPageFaults + (reachedResident cfg self parent childpid childthread s n : Int) := by
  intro n
  induction n with
  | zero =>
    intro sn h
    simp only [manageLoop, Option.some.injEq] at h
    rw [← h]
    simp [reachedResident]
  | succ k ih =>
    intro sn h
    simp only [manageLoop] at h
    cases hk : manageLoop cfg self parent childpid childthread k s with
    | none => simp [hk] at h
    | some sk =>
      simp only [hk] at h
      obtain ⟨p, hp, hf⟩ := manageStep_faults cfg self parent childpid childthread sk k sn hne h
      have hr := residentWhenReached_eq cfg self parent childpid childthread s k sk p hk hp
      rw [hf, ih sk hk, reachedResident_succ]
      by_cases hc : p.valid = true ∧ p.shared = false
      · rw [if_pos hc, if_pos (hr.2 hc)]
        push_cast
        omega
      · rw [if_neg hc, if_neg (fun hh => hc (hr.1 hh))]
        push_cast
        omega

theorem manageLoop_unchanged_parent (cfg : Config) (self parent : Nat) (childpid : Int)
    (childthread : Option Nat) (s : State) (P : ProcessAddressSpace) (hne : self ≠ parent)
    (hP : s.threadArray parent = some P) :
    ∀ (n : Nat) (sn : State), manageLoop cfg self parent childpid childthread n s = some sn →
      (∀ i si, i < n → manageLoop cfg self parent childpid childthread i s = some si →
        getPTE si parent i = getPTE s parent i) →
      reachedResident cfg self parent childpid childthread s n
        = countResident (P.KernelPageTable.take n) := by
  intro n
  induction n with
  | zero =>
    intro sn _ _
    simp [reachedResident, countResident]
  | succ k ih =>
    intro sn h hsame
    simp only [manageLoop] at h
    cases hk : manageLoop cfg self parent childpid childthread k s with
    | none => simp [hk] at h
    | some sk =>
      simp only [hk] at h
      obtain ⟨p, hp, _⟩ := manageStep_faults cfg self parent childpid childthread sk k sn hne h
      have hr := residentWhenReached_eq cfg self parent childpid childthread s k sk p hk hp
      have hpk : P.KernelPageTable[k]? = some p := by
        rw [← getPTE_of_threadArray s parent k P hP, ← hsame k sk (Nat.lt_succ_self k) hk]
        exact hp
      rw [reachedResident_succ, countResident_take_succ _ k p hpk,
        ih sk hk (fun i si hi hsi => hsame i si (Nat.lt_succ_of_lt hi) hsi)]
      by_cases hc : p.valid = true ∧ p.shared = false
      · rw [if_pos hc, if_pos (hr.2 hc)]
      · rw [if_neg hc, if_neg (fun hh => hc (hr.1 hh))]

/-- C15 (amended): with the child in a slot other than the parent's,
`manageChildParentTable`, when it returns, has increased
`stats->totalPageFaults` by exactly the number of pages that are valid and not
shared in the parent when the loop reaches them, one for every frame that the
loop acquires, under every replacement policy.  This is the number of pages
that were valid and not shared in the parent at fork time whenever every entry
of the parent is, when the loop reaches it, as it was at fork time; in
particular with replacement disabled. -/
theorem fork_counts_reached_pages (cfg : Config) (s : State) (self parent : Nat)
    (childpid : Int) (childthread : Option Nat) (s2 : State) (P C : ProcessAddressSpace)
    (hne : self ≠ parent)
    (hP : s.threadArray parent = some P) (hC : s.threadArray self = some C)
    (h : manageChildParentTable cfg s self parent childpid childthread = some s2) :
    s2.totalPageFaults
        = s.totalPageFaults
          + (reachedResident cfg self parent childpid childthread s C.numVirtualPages : Int)
      ∧ ((∀ i si, i < C.numVirtualPages →
            manageLoop cfg self parent childpid childthread i s = some si →
            getPTE si parent i = getPTE s parent i) →
          reachedResident cfg self parent childpid childthread s C.numVirtualPages
            = countResident (P.KernelPageTable.take C.numVirtualPages))
      ∧ (s.pageReplaceAlgo = 0 →
          reachedResident cfg self parent childpid childthread s C.numVirtualPages
            = countResident (P.KernelPageTable.take C.numVirtualPages)) := by
  simp only [manageChildParentTable, hC] at h
  cases hl : manageLoop cfg self parent childpid childthread C.numVirtualPages s with
  | none => simp [hl] at h
  | some s1 =>
    simp only [hl] at h
    have h3 := manageLoop_faults cfg self parent childpid childthread s hne C.numVirtualPages s1 hl
    have hgen := manageLoop_unchanged_parent cfg self parent childpid childthread s P hne hP
      C.numVirtualPages s1 hl
    refine ⟨?_, hgen, ?_⟩
    · split at h
      · split at h
        · exact Option.noConfusion h
        · simp only [Option.some.injEq] at h
          rw [← h, ← h3]
          unfold setBackup
          split <;> rfl
      · exact Option.noConfusion h
    · intro halgo
      apply hgen
      intro i si _ hsi
      obtain ⟨_, hPi, _⟩ :=
        manageLoop_policy0 cfg self parent childpid childthread s P hne halgo hP i si hsi
      rw [getPTE_of_threadArray si parent i P hPi, getPTE_of_threadArray s parent i P hP]

set_option maxRecDepth 100000 in
/-- Witness of `fork_counts_reached_pages`.  Scenario S2 without replacement:
a parent of 3 pages whose page 1 is shared and whose pages 0 and 2 are valid;
the fork increases `totalPageFaults` by 2.  The fork of `stateF` under the
random policy: 3 pages are valid and not shared at fork time, 2 of them when
the loop reaches them, and the fork increases `totalPageFaults` by 2. -/
theorem fork_counts_reached_pages_witness :
    (∃ s2, manageChildParentTable cfgS4 copiedS2 1 0 1 (some 1) = some s2
        ∧ s2.totalPageFaults = copiedS2.totalPageFaults + 2)
      ∧ ∃ s2, manageChildParentTable cfg3 copiedF 1 0 1 (some 1) = some s2
          ∧ countResident (spaceF.KernelPageTable.take 3) = 3
          ∧ reachedResident cfg3 1 0 1 (some 1) copiedF 3 = 2
          ∧ s2.totalPageFaults = copiedF.totalPageFaults + 2 := by
  constructor
  · have hs : (manageChildParentTable cfgS4 copiedS2 1 0 1 (some 1)).isSome = true := by decide!
    obtain ⟨s2, h⟩ := Option.isSome_iff_exists.1 hs
    have hC : ∃ C, copiedS2.threadArray 1 = some C ∧ C.numVirtualPages = 3 := ⟨_, rfl, rfl⟩
    obtain ⟨C, hC, hn⟩ := hC
    obtain ⟨h1, _, h3⟩ := fork_counts_reached_pages cfgS4 copiedS2 1 0 1 (some 1) s2 spaceS2 C
      (by decide) rfl hC h
    rw [h3 rfl, hn] at h1
    exact ⟨s2, h, h1⟩
  · have hs : (manageChildParentTable cfg3 copiedF 1 0 1 (some 1)).isSome = true := by decide!
    obtain ⟨s2, h⟩ := Option.isSome_iff_exists.1 hs
    have hC : ∃ C, copiedF.threadArray 1 = some C ∧ C.numVirtualPages = 3 := ⟨_, rfl, rfl⟩
    obtain ⟨C, hC, hn⟩ := hC
    obtain ⟨h1, _, _⟩ := fork_counts_reached_pages cfg3 copiedF 1 0 1 (some 1) s2 spaceF C
      (by decide) rfl hC h
    have hr : reachedResident cfg3 1 0 1 (some 1) copiedF 3 = 2 := by decide!
    rw [hn, hr] at h1
    exact ⟨s2, h, by decide, hr, h1⟩

end Nachos
